import Mathlib

/-!
# Verification of the manifest-merging core (`src/generators/app/package-json.js`)

This file gives a shallow embedding of the manifest-merging engine of
`generator-videojs-plugin` and proves/refutes the frozen claims about it.

Modelling conventions:

* A JavaScript plain object is modelled as an association list
  `List (String × JSVal)` in property insertion order.  JavaScript object
  semantics used by the source are modelled faithfully:
  assignment to an existing key keeps its position, assignment of a new key
  appends it, `delete` removes the entry.  (The special enumeration order of
  integer-like keys in JavaScript is not modelled; manifest keys are
  non-numeric.)
* Value equality (`SameValueZero`, used by lodash `_.union` / `_.difference`)
  is modelled structurally.
* The version registry is the generator's own `plugin/package.json`
  (`optionalDependencies` / `devDependencies` / `dependencies`), which is data
  external to the translated source; it is passed in as an explicit
  `GeneratorPkg` argument.  Likewise `generatorVersion()`
  (`./generator-version`, not part of the translated source) is passed in as
  an opaque string argument.
* Fallible code (`getGeneratorVersions` throws) is modelled with
  `Except String`.
* `String.prototype.replace(/%s/g, r)` and `_.startsWith` / `substr` are
  modelled on the character lists underlying `String`.
  JavaScript's default `Array.prototype.sort` (stable, comparing the string
  conversions of the elements) is modelled by a stable insertion sort over
  the string conversion `JSVal.toStr`.
-/

/-- A JavaScript value as it occurs in a manifest document: a string, an
array, or a nested plain object (an ordered association list). -/
inductive JSVal where
  | str : String → JSVal
  | arr : List JSVal → JSVal
  | obj : List (String × JSVal) → JSVal

/-- A JavaScript plain object: ordered key/value pairs. -/
abbrev JSObj := List (String × JSVal)

mutual

/-- Decidable structural equality on `JSVal` (models `SameValueZero` for the
tree-structured values of a manifest document). -/
def JSVal.decEq : (a b : JSVal) → Decidable (a = b)
  | .str s, .str t =>
    match String.decEq s t with
    | isTrue h => isTrue (by rw [h])
    | isFalse h => isFalse (by intro hh; cases hh; exact h rfl)
  | .arr xs, .arr ys =>
    match JSVal.decEqList xs ys with
    | isTrue h => isTrue (by rw [h])
    | isFalse h => isFalse (by intro hh; cases hh; exact h rfl)
  | .obj xs, .obj ys =>
    match JSVal.decEqPairs xs ys with
    | isTrue h => isTrue (by rw [h])
    | isFalse h => isFalse (by intro hh; cases hh; exact h rfl)
  | .str _, .arr _ => isFalse (by intro h; cases h)
  | .str _, .obj _ => isFalse (by intro h; cases h)
  | .arr _, .str _ => isFalse (by intro h; cases h)
  | .arr _, .obj _ => isFalse (by intro h; cases h)
  | .obj _, .str _ => isFalse (by intro h; cases h)
  | .obj _, .arr _ => isFalse (by intro h; cases h)
termination_by structural a => a

def JSVal.decEqList : (a b : List JSVal) → Decidable (a = b)
  | [], [] => isTrue rfl
  | x :: xs, y :: ys =>
    match JSVal.decEq x y, JSVal.decEqList xs ys with
    | isTrue h1, isTrue h2 => isTrue (by rw [h1, h2])
    | isFalse h1, _ => isFalse (by intro hh; cases hh; exact h1 rfl)
    | _, isFalse h2 => isFalse (by intro hh; cases hh; exact h2 rfl)
  | [], _ :: _ => isFalse (by intro h; cases h)
  | _ :: _, [] => isFalse (by intro h; cases h)
termination_by structural a => a

def JSVal.decEqPairs : (a b : List (String × JSVal)) → Decidable (a = b)
  | [], [] => isTrue rfl
  | (k, v) :: xs, (k', v') :: ys =>
    match String.decEq k k', JSVal.decEq v v', JSVal.decEqPairs xs ys with
    | isTrue h0, isTrue h1, isTrue h2 => isTrue (by rw [h0, h1, h2])
    | isFalse h0, _, _ => isFalse (by intro hh; cases hh; exact h0 rfl)
    | _, isFalse h1, _ => isFalse (by intro hh; cases hh; exact h1 rfl)
    | _, _, isFalse h2 => isFalse (by intro hh; cases hh; exact h2 rfl)
  | [], _ :: _ => isFalse (by intro h; cases h)
  | _ :: _, [] => isFalse (by intro h; cases h)
termination_by structural a => a

end

instance : DecidableEq JSVal := JSVal.decEq

instance [DecidableEq ε] [DecidableEq α] : DecidableEq (Except ε α)
  | .ok a, .ok b =>
    match decEq a b with
    | isTrue h => isTrue (by rw [h])
    | isFalse h => isFalse (by intro hh; cases hh; exact h rfl)
  | .error a, .error b =>
    match decEq a b with
    | isTrue h => isTrue (by rw [h])
    | isFalse h => isFalse (by intro hh; cases hh; exact h rfl)
  | .ok _, .error _ => isFalse (by intro h; cases h)
  | .error _, .ok _ => isFalse (by intro h; cases h)

mutual

/-- JavaScript string conversion of a value, as used by the default
`Array.prototype.sort` comparator: strings are themselves, arrays join their
elements with `","`, plain objects convert to `"[object Object]"`. -/
def JSVal.toStr : JSVal → String
  | .str s => s
  | .arr xs => JSVal.toStrList xs
  | .obj _ => "[object Object]"
termination_by structural a => a

def JSVal.toStrList : List JSVal → String
  | [] => ""
  | [x] => x.toStr
  | x :: xs => x.toStr ++ "," ++ JSVal.toStrList xs
termination_by structural a => a

end

/-- Reading a value as an object; a missing or non-object value contributes
no properties to the merge steps (`_.assign` ignores `undefined`). -/
def JSVal.asObj : JSVal → JSObj
  | .obj o => o
  | _ => []

/-- Reading a value as an array; lodash `_.union` ignores non-array
arguments, so a missing or non-array `keywords` contributes nothing. -/
def JSVal.asArr : JSVal → List JSVal
  | .arr l => l
  | _ => []

/-- JavaScript property write `o[k] = v`: an existing key keeps its
position, a new key is appended. -/
def jsSet (o : List (String × β)) (k : String) (v : β) : List (String × β) :=
  if o.any (fun p => p.1 == k) then
    o.map (fun p => if p.1 == k then (k, v) else p)
  else o ++ [(k, v)]

/-- `_.assign(o, upd)` (also `Object.assign`): write every key of `upd` into
`o`, in order. -/
def jsAssign (o upd : List (String × β)) : List (String × β) :=
  upd.foldl (fun acc p => jsSet acc p.1 p.2) o

/-- JavaScript `delete o[k]`. -/
def jsDelete (o : List (String × β)) (k : String) : List (String × β) :=
  o.filter (fun p => p.1 != k)

/-- `Object.keys`, in property order. -/
def keysOf (o : List (String × β)) : List String := o.map Prod.fst

/-- `_.pick(source, order)`: a new object holding, for each name of `order`
present in `source`, that property of `source`, in the order of `order`. -/
def jsPick (o : List (String × β)) (order : List String) : List (String × β) :=
  order.filterMap (fun k => (List.lookup k o).map (fun v => (k, v)))

/-- Property read `o[k]` (undefined modelled as `none`). -/
def objGet (o : JSObj) (k : String) : Option JSVal := List.lookup k o

/-- Property read `o[k]` used where the source then treats the value as an
object (`current.scripts` etc.). -/
def objGetObj (o : JSObj) (k : String) : JSObj :=
  match List.lookup k o with
  | some v => v.asObj
  | none => []

/-- Property read `o[k]` used where the source then treats the value as an
array (`current.keywords`). -/
def objGetArr (o : JSObj) (k : String) : List JSVal :=
  match List.lookup k o with
  | some v => v.asArr
  | none => []

/-- `result.k = f(result.k)` for a key `k` present in `result` (all call
sites in the source apply this to keys the baseline always creates). -/
def modifyField (o : JSObj) (k : String) (f : JSVal → JSVal) : JSObj :=
  o.map (fun p => if p.1 == k then (p.1, f p.2) else p)

/-- A stable insertion sort with a boolean "may go before" test; models
JavaScript's (stable) `Array.prototype.sort`. -/
def insertSorted (le : α → α → Bool) (x : α) : List α → List α
  | [] => [x]
  | y :: ys => if le x y then x :: y :: ys else y :: insertSorted le x ys

/-- Stable sort by folding `insertSorted` from the right. -/
def sortByJS (le : α → α → Bool) (l : List α) : List α :=
  l.foldr (insertSorted le) []

/-- Lexicographic comparison of character lists by code point (JavaScript
compares strings by UTF-16 code unit; the two agree on the characters that
occur in manifests). -/
def charListLe : List Char → List Char → Bool
  | [], _ => true
  | _ :: _, [] => false
  | a :: as, b :: bs =>
    if a.val < b.val then true
    else if b.val < a.val then false
    else charListLe as bs

/-- JavaScript string comparison. -/
def strLeB (a b : String) : Bool := charListLe a.data b.data

/-- `keys.sort()` on strings. -/
def sortStrings (l : List String) : List String :=
  sortByJS strLeB l

/-- `array.sort()` with the default comparator: compare the string
conversions of the elements (stable). -/
def jsSortVals (l : List JSVal) : List JSVal :=
  sortByJS (fun a b => strLeB a.toStr b.toStr) l

/-- Drop every element already seen (first occurrences win). -/
def dedupSeen (seen : List JSVal) : List JSVal → List JSVal
  | [] => []
  | v :: rest =>
    if seen.contains v then dedupSeen seen rest
    else v :: dedupSeen (seen ++ [v]) rest

/-- `_.union(a, b)`: concatenation with duplicates removed, first
occurrence kept. -/
def jsUnion (a b : List JSVal) : List JSVal := dedupSeen [] (a ++ b)

/-- `_.startsWith(k, 'pre')`. -/
def startsWithPre (k : String) : Bool := k.data.take 3 == "pre".data

/-- `_.startsWith(k, 'post')`. -/
def startsWithPost (k : String) : Bool := k.data.take 4 == "post".data

/-- A script name the alphabetizer treats as a lifecycle (`pre`/`post`)
name. -/
def isPrePost (k : String) : Bool := startsWithPre k || startsWithPost k

/-- `pp.substr(isPre ? 3 : 4)`: the candidate core name of a `pre`/`post`
script name. -/
def strippedName (k : String) : String :=
  ⟨k.data.drop (if startsWithPre k then 3 else 4)⟩

/-- `alphabetizeObject` from the source: a new object whose keys are in
ascending lexical order. -/
def alphabetizeObject (source : JSObj) : JSObj :=
  jsPick source (sortStrings (keysOf source))

/-- One step of the `alphabetizeScripts` splice loop: find the core name of
the `pre`/`post` name via `indexOf` (`i > -1` modelled as `i < length`),
splice the name before (`pre`) or after (`post`) it, or append it at the
end when the core name is not in the order being built. -/
def spliceStep (ord : List String) (pp : String) : List String :=
  let i := ord.indexOf (strippedName pp)
  if i < ord.length then ord.insertIdx (if startsWithPre pp then i else i + 1) pp
  else ord ++ [pp]

/-- The key order `alphabetizeScripts` produces: the sorted non-`pre`/`post`
names, with each `pre`/`post` name spliced in, in insertion order. -/
def spliceOrder (keys : List String) : List String :=
  let prePost := keys.filter isPrePost
  let order := sortStrings (keys.filter (fun k => !(prePost.contains k)))
  prePost.foldl spliceStep order

/-- `alphabetizeScripts` from the source. -/
def alphabetizeScripts (source : JSObj) : JSObj :=
  jsPick source (spliceOrder (keysOf source))

/-- The generator's own dependency sets, i.e. the Version Registry data
(`plugin/package.json`, external data read by the source at load time; the
source normalizes missing `optionalDependencies`/`devDependencies` to `{}`).
-/
structure GeneratorPkg where
  optionalDependencies : List (String × String)
  devDependencies : List (String × String)
  dependencies : List (String × String)

/-- JavaScript truthiness test on an optional string (`undefined` and `""`
are falsy). -/
def strFalsy : Option String → Bool
  | none => true
  | some s => s == ""

/-- `a || b` on optional strings. -/
def jsOrStr (a b : Option String) : Option String := if strFalsy a then b else a

/-- `getGeneratorVersion` from the source:
`pkg.optionalDependencies[n] || pkg.devDependencies[n] || pkg.dependencies[n]`.
-/
def getGeneratorVersion (pkg : GeneratorPkg) (pkgName : String) : Option String :=
  jsOrStr (List.lookup pkgName pkg.optionalDependencies)
    (jsOrStr (List.lookup pkgName pkg.devDependencies)
      (List.lookup pkgName pkg.dependencies))

/-- The message of the single error the core throws. -/
def unresolvedMsg (pkgName : String) : String :=
  "Error " ++ pkgName ++ " is not in dependencies for generator-videojs-plugin"

/-- `getGeneratorVersions` from the source: resolve every listed package
name, throwing on the first name whose resolution is falsy. -/
def getGeneratorVersions (pkg : GeneratorPkg) (pkgList : List String) :
    Except String (List (String × String)) :=
  pkgList.foldlM (fun acc pkgName =>
    let version := getGeneratorVersion pkg pkgName
    if strFalsy version then Except.error (unresolvedMsg pkgName)
    else Except.ok (jsSet acc pkgName (version.getD ""))) []

/-- The package names of `DEFAULTS.dependencies`. -/
def baselineDependencyNames : List String := ["global", "video.js"]

/-- The package names of `DEFAULTS.devDependencies`. -/
def baselineDevDependencyNames : List String :=
  ["conventional-changelog-cli", "conventional-changelog-videojs", "karma",
   "npm-run-all", "rollup", "shx", "videojs-generate-rollup-config",
   "videojs-generate-karma-config", "not-prerelease", "sinon",
   "videojs-standard", "npm-merge-driver-install", "husky", "lint-staged",
   "videojs-generator-verify"]

/-- The generator rendering context (the options the source reads). -/
structure Context where
  pluginName : String
  packageName : String
  version : String
  description : String
  author : JSVal
  licenseName : JSVal
  docs : Bool
  css : Bool
  lang : Bool
  precommit : Bool
  prepush : Bool

/-- `str.replace(/%s/g, repl)` on the character list (non-overlapping,
left to right, the replacement is not rescanned). -/
def replaceTokenAux (repl : List Char) : List Char → List Char
  | [] => []
  | '%' :: 's' :: rest => repl ++ replaceTokenAux repl rest
  | c :: rest => c :: replaceTokenAux repl rest

/-- `scriptify` from the source: replace every `%s` with the plugin name
(the `Array.isArray` branch of the source is dead at all its call sites,
which only pass strings). -/
def scriptify (context : Context) (s : String) : String :=
  ⟨replaceTokenAux context.pluginName.data s.data⟩

/-- Version pairs as object properties. -/
def strPairs (l : List (String × String)) : JSObj :=
  l.map (fun p => (p.1, JSVal.str p.2))

/-- The scripts the baseline always writes (object literal at the `scripts`
key of the source's big `_.assign`), in source order. -/
def defaultScripts : JSObj :=
  [("prebuild", .str "npm run clean"),
   ("build", .str "npm-run-all -p build:*"),
   ("build:js", .str "rollup -c scripts/rollup.config.js"),
   ("clean", .str "shx rm -rf ./dist ./test/dist"),
   ("postclean", .str "shx mkdir -p ./dist ./test/dist"),
   ("lint", .str "vjsstandard"),
   ("prepublishOnly", .str "npm-run-all build test:verify"),
   ("start", .str "npm-run-all -p server watch"),
   ("server", .str "karma start scripts/karma.conf.js --singleRun=false --auto-watch"),
   ("pretest", .str "npm-run-all lint build"),
   ("test", .str "npm-run-all test:*"),
   ("test:verify", .str "vjsverify --verbose"),
   ("test:unit", .str "karma start scripts/karma.conf.js"),
   ("posttest", .str "shx cat test/dist/coverage/text.txt"),
   ("preversion", .str "npm test"),
   ("version", .str "is-prerelease || npm run update-changelog && git add CHANGELOG.md"),
   ("update-changelog", .str "conventional-changelog -p videojs -i CHANGELOG.md -s"),
   ("watch", .str "npm-run-all -p watch:*"),
   ("watch:js", .str "npm run build:js -- -w")]

/-- The scripts added by the documentation feature. -/
def docsScripts : JSObj :=
  [("docs", .str "npm-run-all docs:*"),
   ("docs:api", .str "jsdoc src -g plugins/markdown -r -d docs/api"),
   ("docs:toc", .str "doctoc README.md")]

/-- The scripts added by the stylesheet feature. -/
def cssScripts (context : Context) : JSObj :=
  [("build:css", .str (scriptify context
      "postcss -o dist/%s.css --config scripts/postcss.config.js src/plugin.css")),
   ("watch:css", .str "npm run build:css -- -w")]

/-- The fixed `files` list of the baseline, in source order. -/
def defaultFiles : List JSVal :=
  [.str "CONTRIBUTING.md", .str "dist/", .str "docs/", .str "index.html",
   .str "scripts/", .str "src/", .str "test/"]

/-- The object literal merged over `current` by the source's big
`_.assign({}, current, {...})`, in source key order. -/
def baselineOverlay (context : Context) (genVersion : String) (current : JSObj)
    (dependencyDefaults devDependencyDefaults : List (String × String)) : JSObj :=
  [("name", .str context.packageName),
   ("version", .str context.version),
   ("description", .str context.description),
   ("main", .str (scriptify context "dist/%s.cjs.js")),
   ("module", .str (scriptify context "dist/%s.es.js")),
   ("generator-videojs-plugin", .obj [("version", .str genVersion)]),
   ("browserslist", .arr [.str "defaults", .str "ie 11"]),
   ("scripts", .obj (jsAssign (objGetObj current "scripts") defaultScripts)),
   ("engines", .obj [("node", .str ">=8"), ("npm", .str ">=5")]),
   ("keywords", .arr (jsSortVals (jsUnion [.str "videojs", .str "videojs-plugin"]
      (objGetArr current "keywords")))),
   ("author", context.author),
   ("license", context.licenseName),
   ("vjsstandard", .obj [("ignore", .arr [.str "dist", .str "docs", .str "test/dist"])]),
   ("files", .arr defaultFiles),
   ("husky", .obj [("hooks", .obj [("pre-commit", .str "lint-staged"),
      ("pre-push", .str "npm run test")])]),
   ("lint-staged", .obj [("*.js", .arr [.str "vjsstandard --fix", .str "git add"]),
      ("README.md", .arr [.str "npm run docs:toc", .str "git add"])]),
   ("dependencies", .obj (jsAssign (objGetObj current "dependencies")
      (strPairs dependencyDefaults))),
   ("devDependencies", .obj (jsAssign (objGetObj current "devDependencies")
      (strPairs devDependencyDefaults)))]

/-- `packageJSON(current, context)` from the source.  `pkg` is the Version
Registry data and `genVersion` the result of `generatorVersion()` (both
external inputs of the translated module).  The module-level `DEFAULTS`
resolution is performed first, exactly as it is at load time. -/
def packageJSON (pkg : GeneratorPkg) (genVersion : String) (current : JSObj)
    (context : Context) : Except String JSObj := do
  let dependencyDefaults ← getGeneratorVersions pkg baselineDependencyNames
  let devDependencyDefaults ← getGeneratorVersions pkg baselineDevDependencyNames
  let result0 := jsAssign current
    (baselineOverlay context genVersion current dependencyDefaults devDependencyDefaults)
  -- In case husky was previously installed, but is now "none", remove it.
  let result1 :=
    if context.precommit then result0
    else
      jsDelete
        (modifyField
          (modifyField result0 "scripts" (fun v => .obj (jsDelete v.asObj "precommit")))
          "husky" (fun h => .obj (modifyField h.asObj "hooks"
            (fun hk => .obj (jsDelete hk.asObj "pre-commit")))))
        "lint-staged"
  let result2 :=
    if context.prepush then result1
    else
      modifyField
        (modifyField result1 "scripts" (fun v => .obj (jsDelete v.asObj "prepush")))
        "husky" (fun h => .obj (modifyField h.asObj "hooks"
          (fun hk => .obj (jsDelete hk.asObj "pre-push"))))
  let result3 :=
    if !context.prepush && !context.precommit then
      modifyField result2 "devDependencies"
        (fun v => .obj (jsDelete (jsDelete v.asObj "husky") "lint-staged"))
    else result2
  -- Support the documentation tooling option.
  let result4 ←
    if context.docs then do
      let r := modifyField result3 "scripts" (fun v => .obj (jsAssign v.asObj docsScripts))
      let docsVersions ← getGeneratorVersions pkg ["doctoc", "jsdoc"]
      pure (modifyField r "devDependencies"
        (fun v => .obj (jsAssign v.asObj (strPairs docsVersions))))
    else pure result3
  let result5 ←
    if context.css then do
      let r := modifyField result4 "scripts"
        (fun v => .obj (jsAssign v.asObj (cssScripts context)))
      let cssVersions ← getGeneratorVersions pkg
        ["postcss-cli", "videojs-generate-postcss-config"]
      pure (modifyField r "devDependencies"
        (fun v => .obj (jsAssign v.asObj (strPairs cssVersions))))
    else pure result4
  -- Include language support.
  let result6 ←
    if context.lang then do
      let r := modifyField result5 "scripts"
        (fun v => .obj (jsSet v.asObj "build:lang" (.str "vjslang --dir dist/lang")))
      let langVersions ← getGeneratorVersions pkg ["videojs-languages"]
      pure (modifyField r "devDependencies"
        (fun v => .obj (jsAssign v.asObj (strPairs langVersions))))
    else pure result5
  let result7 := modifyField result6 "files" (fun v => .arr (jsSortVals v.asArr))
  let result8 := modifyField result7 "scripts" (fun v => .obj (alphabetizeScripts v.asObj))
  let result9 := modifyField result8 "dependencies" (fun v => .obj (alphabetizeObject v.asObj))
  let result10 := modifyField result9 "devDependencies" (fun v => .obj (alphabetizeObject v.asObj))
  pure result10

/-! ## A pure decomposition of the pipeline

`packageJSON` interleaves registry resolution (which can throw) with
document construction.  For reasoning we factor it into the registry
resolutions, in their source order, around a total document-construction
function `purePipeline` that performs exactly the source's steps. -/

/-- The registry resolutions a feature performs when its flag is set. -/
def featureVersions (pkg : GeneratorPkg) (b : Bool) (names : List String) :
    Except String (List (String × String)) :=
  if b then getGeneratorVersions pkg names else .ok []

/-- The document construction of `packageJSON`, with all registry
resolutions already performed. -/
def purePipeline (depD devD docsD cssD langD : List (String × String))
    (genVersion : String) (current : JSObj) (context : Context) : JSObj :=
  let result0 := jsAssign current
    (baselineOverlay context genVersion current depD devD)
  let result1 :=
    if context.precommit then result0
    else
      jsDelete
        (modifyField
          (modifyField result0 "scripts" (fun v => .obj (jsDelete v.asObj "precommit")))
          "husky" (fun h => .obj (modifyField h.asObj "hooks"
            (fun hk => .obj (jsDelete hk.asObj "pre-commit")))))
        "lint-staged"
  let result2 :=
    if context.prepush then result1
    else
      modifyField
        (modifyField result1 "scripts" (fun v => .obj (jsDelete v.asObj "prepush")))
        "husky" (fun h => .obj (modifyField h.asObj "hooks"
          (fun hk => .obj (jsDelete hk.asObj "pre-push"))))
  let result3 :=
    if !context.prepush && !context.precommit then
      modifyField result2 "devDependencies"
        (fun v => .obj (jsDelete (jsDelete v.asObj "husky") "lint-staged"))
    else result2
  let result4 :=
    if context.docs then
      modifyField
        (modifyField result3 "scripts" (fun v => .obj (jsAssign v.asObj docsScripts)))
        "devDependencies" (fun v => .obj (jsAssign v.asObj (strPairs docsD)))
    else result3
  let result5 :=
    if context.css then
      modifyField
        (modifyField result4 "scripts"
          (fun v => .obj (jsAssign v.asObj (cssScripts context))))
        "devDependencies" (fun v => .obj (jsAssign v.asObj (strPairs cssD)))
    else result4
  let result6 :=
    if context.lang then
      modifyField
        (modifyField result5 "scripts"
          (fun v => .obj (jsSet v.asObj "build:lang" (.str "vjslang --dir dist/lang"))))
        "devDependencies" (fun v => .obj (jsAssign v.asObj (strPairs langD)))
    else result5
  let result7 := modifyField result6 "files" (fun v => .arr (jsSortVals v.asArr))
  let result8 := modifyField result7 "scripts" (fun v => .obj (alphabetizeScripts v.asObj))
  let result9 := modifyField result8 "dependencies" (fun v => .obj (alphabetizeObject v.asObj))
  modifyField result9 "devDependencies" (fun v => .obj (alphabetizeObject v.asObj))

theorem packageJSON_eq (pkg : GeneratorPkg) (gv : String) (cur : JSObj) (ctx : Context) :
    packageJSON pkg gv cur ctx =
      (getGeneratorVersions pkg baselineDependencyNames).bind (fun depD =>
      (getGeneratorVersions pkg baselineDevDependencyNames).bind (fun devD =>
      (featureVersions pkg ctx.docs ["doctoc", "jsdoc"]).bind (fun docsD =>
      (featureVersions pkg ctx.css ["postcss-cli", "videojs-generate-postcss-config"]).bind (fun cssD =>
      (featureVersions pkg ctx.lang ["videojs-languages"]).bind (fun langD =>
      Except.ok (purePipeline depD devD docsD cssD langD gv cur ctx)))))) := by
  obtain ⟨pn, pk, vers, desc, au, lic, docs, css, lang, pc, ppu⟩ := ctx
  unfold packageJSON featureVersions
  cases getGeneratorVersions pkg baselineDependencyNames <;>
  cases getGeneratorVersions pkg baselineDevDependencyNames <;>
  cases docs <;> cases css <;> cases lang <;>
  cases getGeneratorVersions pkg ["doctoc", "jsdoc"] <;>
  cases getGeneratorVersions pkg ["postcss-cli", "videojs-generate-postcss-config"] <;>
  cases getGeneratorVersions pkg ["videojs-languages"] <;> rfl


/-! ## Association-list lemmas -/

theorem lookup_cons_self (a : String) (b : β) (rest : List (String × β)) :
    List.lookup a ((a, b) :: rest) = some b := by
  simp [List.lookup_cons]

theorem lookup_cons_ne (k a : String) (h : ¬(k = a)) (b : β) (rest : List (String × β)) :
    List.lookup k ((a, b) :: rest) = List.lookup k rest := by
  have hb : (k == a) = false := by simp [h]
  simp [List.lookup_cons, hb]

theorem lookup_append (o1 o2 : List (String × β)) (k : String) :
    List.lookup k (o1 ++ o2) =
      (List.lookup k o1).orElse (fun _ => List.lookup k o2) := by
  induction o1 with
  | nil => simp [Option.orElse]
  | cons p rest ih =>
    obtain ⟨a, b⟩ := p
    by_cases h : k = a
    · subst h
      rw [List.cons_append, lookup_cons_self, lookup_cons_self]
      rfl
    · rw [List.cons_append, lookup_cons_ne k a h, lookup_cons_ne k a h, ih]

theorem any_key_eq_isSome (o : List (String × β)) (k : String) :
    o.any (fun p => p.1 == k) = (List.lookup k o).isSome := by
  induction o with
  | nil => simp
  | cons p rest ih =>
    obtain ⟨a, b⟩ := p
    by_cases h : k = a
    · subst h
      rw [lookup_cons_self]
      simp
    · have hb : (a == k) = false := by simp; exact fun hh => h hh.symm
      rw [lookup_cons_ne k a h, List.any_cons]
      simp only [hb, Bool.false_or, ih]

theorem lookup_map_replace (o : List (String × β)) (k0 k : String) (v : β) :
    List.lookup k (o.map fun p => if p.1 == k0 then (k0, v) else p) =
      if k = k0 then ((List.lookup k0 o).map fun _ => v) else List.lookup k o := by
  induction o with
  | nil => by_cases h : k = k0 <;> simp [h]
  | cons p rest ih =>
    obtain ⟨a, b⟩ := p
    by_cases ha : a = k0
    · subst ha
      rw [List.map_cons]
      simp only [beq_self_eq_true, if_pos]
      by_cases hk : k = a
      · subst hk
        rw [lookup_cons_self, lookup_cons_self, if_pos rfl]
        rfl
      · rw [lookup_cons_ne k a hk, lookup_cons_ne k a hk, ih, if_neg hk, if_neg hk]
    · have hb : (a == k0) = false := by simp [ha]
      rw [List.map_cons]
      simp only [hb, Bool.false_eq_true, if_false]
      by_cases hk : k = a
      · subst hk
        rw [lookup_cons_self, lookup_cons_self, if_neg ha]
      · rw [lookup_cons_ne k a hk, lookup_cons_ne k a hk, ih]
        by_cases hkk : k = k0
        · subst hkk
          rw [if_pos rfl, if_pos rfl, lookup_cons_ne k a (fun hh => ha hh.symm)]
        · rw [if_neg hkk, if_neg hkk]

theorem lookup_jsSet (o : List (String × β)) (k0 k : String) (v : β) :
    List.lookup k (jsSet o k0 v) = if k = k0 then some v else List.lookup k o := by
  unfold jsSet
  by_cases h : o.any (fun p => p.1 == k0)
  · rw [if_pos h, lookup_map_replace]
    by_cases hk : k = k0
    · subst hk
      rw [any_key_eq_isSome] at h
      obtain ⟨w, hw⟩ := Option.isSome_iff_exists.mp h
      simp [hw]
    · simp [hk]
  · rw [if_neg h, lookup_append]
    rw [any_key_eq_isSome] at h
    have hnone : List.lookup k0 o = none := by
      cases ho : List.lookup k0 o with
      | none => rfl
      | some w => rw [ho] at h; simp at h
    by_cases hk : k = k0
    · subst hk
      rw [hnone, lookup_cons_self, if_pos rfl]
      rfl
    · rw [lookup_cons_ne k k0 hk, if_neg hk]
      cases ho : List.lookup k o <;> simp [Option.orElse]

theorem keysOf_map_replace (o : List (String × β)) (k0 : String) (v : β) :
    keysOf (o.map fun p => if p.1 == k0 then (k0, v) else p) = keysOf o := by
  induction o with
  | nil => rfl
  | cons p rest ih =>
    obtain ⟨a, b⟩ := p
    by_cases ha : a = k0
    · subst ha
      simp only [List.map_cons, beq_self_eq_true, if_pos, keysOf] at *
      rw [ih]
    · have hb : (a == k0) = false := by simp [ha]
      simp only [List.map_cons, hb, Bool.false_eq_true, if_false, keysOf] at *
      rw [ih]

theorem keysOf_jsSet (o : List (String × β)) (k0 : String) (v : β) :
    keysOf (jsSet o k0 v) =
      if (List.lookup k0 o).isSome then keysOf o else keysOf o ++ [k0] := by
  unfold jsSet
  rw [← any_key_eq_isSome]
  by_cases h : o.any (fun p => p.1 == k0)
  · rw [if_pos h, if_pos h, keysOf_map_replace]
  · rw [if_neg h, if_neg h]
    simp [keysOf]

theorem lookup_jsDelete (o : List (String × β)) (k0 k : String) :
    List.lookup k (jsDelete o k0) = if k = k0 then none else List.lookup k o := by
  induction o with
  | nil => by_cases h : k = k0 <;> simp [jsDelete, h]
  | cons p rest ih =>
    obtain ⟨a, b⟩ := p
    unfold jsDelete at *
    rw [List.filter_cons]
    by_cases ha : a = k0
    · have hb : (a != k0) = false := by simp [ha]
      rw [hb, if_neg (by simp), ih]
      by_cases hk : k = k0
      · rw [if_pos hk, if_pos hk]
      · rw [if_neg hk, if_neg hk, lookup_cons_ne k a (by rw [ha]; exact hk)]
    · have hb : (a != k0) = true := by simp [ha]
      rw [hb, if_pos rfl]
      by_cases hk : k = a
      · subst hk
        rw [lookup_cons_self, lookup_cons_self, if_neg (fun hh => ha hh)]
      · rw [lookup_cons_ne k a hk, lookup_cons_ne k a hk, ih]

theorem keysOf_jsDelete (o : List (String × β)) (k0 : String) :
    keysOf (jsDelete o k0) = (keysOf o).filter (fun k => k != k0) := by
  induction o with
  | nil => rfl
  | cons p rest ih =>
    obtain ⟨a, b⟩ := p
    unfold jsDelete keysOf at *
    rw [List.filter_cons, List.map_cons, List.filter_cons]
    by_cases ha : a = k0
    · have hb : (a != k0) = false := by simp [ha]
      rw [hb, if_neg (by simp), if_neg (by simp), ih]
    · have hb : (a != k0) = true := by simp [ha]
      rw [hb, if_pos rfl, if_pos rfl, List.map_cons, ih]

theorem lookup_modifyField (o : JSObj) (k0 k : String) (f : JSVal → JSVal) :
    List.lookup k (modifyField o k0 f) =
      if k = k0 then (List.lookup k o).map f else List.lookup k o := by
  induction o with
  | nil => by_cases h : k = k0 <;> simp [modifyField, h]
  | cons p rest ih =>
    obtain ⟨a, b⟩ := p
    unfold modifyField at *
    rw [List.map_cons]
    by_cases ha : a = k0
    · have hb : (a == k0) = true := by simp [ha]
      rw [hb, if_pos rfl]
      by_cases hk : k = a
      · subst hk
        rw [lookup_cons_self, lookup_cons_self, if_pos ha]
        rfl
      · rw [lookup_cons_ne k a hk, lookup_cons_ne k a hk, ih]
    · have hb : (a == k0) = false := by simp [ha]
      rw [hb, if_neg (by simp)]
      by_cases hk : k = a
      · subst hk
        rw [lookup_cons_self, lookup_cons_self, if_neg ha]
      · rw [lookup_cons_ne k a hk, lookup_cons_ne k a hk, ih]

theorem keysOf_modifyField (o : JSObj) (k0 : String) (f : JSVal → JSVal) :
    keysOf (modifyField o k0 f) = keysOf o := by
  unfold modifyField keysOf
  rw [List.map_map]
  apply List.map_congr_left
  intro p hp
  by_cases h : p.1 = k0 <;> simp [h]

theorem lookup_jsPick (o : List (String × β)) (order : List String) (k : String) :
    List.lookup k (jsPick o order) =
      if order.contains k then List.lookup k o else none := by
  induction order with
  | nil => simp [jsPick]
  | cons a rest ih =>
    unfold jsPick at *
    cases ha : List.lookup a o with
    | none =>
      rw [List.filterMap_cons_none (by rw [ha]; rfl), ih, List.contains_cons]
      by_cases hk : k = a
      · subst hk
        simp only [beq_self_eq_true, Bool.true_or, if_pos]
        by_cases hr : rest.contains k
        · rw [if_pos hr]
        · rw [if_neg hr, ha]
      · have hb : (k == a) = false := by simp [hk]
        rw [hb, Bool.false_or]
    | some w =>
      rw [List.filterMap_cons_some (by rw [ha]; rfl), List.contains_cons]
      by_cases hk : k = a
      · subst hk
        rw [lookup_cons_self]
        simp only [beq_self_eq_true, Bool.true_or, if_pos]
        exact ha.symm
      · have hb : (k == a) = false := by simp [hk]
        rw [lookup_cons_ne k a hk, ih, hb, Bool.false_or]

theorem keysOf_jsPick (o : List (String × β)) (order : List String) :
    keysOf (jsPick o order) = order.filter (fun k => (List.lookup k o).isSome) := by
  induction order with
  | nil => rfl
  | cons a rest ih =>
    unfold jsPick keysOf at *
    rw [List.filter_cons]
    cases ha : List.lookup a o with
    | none =>
      rw [List.filterMap_cons_none (by rw [ha]; rfl), ih, if_neg (by simp [ha])]
    | some w =>
      rw [List.filterMap_cons_some (by rw [ha]; rfl), List.map_cons, ih,
        if_pos (by simp [ha])]

theorem mem_keys_of_lookup (o : List (String × β)) (k : String) (w : β)
    (h : List.lookup k o = some w) : k ∈ keysOf o := by
  induction o with
  | nil => simp [List.lookup] at h
  | cons p rest ih =>
    obtain ⟨a, b⟩ := p
    by_cases hk : k = a
    · subst hk; simp [keysOf]
    · rw [lookup_cons_ne k a hk] at h
      simp only [keysOf, List.map_cons, List.mem_cons]
      exact Or.inr (ih h)

theorem lookup_eq_none_of_not_mem (o : List (String × β)) (k : String)
    (h : k ∉ keysOf o) : List.lookup k o = none := by
  cases hr : List.lookup k o with
  | none => rfl
  | some w => exact absurd (mem_keys_of_lookup o k w hr) h

theorem lookup_jsAssign (a b : List (String × β)) (hb : (keysOf b).Nodup) (k : String) :
    List.lookup k (jsAssign a b) =
      (List.lookup k b).orElse (fun _ => List.lookup k a) := by
  induction b generalizing a with
  | nil => simp [jsAssign, Option.orElse]
  | cons p rest ih =>
    obtain ⟨k0, v0⟩ := p
    have hcons : keysOf ((k0, v0) :: rest) = k0 :: keysOf rest := rfl
    rw [hcons] at hb
    have hk0 : k0 ∉ keysOf rest := (List.nodup_cons.mp hb).1
    have hb' : (keysOf rest).Nodup := (List.nodup_cons.mp hb).2
    show List.lookup k (jsAssign (jsSet a k0 v0) rest) = _
    rw [ih (jsSet a k0 v0) hb', lookup_jsSet]
    by_cases hk : k = k0
    · subst hk
      rw [lookup_eq_none_of_not_mem rest k hk0, lookup_cons_self, if_pos rfl]
      rfl
    · rw [lookup_cons_ne k k0 hk]
      cases hr : List.lookup k rest <;> simp [Option.orElse, hk]

theorem keysOf_jsAssign (a b : List (String × β)) (hb : (keysOf b).Nodup) :
    keysOf (jsAssign a b) =
      keysOf a ++ (keysOf b).filter (fun k => !(List.lookup k a).isSome) := by
  induction b generalizing a with
  | nil => simp [jsAssign, keysOf]
  | cons p rest ih =>
    obtain ⟨k0, v0⟩ := p
    have hb2 := List.nodup_cons.mp (show (k0 :: keysOf rest).Nodup from hb)
    have hk0 : k0 ∉ keysOf rest := hb2.1
    have hb' : (keysOf rest).Nodup := hb2.2
    show keysOf (jsAssign (jsSet a k0 v0) rest) = _
    rw [ih (jsSet a k0 v0) hb', keysOf_jsSet]
    have hfilt : (keysOf rest).filter (fun k => !(List.lookup k (jsSet a k0 v0)).isSome)
        = (keysOf rest).filter (fun k => !(List.lookup k a).isSome) := by
      apply List.filter_congr
      intro x hx
      have hxk : ¬(x = k0) := fun hh => hk0 (hh ▸ hx)
      rw [lookup_jsSet, if_neg hxk]
    rw [hfilt]
    show _ = keysOf a ++ (k0 :: keysOf rest).filter (fun k => !(List.lookup k a).isSome)
    rw [List.filter_cons]
    cases ha : (List.lookup k0 a).isSome with
    | true => rw [if_pos rfl, if_neg (by simp [ha])]
    | false =>
      rw [if_neg (by simp [ha]), if_pos (by simp [ha]), List.append_assoc,
        List.singleton_append]

theorem nodup_keys_jsSet (o : List (String × β)) (k : String) (v : β)
    (h : (keysOf o).Nodup) : (keysOf (jsSet o k v)).Nodup := by
  rw [keysOf_jsSet]
  cases hs : (List.lookup k o).isSome with
  | true => rw [if_pos rfl]; exact h
  | false =>
    rw [if_neg (by simp [hs])]
    have hk : k ∉ keysOf o := by
      intro hmem
      obtain ⟨p, hp, hfst⟩ := List.mem_map.mp hmem
      have : o.any (fun q => q.1 == k) = true :=
        List.any_eq_true.mpr ⟨p, hp, by simp [hfst]⟩
      rw [any_key_eq_isSome] at this
      rw [this] at hs
      cases hs
    simp [List.nodup_append, h, hk]

theorem nodup_keys_jsAssign (a b : List (String × β)) (ha : (keysOf a).Nodup)
    (hb : (keysOf b).Nodup) : (keysOf (jsAssign a b)).Nodup := by
  induction b generalizing a with
  | nil => exact ha
  | cons p rest ih =>
    obtain ⟨k0, v0⟩ := p
    have hb2 := List.nodup_cons.mp (show (k0 :: keysOf rest).Nodup from hb)
    exact ih (jsSet a k0 v0) (nodup_keys_jsSet a k0 v0 ha) hb2.2

theorem nodup_keys_jsDelete (o : List (String × β)) (k : String)
    (h : (keysOf o).Nodup) : (keysOf (jsDelete o k)).Nodup := by
  rw [keysOf_jsDelete]
  exact h.filter _

theorem nodup_keys_jsPick (o : List (String × β)) (order : List String)
    (h : order.Nodup) : (keysOf (jsPick o order)).Nodup := by
  rw [keysOf_jsPick]
  exact h.filter _

theorem jsSet_id (o : List (String × β)) (k : String) (v : β)
    (h : (keysOf o).Nodup) (hv : List.lookup k o = some v) : jsSet o k v = o := by
  unfold jsSet
  rw [if_pos (by rw [any_key_eq_isSome, hv]; rfl)]
  induction o with
  | nil => rfl
  | cons p rest ih =>
    obtain ⟨a, b⟩ := p
    have h2 := List.nodup_cons.mp (show (a :: keysOf rest).Nodup from h)
    by_cases hk : k = a
    · subst hk
      rw [lookup_cons_self] at hv
      cases hv
      rw [List.map_cons]
      simp only [beq_self_eq_true, if_pos]
      congr 1
      have : List.map (fun p => if (p.1 == k) = true then (k, v) else p) rest
          = List.map id rest := by
        apply List.map_congr_left
        intro q hq
        have hq1 : ¬(q.1 = k) :=
          fun hh => h2.1 (hh ▸ List.mem_map_of_mem Prod.fst hq)
        simp [hq1]
      rw [this, List.map_id]
    · rw [lookup_cons_ne k a hk] at hv
      rw [List.map_cons]
      have hb : (a == k) = false := by simp; exact fun hh => hk hh.symm
      rw [hb]
      simp only [Bool.false_eq_true, if_false]
      rw [ih h2.2 hv]

theorem jsAssign_id (a b : List (String × β)) (ha : (keysOf a).Nodup)
    (hb : ∀ p ∈ b, List.lookup p.1 a = some p.2) : jsAssign a b = a := by
  induction b with
  | nil => rfl
  | cons p rest ih =>
    obtain ⟨k0, v0⟩ := p
    show jsAssign (jsSet a k0 v0) rest = a
    rw [jsSet_id a k0 v0 ha (hb (k0, v0) (List.mem_cons_self _ _))]
    exact ih (fun q hq => hb q (List.mem_cons_of_mem _ hq))

theorem alist_ext (a b : List (String × β)) (hk : keysOf a = keysOf b)
    (ha : (keysOf a).Nodup) (hl : ∀ k, List.lookup k a = List.lookup k b) :
    a = b := by
  induction a generalizing b with
  | nil =>
    cases b with
    | nil => rfl
    | cons q qs => simp [keysOf] at hk
  | cons p rest ih =>
    obtain ⟨k0, v0⟩ := p
    cases b with
    | nil => simp [keysOf] at hk
    | cons q qs =>
      obtain ⟨k1, v1⟩ := q
      have hkk : k0 = k1 ∧ keysOf rest = keysOf qs := by
        have : k0 :: keysOf rest = k1 :: keysOf qs := hk
        exact ⟨(List.cons.injEq _ _ _ _ ▸ this).1, (List.cons.injEq _ _ _ _ ▸ this).2⟩
      obtain ⟨rfl, hrest⟩ := hkk
      have hv : v0 = v1 := by
        have := hl k0
        rw [lookup_cons_self, lookup_cons_self] at this
        exact Option.some.inj this
      subst hv
      have h2 := List.nodup_cons.mp (show (k0 :: keysOf rest).Nodup from ha)
      congr 1
      apply ih qs hrest h2.2
      intro k
      by_cases hkc : k = k0
      · subst hkc
        rw [lookup_eq_none_of_not_mem rest k h2.1,
          lookup_eq_none_of_not_mem qs k (hrest ▸ h2.1)]
      · have := hl k
        rwa [lookup_cons_ne k k0 hkc, lookup_cons_ne k k0 hkc] at this

/-! ## Per-field characterization of the pipeline -/

/-- The scripts map of the output before canonical ordering: current scripts
overlaid with the baseline, minus the hook scripts whose flags are off, plus
the feature scripts. -/
def mergedScripts (current : JSObj) (context : Context) : JSObj :=
  let s0 := jsAssign (objGetObj current "scripts") defaultScripts
  let s1 := if context.precommit then s0 else jsDelete s0 "precommit"
  let s2 := if context.prepush then s1 else jsDelete s1 "prepush"
  let s3 := if context.docs then jsAssign s2 docsScripts else s2
  let s4 := if context.css then jsAssign s3 (cssScripts context) else s3
  if context.lang then jsSet s4 "build:lang" (.str "vjslang --dir dist/lang") else s4

/-- The devDependencies map of the output before canonical ordering. -/
def mergedDevDependencies (current : JSObj) (context : Context)
    (devD docsD cssD langD : List (String × String)) : JSObj :=
  let d0 := jsAssign (objGetObj current "devDependencies") (strPairs devD)
  let d1 :=
    if !context.prepush && !context.precommit then
      jsDelete (jsDelete d0 "husky") "lint-staged"
    else d0
  let d2 := if context.docs then jsAssign d1 (strPairs docsD) else d1
  let d3 := if context.css then jsAssign d2 (strPairs cssD) else d2
  if context.lang then jsAssign d3 (strPairs langD) else d3

/-- The hooks block left inside the always-present `husky` field. -/
def huskyHooksResult (context : Context) : JSObj :=
  let h0 : JSObj := [("pre-commit", .str "lint-staged"), ("pre-push", .str "npm run test")]
  let h1 := if context.precommit then h0 else jsDelete h0 "pre-commit"
  if context.prepush then h1 else jsDelete h1 "pre-push"

/-- The value of the `lint-staged` field the baseline writes. -/
def lintStagedValue : JSVal :=
  .obj [("*.js", .arr [.str "vjsstandard --fix", .str "git add"]),
    ("README.md", .arr [.str "npm run docs:toc", .str "git add"])]

/-- The top-level keys the baseline overlay writes, in source order. -/
def overlayKeys : List String :=
  ["name", "version", "description", "main", "module", "generator-videojs-plugin",
   "browserslist", "scripts", "engines", "keywords", "author", "license",
   "vjsstandard", "files", "husky", "lint-staged", "dependencies", "devDependencies"]

theorem keysOf_baselineOverlay (context : Context) (gv : String) (cur : JSObj)
    (depD devD : List (String × String)) :
    keysOf (baselineOverlay context gv cur depD devD) = overlayKeys := rfl

theorem overlayKeys_nodup : overlayKeys.Nodup := by decide

theorem lookup_scripts_purePipeline (depD devD docsD cssD langD : List (String × String))
    (gv : String) (cur : JSObj) (ctx : Context) :
    List.lookup "scripts" (purePipeline depD devD docsD cssD langD gv cur ctx) =
      some (.obj (alphabetizeScripts (mergedScripts cur ctx))) := by
  have hassign :
      List.lookup "scripts" (jsAssign cur (baselineOverlay ctx gv cur depD devD)) =
        some (.obj (jsAssign (objGetObj cur "scripts") defaultScripts)) := by
    rw [lookup_jsAssign _ _ (by rw [keysOf_baselineOverlay]; exact overlayKeys_nodup)]
    rfl
  unfold purePipeline mergedScripts
  by_cases hpc : ctx.precommit <;> by_cases hpp : ctx.prepush <;>
  by_cases hd : ctx.docs <;> by_cases hc : ctx.css <;> by_cases hl : ctx.lang <;>
    simp [hpc, hpp, hd, hc, hl, lookup_modifyField, lookup_jsDelete, hassign,
      JSVal.asObj]

theorem lookup_dependencies_purePipeline (depD devD docsD cssD langD : List (String × String))
    (gv : String) (cur : JSObj) (ctx : Context) :
    List.lookup "dependencies" (purePipeline depD devD docsD cssD langD gv cur ctx) =
      some (.obj (alphabetizeObject
        (jsAssign (objGetObj cur "dependencies") (strPairs depD)))) := by
  have hassign :
      List.lookup "dependencies" (jsAssign cur (baselineOverlay ctx gv cur depD devD)) =
        some (.obj (jsAssign (objGetObj cur "dependencies") (strPairs depD))) := by
    rw [lookup_jsAssign _ _ (by rw [keysOf_baselineOverlay]; exact overlayKeys_nodup)]
    rfl
  unfold purePipeline
  by_cases hpc : ctx.precommit <;> by_cases hpp : ctx.prepush <;>
  by_cases hd : ctx.docs <;> by_cases hc : ctx.css <;> by_cases hl : ctx.lang <;>
    simp [hpc, hpp, hd, hc, hl, lookup_modifyField, lookup_jsDelete, hassign,
      JSVal.asObj]

theorem lookup_devDependencies_purePipeline (depD devD docsD cssD langD : List (String × String))
    (gv : String) (cur : JSObj) (ctx : Context) :
    List.lookup "devDependencies" (purePipeline depD devD docsD cssD langD gv cur ctx) =
      some (.obj (alphabetizeObject
        (mergedDevDependencies cur ctx devD docsD cssD langD))) := by
  have hassign :
      List.lookup "devDependencies" (jsAssign cur (baselineOverlay ctx gv cur depD devD)) =
        some (.obj (jsAssign (objGetObj cur "devDependencies") (strPairs devD))) := by
    rw [lookup_jsAssign _ _ (by rw [keysOf_baselineOverlay]; exact overlayKeys_nodup)]
    rfl
  unfold purePipeline mergedDevDependencies
  by_cases hpc : ctx.precommit <;> by_cases hpp : ctx.prepush <;>
  by_cases hd : ctx.docs <;> by_cases hc : ctx.css <;> by_cases hl : ctx.lang <;>
    simp [hpc, hpp, hd, hc, hl, lookup_modifyField, lookup_jsDelete, hassign,
      JSVal.asObj]

theorem lookup_husky_purePipeline (depD devD docsD cssD langD : List (String × String))
    (gv : String) (cur : JSObj) (ctx : Context) :
    List.lookup "husky" (purePipeline depD devD docsD cssD langD gv cur ctx) =
      some (.obj [("hooks", .obj (huskyHooksResult ctx))]) := by
  have hassign :
      List.lookup "husky" (jsAssign cur (baselineOverlay ctx gv cur depD devD)) =
        some (.obj [("hooks", .obj [("pre-commit", .str "lint-staged"),
          ("pre-push", .str "npm run test")])]) := by
    rw [lookup_jsAssign _ _ (by rw [keysOf_baselineOverlay]; exact overlayKeys_nodup)]
    rfl
  unfold purePipeline huskyHooksResult
  by_cases hpc : ctx.precommit <;> by_cases hpp : ctx.prepush <;>
  by_cases hd : ctx.docs <;> by_cases hc : ctx.css <;> by_cases hl : ctx.lang <;>
    simp [hpc, hpp, hd, hc, hl, lookup_modifyField, lookup_jsDelete, hassign,
      JSVal.asObj] <;> rfl

theorem lookup_lintstaged_purePipeline (depD devD docsD cssD langD : List (String × String))
    (gv : String) (cur : JSObj) (ctx : Context) :
    List.lookup "lint-staged" (purePipeline depD devD docsD cssD langD gv cur ctx) =
      if ctx.precommit then some lintStagedValue else none := by
  have hassign :
      List.lookup "lint-staged" (jsAssign cur (baselineOverlay ctx gv cur depD devD)) =
        some lintStagedValue := by
    rw [lookup_jsAssign _ _ (by rw [keysOf_baselineOverlay]; exact overlayKeys_nodup)]
    rfl
  unfold purePipeline
  by_cases hpc : ctx.precommit <;> by_cases hpp : ctx.prepush <;>
  by_cases hd : ctx.docs <;> by_cases hc : ctx.css <;> by_cases hl : ctx.lang <;>
    simp [hpc, hpp, hd, hc, hl, lookup_modifyField, lookup_jsDelete, hassign,
      JSVal.asObj]

theorem lookup_files_purePipeline (depD devD docsD cssD langD : List (String × String))
    (gv : String) (cur : JSObj) (ctx : Context) :
    List.lookup "files" (purePipeline depD devD docsD cssD langD gv cur ctx) =
      some (.arr (jsSortVals defaultFiles)) := by
  have hassign :
      List.lookup "files" (jsAssign cur (baselineOverlay ctx gv cur depD devD)) =
        some (.arr defaultFiles) := by
    rw [lookup_jsAssign _ _ (by rw [keysOf_baselineOverlay]; exact overlayKeys_nodup)]
    rfl
  unfold purePipeline
  by_cases hpc : ctx.precommit <;> by_cases hpp : ctx.prepush <;>
  by_cases hd : ctx.docs <;> by_cases hc : ctx.css <;> by_cases hl : ctx.lang <;>
    simp [hpc, hpp, hd, hc, hl, lookup_modifyField, lookup_jsDelete, hassign,
      JSVal.asArr]

theorem lookup_untouched_purePipeline (depD devD docsD cssD langD : List (String × String))
    (gv : String) (cur : JSObj) (ctx : Context) (k : String)
    (h1 : ¬(k = "scripts")) (h2 : ¬(k = "dependencies")) (h3 : ¬(k = "devDependencies"))
    (h4 : ¬(k = "files")) (h5 : ¬(k = "husky")) (h6 : ¬(k = "lint-staged")) :
    List.lookup k (purePipeline depD devD docsD cssD langD gv cur ctx) =
      List.lookup k (jsAssign cur (baselineOverlay ctx gv cur depD devD)) := by
  unfold purePipeline
  by_cases hpc : ctx.precommit <;> by_cases hpp : ctx.prepush <;>
  by_cases hd : ctx.docs <;> by_cases hc : ctx.css <;> by_cases hl : ctx.lang <;>
    simp [hpc, hpp, hd, hc, hl, lookup_modifyField, lookup_jsDelete,
      h1, h2, h3, h4, h5, h6]

/-! ## The ordering rule as the specification words it

The Canonical Orderer specification: sort the core names (names that are
not lifecycle names) lexically; place `pre<core>` immediately before its
core and `post<core>` immediately after it; append lifecycle names whose
core counterpart is absent from the core order at the end, in insertion
order. -/

/-- The output key order the specification describes for a scripts map with
the given key list. -/
def specScriptsOrder (keys : List String) : List String :=
  let prePost := keys.filter isPrePost
  let cores := sortStrings (keys.filter (fun k => !(prePost.contains k)))
  (cores.flatMap (fun c =>
    (if keys.contains ("pre" ++ c) then ["pre" ++ c] else []) ++ [c] ++
    (if keys.contains ("post" ++ c) then ["post" ++ c] else []))) ++
  (prePost.filter (fun p => !(cores.contains (strippedName p))))

/-- The scripts normalization the specification describes. -/
def specAlphabetizeScripts (source : JSObj) : JSObj :=
  jsPick source (specScriptsOrder (keysOf source))

/-! ## Concrete sample data -/

/-- A registry resolving every package name the generator requests
(concrete stand-in for the generator's `plugin/package.json`). -/
def sampleRegistry : GeneratorPkg :=
  { optionalDependencies := []
    devDependencies :=
      [("conventional-changelog-cli", "^2.0.0"), ("conventional-changelog-videojs", "^3.0.0"),
       ("karma", "^3.0.0"), ("npm-run-all", "^4.1.0"), ("rollup", "^0.66.0"), ("shx", "^0.3.0"),
       ("videojs-generate-rollup-config", "^2.2.0"), ("videojs-generate-karma-config", "^5.0.0"),
       ("not-prerelease", "^1.0.0"), ("sinon", "^6.1.0"), ("videojs-standard", "^8.0.0"),
       ("npm-merge-driver-install", "^1.0.0"), ("husky", "^1.0.0"), ("lint-staged", "^7.2.0"),
       ("videojs-generator-verify", "^1.2.0"), ("doctoc", "^1.3.0"), ("jsdoc", "^3.5.0"),
       ("postcss-cli", "^6.0.0"), ("videojs-generate-postcss-config", "^2.0.1"),
       ("videojs-languages", "^1.0.0")]
    dependencies := [("global", "^4.3.0"), ("video.js", "^6.0 || ^7.0")] }

/-- A rendering context with every feature flag off. -/
def ctxAllOff : Context :=
  { pluginName := "p", packageName := "videojs-p", version := "1.0.0",
    description := "d", author := .str "au", licenseName := .str "MIT",
    docs := false, css := false, lang := false, precommit := false, prepush := false }

/-- The all-off context with documentation tooling enabled. -/
def ctxDocsOn : Context := { ctxAllOff with docs := true }

set_option maxRecDepth 200000
set_option maxHeartbeats 4000000

/-- A current document whose scripts hold a lifecycle chain
`prepretest` over the baseline `pretest`/`test`. -/
def curPre : JSObj := [("scripts", .obj [("prepretest", .str "x")])]

/-- First run of the pipeline on `curPre`. -/
def outPre1 : JSObj := (packageJSON sampleRegistry "7.2.0" curPre ctxAllOff).toOption.getD []

/-- Second run of the pipeline, on the first output. -/
def outPre2 : JSObj := (packageJSON sampleRegistry "7.2.0" outPre1 ctxAllOff).toOption.getD []

/-- C1 (counterexample): the pipeline is not idempotent for every current
document.  On a current document whose scripts contain `prepretest` (a `pre`
script of the baseline lifecycle script `pretest`), both runs succeed but
the second output differs from the first: the first run appends
`prepretest` at the end as an orphan (its core `pretest` is not yet in the
order when it is processed), while the second run, fed the sorted output,
processes `pretest` first and then splices `prepretest` in front of it. -/
theorem C1_counterexample :
    packageJSON sampleRegistry "7.2.0" curPre ctxAllOff = .ok outPre1 ∧
    packageJSON sampleRegistry "7.2.0" outPre1 ctxAllOff = .ok outPre2 ∧
    outPre1 ≠ outPre2 := by
  decide

/-- C4 (counterexample): on the scripts map with insertion order
`[pretest, test, prepretest]`, the source splices `prepretest` before the
already-inserted lifecycle script `pretest`, whereas the specified rule
appends it at the end as an orphan (its core counterpart `pretest` is not a
core name of the order). -/
theorem C4_counterexample :
    keysOf (alphabetizeScripts
        [("pretest", .str "a"), ("test", .str "b"), ("prepretest", .str "c")]) =
      ["prepretest", "pretest", "test"] ∧
    specScriptsOrder (keysOf
        ([("pretest", .str "a"), ("test", .str "b"), ("prepretest", .str "c")] : JSObj)) =
      ["pretest", "test", "prepretest"] ∧
    alphabetizeScripts
        [("pretest", .str "a"), ("test", .str "b"), ("prepretest", .str "c")] ≠
      specAlphabetizeScripts
        [("pretest", .str "a"), ("test", .str "b"), ("prepretest", .str "c")] := by
  decide

/-- C5: normalizing the scripts map with keys
`postinstall, build, prebuild` (in that insertion order) yields the key
order `[prebuild, build, postinstall]`: `prebuild` is spliced immediately
before its core `build`, and `postinstall`, whose core `install` is absent,
is appended last as an orphan — whatever the script command values are. -/
theorem C5_concrete_order (a b c : JSVal) :
    keysOf (alphabetizeScripts [("postinstall", a), ("build", b), ("prebuild", c)]) =
      ["prebuild", "build", "postinstall"] := rfl

/-- A current document whose scripts contain a `docs` entry. -/
def curDocsScript : JSObj := [("scripts", .obj [("docs", .str "keep")])]

/-- Output of the pipeline on `curDocsScript` with `docs=false`. -/
def outDocsScript : JSObj :=
  (packageJSON sampleRegistry "7.2.0" curDocsScript ctxAllOff).toOption.getD []

/-- C2 (counterexample): with `docs=false` the pipeline does not remove a
`docs` script supplied by the current document; it survives the merge into
the output scripts map with its current value. -/
theorem C2_counterexample :
    ctxAllOff.docs = false ∧
    packageJSON sampleRegistry "7.2.0" curDocsScript ctxAllOff = .ok outDocsScript ∧
    List.lookup "docs" (objGetObj outDocsScript "scripts") = some (.str "keep") := by
  decide

/-- A current document with a `husky` devDependency. -/
def curHusky : JSObj := [("devDependencies", .obj [("husky", .str "^1.0.0")])]

/-- Output of the pipeline on `curHusky` with both hook flags off. -/
def outHusky : JSObj :=
  (packageJSON sampleRegistry "7.2.0" curHusky ctxAllOff).toOption.getD []

/-- C3 (counterexample): with `precommit=false` and `prepush=false` the
output still contains the top-level `husky` field (holding an emptied hooks
block); only its hook entries and the devDependency entries are removed. -/
theorem C3_counterexample :
    ctxAllOff.precommit = false ∧ ctxAllOff.prepush = false ∧
    List.lookup "husky" (objGetObj curHusky "devDependencies") = some (.str "^1.0.0") ∧
    packageJSON sampleRegistry "7.2.0" curHusky ctxAllOff = .ok outHusky ∧
    List.lookup "husky" outHusky = some (.obj [("hooks", .obj [])]) := by
  decide

/-- A current document with a hand-written `precommit` script. -/
def curPrecommit : JSObj := [("scripts", .obj [("precommit", .str "echo hi")])]

/-- Output of the pipeline on `curPrecommit` with `precommit=false`. -/
def outPrecommit : JSObj :=
  (packageJSON sampleRegistry "7.2.0" curPrecommit ctxAllOff).toOption.getD []

/-- C6 (counterexample): `precommit` is a key of the current scripts map
that no generation stage produces (the baseline scripts have no such key and
every feature flag is off), yet it does not appear in the output: the hook
cleanup deletes it because `precommit=false`. -/
theorem C6_counterexample :
    List.lookup "precommit" defaultScripts = none ∧
    List.lookup "precommit" (objGetObj curPrecommit "scripts") = some (.str "echo hi") ∧
    packageJSON sampleRegistry "7.2.0" curPrecommit ctxAllOff = .ok outPrecommit ∧
    List.lookup "precommit" (objGetObj outPrecommit "scripts") = none := by
  decide

/-- Output of the pipeline on the empty document with every flag off. -/
def outBase : JSObj := (packageJSON sampleRegistry "7.2.0" [] ctxAllOff).toOption.getD []

/-- Output of the pipeline on the empty document with `docs=true`. -/
def outDocsOn : JSObj := (packageJSON sampleRegistry "7.2.0" [] ctxDocsOn).toOption.getD []

/-- C7 (counterexample): relative to the same inputs with `docs=false`, the
documentation feature adds three scripts (`docs`, `docs:api`, `docs:toc`),
not two; the devDependency additions are indeed two (`doctoc`, `jsdoc`). -/
theorem C7_counterexample :
    packageJSON sampleRegistry "7.2.0" [] ctxAllOff = .ok outBase ∧
    packageJSON sampleRegistry "7.2.0" [] ctxDocsOn = .ok outDocsOn ∧
    (keysOf (objGetObj outDocsOn "scripts")).length =
      (keysOf (objGetObj outBase "scripts")).length + 3 ∧
    (keysOf (objGetObj outDocsOn "devDependencies")).length =
      (keysOf (objGetObj outBase "devDependencies")).length + 2 := by
  decide

/-! ## From a successful merge to the pure pipeline -/

theorem packageJSON_ok_shape (pkg : GeneratorPkg) (gv : String) (cur : JSObj)
    (ctx : Context) (out : JSObj) (hok : packageJSON pkg gv cur ctx = .ok out) :
    ∃ depD devD docsD cssD langD,
      getGeneratorVersions pkg baselineDependencyNames = .ok depD ∧
      getGeneratorVersions pkg baselineDevDependencyNames = .ok devD ∧
      featureVersions pkg ctx.docs ["doctoc", "jsdoc"] = .ok docsD ∧
      featureVersions pkg ctx.css ["postcss-cli", "videojs-generate-postcss-config"] = .ok cssD ∧
      featureVersions pkg ctx.lang ["videojs-languages"] = .ok langD ∧
      out = purePipeline depD devD docsD cssD langD gv cur ctx := by
  rw [packageJSON_eq] at hok
  cases h1 : getGeneratorVersions pkg baselineDependencyNames with
  | error e => rw [h1] at hok; cases hok
  | ok depD =>
  rw [h1] at hok
  cases h2 : getGeneratorVersions pkg baselineDevDependencyNames with
  | error e => rw [h2] at hok; cases hok
  | ok devD =>
  rw [h2] at hok
  cases h3 : featureVersions pkg ctx.docs ["doctoc", "jsdoc"] with
  | error e => rw [h3] at hok; cases hok
  | ok docsD =>
  rw [h3] at hok
  cases h4 : featureVersions pkg ctx.css ["postcss-cli", "videojs-generate-postcss-config"] with
  | error e => rw [h4] at hok; cases hok
  | ok cssD =>
  rw [h4] at hok
  cases h5 : featureVersions pkg ctx.lang ["videojs-languages"] with
  | error e => rw [h5] at hok; cases hok
  | ok langD =>
  rw [h5] at hok
  exact ⟨depD, devD, docsD, cssD, langD, rfl, rfl, rfl, rfl, rfl, (Except.ok.inj hok).symm⟩

theorem scripts_of_ok (pkg : GeneratorPkg) (gv : String) (cur : JSObj)
    (ctx : Context) (out : JSObj) (hok : packageJSON pkg gv cur ctx = .ok out) :
    objGetObj out "scripts" = alphabetizeScripts (mergedScripts cur ctx) := by
  obtain ⟨depD, devD, docsD, cssD, langD, _, _, _, _, _, rfl⟩ :=
    packageJSON_ok_shape pkg gv cur ctx out hok
  unfold objGetObj
  rw [lookup_scripts_purePipeline]
  rfl

theorem lookup_alphabetizeScripts_none (s : JSObj) (k : String)
    (h : List.lookup k s = none) :
    List.lookup k (alphabetizeScripts s) = none := by
  unfold alphabetizeScripts
  rw [lookup_jsPick]
  cases hc : (spliceOrder (keysOf s)).contains k <;> simp [h]

theorem lookup_cssScripts_none (c : Context) (k : String)
    (h1 : ¬(k = "build:css")) (h2 : ¬(k = "watch:css")) :
    List.lookup k (cssScripts c) = none := by
  unfold cssScripts
  rw [lookup_cons_ne k _ h1, lookup_cons_ne k _ h2]
  rfl

theorem lookup_mergedScripts_cases (cur : JSObj) (ctx : Context) (k : String)
    (hdef : List.lookup k defaultScripts = none)
    (hd : List.lookup k docsScripts = none)
    (hc1 : ¬(k = "build:css")) (hc2 : ¬(k = "watch:css")) (hbl : ¬(k = "build:lang")) :
    List.lookup k (mergedScripts cur ctx) =
      if (k = "precommit" ∧ ctx.precommit = false) ∨
         (k = "prepush" ∧ ctx.prepush = false) then none
      else List.lookup k (objGetObj cur "scripts") := by
  have hassign : List.lookup k (jsAssign (objGetObj cur "scripts") defaultScripts) =
      List.lookup k (objGetObj cur "scripts") := by
    rw [lookup_jsAssign _ _ (by decide), hdef]
    rfl
  have hcssk := lookup_cssScripts_none ctx k hc1 hc2
  have hnc : (keysOf (cssScripts ctx)).Nodup := by
    have hkeys : keysOf (cssScripts ctx) = ["build:css", "watch:css"] := rfl
    rw [hkeys]
    decide
  have lAdocs : ∀ o : JSObj, List.lookup k (jsAssign o docsScripts) = List.lookup k o := by
    intro o
    rw [lookup_jsAssign _ _ (by decide), hd]
    rfl
  have lAcss : ∀ o : JSObj,
      List.lookup k (jsAssign o (cssScripts ctx)) = List.lookup k o := by
    intro o
    rw [lookup_jsAssign _ _ hnc, hcssk]
    rfl
  have lAset : ∀ o : JSObj,
      List.lookup k (jsSet o "build:lang" (.str "vjslang --dir dist/lang")) =
        List.lookup k o := by
    intro o
    rw [lookup_jsSet, if_neg hbl]
  unfold mergedScripts
  by_cases hpc : ctx.precommit <;> by_cases hpp : ctx.prepush <;>
  by_cases hdo : ctx.docs <;> by_cases hcs : ctx.css <;> by_cases hl : ctx.lang <;>
    simp only [hpc, hpp, hdo, hcs, hl, if_true, if_false, Bool.false_eq_true,
      Bool.true_eq_false, lAdocs, lAcss, lAset, lookup_jsDelete, hassign] <;>
    by_cases h1 : k = "precommit" <;> by_cases h2 : k = "prepush" <;>
      simp [h1, h2]

theorem lookup_isSome_of_mem (o : List (String × β)) (k : String)
    (h : k ∈ keysOf o) : (List.lookup k o).isSome = true := by
  rw [← any_key_eq_isSome]
  obtain ⟨p, hp, hfst⟩ := List.mem_map.mp h
  exact List.any_eq_true.mpr ⟨p, hp, by simp [hfst]⟩

theorem lookup_jsAssign_none_upd (a b : List (String × β)) (k : String)
    (hb : List.lookup k b = none) :
    List.lookup k (jsAssign a b) = List.lookup k a := by
  induction b generalizing a with
  | nil => rfl
  | cons p rest ih =>
    obtain ⟨k0, v0⟩ := p
    have hk0 : ¬(k = k0) := by
      intro hh
      subst hh
      rw [lookup_cons_self] at hb
      cases hb
    rw [lookup_cons_ne k k0 hk0] at hb
    show List.lookup k (jsAssign (jsSet a k0 v0) rest) = _
    rw [ih (jsSet a k0 v0) hb, lookup_jsSet, if_neg hk0]

theorem keysOf_strPairs (l : List (String × String)) :
    keysOf (strPairs l) = keysOf l := by
  unfold strPairs keysOf
  rw [List.map_map]
  rfl

theorem lookup_strPairs_none (l : List (String × String)) (k : String)
    (h : List.lookup k l = none) : List.lookup k (strPairs l) = none := by
  apply lookup_eq_none_of_not_mem
  rw [keysOf_strPairs]
  intro hmem
  have hs := lookup_isSome_of_mem l k hmem
  rw [h] at hs
  cases hs

theorem gGV_lookup_none (pkg : GeneratorPkg) (l : List String)
    (res : List (String × String)) (k : String)
    (hok : getGeneratorVersions pkg l = .ok res) (hk : ¬(k ∈ l)) :
    List.lookup k res = none := by
  unfold getGeneratorVersions at hok
  suffices haux : ∀ (acc : List (String × String)), List.lookup k acc = none →
      ∀ (l2 : List String), ¬(k ∈ l2) →
      (List.foldlM (fun acc pkgName =>
        let version := getGeneratorVersion pkg pkgName
        if strFalsy version then Except.error (unresolvedMsg pkgName)
        else Except.ok (jsSet acc pkgName (version.getD ""))) acc l2) = .ok res →
      List.lookup k res = none by
    exact haux [] rfl l hk hok
  intro acc hacc l2
  induction l2 generalizing acc with
  | nil =>
    intro _ hfold
    cases hfold
    exact hacc
  | cons x xs ih =>
    intro hl2 hfold
    rw [List.foldlM_cons] at hfold
    by_cases hfal : strFalsy (getGeneratorVersion pkg x)
    · rw [if_pos hfal] at hfold
      cases hfold
    · rw [if_neg hfal] at hfold
      have hkx : ¬(k = x) := fun hh => hl2 (hh ▸ List.mem_cons_self x xs)
      have hacc2 : List.lookup k (jsSet acc x ((getGeneratorVersion pkg x).getD "")) = none := by
        rw [lookup_jsSet, if_neg hkx, hacc]
      exact ih _ hacc2 (fun hh => hl2 (List.mem_cons_of_mem x hh)) hfold

theorem featureVersions_lookup_none (pkg : GeneratorPkg) (b : Bool)
    (names : List String) (res : List (String × String)) (k : String)
    (hok : featureVersions pkg b names = .ok res) (hk : ¬(k ∈ names)) :
    List.lookup k res = none := by
  unfold featureVersions at hok
  cases b with
  | true =>
    rw [if_pos rfl] at hok
    exact gGV_lookup_none pkg names res k hok hk
  | false =>
    rw [if_neg (by simp)] at hok
    cases hok
    rfl

theorem lookup_alphabetizeObject_none (s : JSObj) (k : String)
    (h : List.lookup k s = none) :
    List.lookup k (alphabetizeObject s) = none := by
  unfold alphabetizeObject
  rw [lookup_jsPick]
  cases hc : (sortStrings (keysOf s)).contains k <;> simp [h]

/-! ## Claims about script and dependency removal -/

/-- C10: when `precommit` is off, a `precommit` script of the current
document is removed from the output, and likewise for `prepush` — even
though the baseline scripts define neither name, so these deletions only
ever remove caller-supplied scripts. -/
theorem C10_hook_scripts_removed (pkg : GeneratorPkg) (gv : String) (cur : JSObj)
    (ctx : Context) (out : JSObj) (hok : packageJSON pkg gv cur ctx = .ok out) :
    List.lookup "precommit" defaultScripts = none ∧
    List.lookup "prepush" defaultScripts = none ∧
    (ctx.precommit = false → List.lookup "precommit" (objGetObj out "scripts") = none) ∧
    (ctx.prepush = false → List.lookup "prepush" (objGetObj out "scripts") = none) := by
  have hscripts := scripts_of_ok pkg gv cur ctx out hok
  refine ⟨by decide, by decide, ?_, ?_⟩
  · intro hpc
    rw [hscripts]
    apply lookup_alphabetizeScripts_none
    rw [lookup_mergedScripts_cases cur ctx "precommit" (by decide) (by decide)
      (by decide) (by decide) (by decide)]
    rw [if_pos (Or.inl ⟨rfl, hpc⟩)]
  · intro hpp
    rw [hscripts]
    apply lookup_alphabetizeScripts_none
    rw [lookup_mergedScripts_cases cur ctx "prepush" (by decide) (by decide)
      (by decide) (by decide) (by decide)]
    rw [if_pos (Or.inr ⟨rfl, hpp⟩)]

/-- Closed instance of `C10_hook_scripts_removed` on a concrete run. -/
theorem C10_witness :
    List.lookup "precommit" (objGetObj outPrecommit "scripts") = none ∧
    List.lookup "prepush" (objGetObj outPrecommit "scripts") = none := by
  have h := C10_hook_scripts_removed sampleRegistry "7.2.0" curPrecommit ctxAllOff
    outPrecommit (by decide)
  exact ⟨h.2.2.1 rfl, h.2.2.2 rfl⟩

/-- C2 (amended): with `docs=false` the pipeline adds no documentation
scripts, so the output scripts map contains `docs`, `docs:api` or
`docs:toc` only when the current document already had that key; when the
current scripts lack them, the output lacks them. -/
theorem C2_amended_no_docs_scripts (pkg : GeneratorPkg) (gv : String) (cur : JSObj)
    (ctx : Context) (out : JSObj) (hok : packageJSON pkg gv cur ctx = .ok out)
    (hdocs : ctx.docs = false)
    (h1 : List.lookup "docs" (objGetObj cur "scripts") = none)
    (h2 : List.lookup "docs:api" (objGetObj cur "scripts") = none)
    (h3 : List.lookup "docs:toc" (objGetObj cur "scripts") = none) :
    List.lookup "docs" (objGetObj out "scripts") = none ∧
    List.lookup "docs:api" (objGetObj out "scripts") = none ∧
    List.lookup "docs:toc" (objGetObj out "scripts") = none := by
  have hscripts := scripts_of_ok pkg gv cur ctx out hok
  have hone : ∀ k2, List.lookup k2 defaultScripts = none →
      ¬(k2 = "build:css") → ¬(k2 = "watch:css") → ¬(k2 = "build:lang") →
      ¬(k2 = "precommit") → ¬(k2 = "prepush") →
      List.lookup k2 (objGetObj cur "scripts") = none →
      List.lookup k2 (objGetObj out "scripts") = none := by
    intro k2 hk2def hkc1 hkc2 hkc3 hkp1 hkp2 hcur
    rw [hscripts]
    apply lookup_alphabetizeScripts_none
    unfold mergedScripts
    rw [hdocs]
    have hassign : List.lookup k2 (jsAssign (objGetObj cur "scripts") defaultScripts) =
        none := by
      rw [lookup_jsAssign _ _ (by decide), hk2def, hcur]
      rfl
    have hnc : (keysOf (cssScripts ctx)).Nodup := by
      have hkeys : keysOf (cssScripts ctx) = ["build:css", "watch:css"] := rfl
      rw [hkeys]
      decide
    by_cases hpc : ctx.precommit <;> by_cases hpp : ctx.prepush <;>
    by_cases hcs : ctx.css <;> by_cases hl : ctx.lang <;>
      simp only [hpc, hpp, hcs, hl, if_true, if_false, Bool.false_eq_true,
        Bool.true_eq_false, lookup_jsSet, lookup_jsDelete, if_neg hkc3,
        if_neg hkp1, if_neg hkp2] <;>
      simp [lookup_jsAssign _ (cssScripts ctx) hnc,
        lookup_cssScripts_none ctx k2 hkc1 hkc2, lookup_jsDelete,
        if_neg hkp1, if_neg hkp2, hassign, Option.orElse]
  exact ⟨hone "docs" (by decide) (by decide) (by decide) (by decide) (by decide)
      (by decide) h1,
    hone "docs:api" (by decide) (by decide) (by decide) (by decide) (by decide)
      (by decide) h2,
    hone "docs:toc" (by decide) (by decide) (by decide) (by decide) (by decide)
      (by decide) h3⟩

/-- Closed instance of `C2_amended_no_docs_scripts` on a concrete run. -/
theorem C2_amended_witness :
    List.lookup "docs" (objGetObj outBase "scripts") = none ∧
    List.lookup "docs:api" (objGetObj outBase "scripts") = none ∧
    List.lookup "docs:toc" (objGetObj outBase "scripts") = none := by
  exact C2_amended_no_docs_scripts sampleRegistry "7.2.0" [] ctxAllOff outBase
    (by decide) rfl rfl rfl rfl

theorem lookup_mergedDevDeps_removed (cur : JSObj) (ctx : Context)
    (devD docsD cssD langD : List (String × String)) (k2 : String)
    (hpcpp : (!ctx.prepush && !ctx.precommit) = true)
    (hdocsD : List.lookup k2 (strPairs docsD) = none)
    (hcssD : List.lookup k2 (strPairs cssD) = none)
    (hlangD : List.lookup k2 (strPairs langD) = none)
    (hk2 : k2 = "husky" ∨ k2 = "lint-staged") :
    List.lookup k2 (mergedDevDependencies cur ctx devD docsD cssD langD) = none := by
  have lAd : ∀ o : JSObj, List.lookup k2 (jsAssign o (strPairs docsD)) = List.lookup k2 o :=
    fun o => lookup_jsAssign_none_upd o _ k2 hdocsD
  have lAc : ∀ o : JSObj, List.lookup k2 (jsAssign o (strPairs cssD)) = List.lookup k2 o :=
    fun o => lookup_jsAssign_none_upd o _ k2 hcssD
  have lAl : ∀ o : JSObj, List.lookup k2 (jsAssign o (strPairs langD)) = List.lookup k2 o :=
    fun o => lookup_jsAssign_none_upd o _ k2 hlangD
  have hdel : List.lookup k2 (jsDelete (jsDelete
      (jsAssign (objGetObj cur "devDependencies") (strPairs devD)) "husky")
      "lint-staged") = none := by
    rcases hk2 with rfl | rfl
    · rw [lookup_jsDelete, if_neg (by decide), lookup_jsDelete, if_pos rfl]
    · rw [lookup_jsDelete, if_pos rfl]
  unfold mergedDevDependencies
  by_cases hdo : ctx.docs <;> by_cases hcs : ctx.css <;> by_cases hl : ctx.lang <;>
    simp [hpcpp, hdo, hcs, hl, lAd, lAc, lAl, hdel]

/-- C3 (amended): with `precommit=false` and `prepush=false` the output has
no `husky` or `lint-staged` keys in `devDependencies`, none among the
scripts (given the current document supplies no scripts of those names), no
entries inside the husky hooks block, and no top-level `lint-staged` block —
but the top-level `husky` field itself remains, holding an emptied hooks
object. -/
theorem C3_amended_husky_removal (pkg : GeneratorPkg) (gv : String) (cur : JSObj)
    (ctx : Context) (out : JSObj) (hok : packageJSON pkg gv cur ctx = .ok out)
    (hpc : ctx.precommit = false) (hpp : ctx.prepush = false)
    (hs1 : List.lookup "husky" (objGetObj cur "scripts") = none)
    (hs2 : List.lookup "lint-staged" (objGetObj cur "scripts") = none) :
    List.lookup "husky" (objGetObj out "devDependencies") = none ∧
    List.lookup "lint-staged" (objGetObj out "devDependencies") = none ∧
    List.lookup "husky" (objGetObj out "scripts") = none ∧
    List.lookup "lint-staged" (objGetObj out "scripts") = none ∧
    List.lookup "lint-staged" out = none ∧
    List.lookup "husky" out = some (.obj [("hooks", .obj [])]) := by
  have hscripts := scripts_of_ok pkg gv cur ctx out hok
  obtain ⟨depD, devD, docsD, cssD, langD, hr1, hr2, hr3, hr4, hr5, rfl⟩ :=
    packageJSON_ok_shape pkg gv cur ctx out hok
  have hflag : (!ctx.prepush && !ctx.precommit) = true := by rw [hpc, hpp]; rfl
  have hsc : ∀ k2, k2 = "husky" ∨ k2 = "lint-staged" →
      List.lookup k2 (objGetObj cur "scripts") = none →
      List.lookup k2 (objGetObj
        (purePipeline depD devD docsD cssD langD gv cur ctx) "scripts") = none := by
    intro k2 hk2 hcur
    rw [hscripts]
    apply lookup_alphabetizeScripts_none
    rw [lookup_mergedScripts_cases cur ctx k2
      (by rcases hk2 with rfl | rfl <;> decide)
      (by rcases hk2 with rfl | rfl <;> decide)
      (by rcases hk2 with rfl | rfl <;> decide)
      (by rcases hk2 with rfl | rfl <;> decide)
      (by rcases hk2 with rfl | rfl <;> decide)]
    rw [if_neg (by rcases hk2 with rfl | rfl <;> simp), hcur]
  have hdd : ∀ k2, k2 = "husky" ∨ k2 = "lint-staged" →
      List.lookup k2 (objGetObj
        (purePipeline depD devD docsD cssD langD gv cur ctx) "devDependencies") = none := by
    intro k2 hk2
    have hna : ¬(k2 ∈ (["doctoc", "jsdoc"] : List String)) := by
      rcases hk2 with rfl | rfl <;> decide
    have hnb : ¬(k2 ∈ (["postcss-cli", "videojs-generate-postcss-config"] : List String)) := by
      rcases hk2 with rfl | rfl <;> decide
    have hnc : ¬(k2 ∈ (["videojs-languages"] : List String)) := by
      rcases hk2 with rfl | rfl <;> decide
    unfold objGetObj
    rw [lookup_devDependencies_purePipeline]
    show List.lookup k2 (alphabetizeObject
      (mergedDevDependencies cur ctx devD docsD cssD langD)) = none
    apply lookup_alphabetizeObject_none
    exact lookup_mergedDevDeps_removed cur ctx devD docsD cssD langD k2 hflag
      (lookup_strPairs_none _ _ (featureVersions_lookup_none pkg ctx.docs _ docsD k2 hr3 hna))
      (lookup_strPairs_none _ _ (featureVersions_lookup_none pkg ctx.css _ cssD k2 hr4 hnb))
      (lookup_strPairs_none _ _ (featureVersions_lookup_none pkg ctx.lang _ langD k2 hr5 hnc))
      hk2
  refine ⟨hdd "husky" (Or.inl rfl), hdd "lint-staged" (Or.inr rfl),
    hsc "husky" (Or.inl rfl) hs1, hsc "lint-staged" (Or.inr rfl) hs2, ?_, ?_⟩
  · rw [lookup_lintstaged_purePipeline, hpc]
    rfl
  · rw [lookup_husky_purePipeline]
    have hh : huskyHooksResult ctx = [] := by
      unfold huskyHooksResult
      rw [hpc, hpp]
      rfl
    rw [hh]

/-- Closed instance of `C3_amended_husky_removal` on a concrete run. -/
theorem C3_amended_witness :
    List.lookup "husky" (objGetObj outHusky "devDependencies") = none ∧
    List.lookup "husky" outHusky = some (.obj [("hooks", .obj [])]) := by
  have h := C3_amended_husky_removal sampleRegistry "7.2.0" curHusky ctxAllOff
    outHusky (by decide) rfl rfl (by decide) (by decide)
  exact ⟨h.1, h.2.2.2.2.2⟩

/-! ## The splice order is a permutation of the keys -/

theorem insertSorted_perm (le : α → α → Bool) (x : α) (l : List α) :
    (insertSorted le x l).Perm (x :: l) := by
  induction l with
  | nil => exact List.Perm.refl _
  | cons y ys ih =>
    unfold insertSorted
    by_cases h : le x y
    · rw [if_pos h]
    · rw [if_neg h]
      exact (ih.cons y).trans (List.Perm.swap x y ys)

theorem sortByJS_perm (le : α → α → Bool) (l : List α) : (sortByJS le l).Perm l := by
  induction l with
  | nil => exact List.Perm.refl _
  | cons x xs ih =>
    show (insertSorted le x (sortByJS le xs)).Perm _
    exact (insertSorted_perm le x (sortByJS le xs)).trans (ih.cons x)

theorem sortStrings_perm (l : List String) : (sortStrings l).Perm l := sortByJS_perm _ l

theorem contains_iff_mem (l : List String) (k : String) : l.contains k = true ↔ k ∈ l := by
  induction l with
  | nil => simp
  | cons a rest ih =>
    rw [List.contains_cons]
    by_cases h : k = a
    · subst h; simp
    · have hb : (k == a) = false := by simp [h]
      simp [hb, ih, h]

theorem filter_not_contains_prePost (keys : List String) :
    keys.filter (fun k => !((keys.filter isPrePost).contains k)) =
      keys.filter (fun k => !(isPrePost k)) := by
  apply List.filter_congr
  intro k hk
  congr 1
  cases hpp : isPrePost k with
  | true =>
    have hmem : k ∈ keys.filter isPrePost := List.mem_filter.mpr ⟨hk, hpp⟩
    exact (contains_iff_mem _ k).mpr hmem
  | false =>
    have hmem : k ∉ keys.filter isPrePost := by
      intro hmem
      have := (List.mem_filter.mp hmem).2
      rw [hpp] at this
      cases this
    cases hc : (keys.filter isPrePost).contains k with
    | false => rfl
    | true => exact absurd ((contains_iff_mem _ k).mp hc) hmem

theorem spliceStep_perm (ord : List String) (pp : String) :
    (spliceStep ord pp).Perm (pp :: ord) := by
  unfold spliceStep
  by_cases h : ord.indexOf (strippedName pp) < ord.length
  · rw [if_pos h]
    by_cases hpre : startsWithPre pp
    · rw [if_pos hpre]
      exact List.perm_insertIdx pp ord (le_of_lt h)
    · rw [if_neg hpre]
      exact List.perm_insertIdx pp ord (by omega)
  · rw [if_neg h]
    simpa using (List.perm_middle : (ord ++ pp :: []).Perm (pp :: (ord ++ [])))

theorem foldl_spliceStep_perm (pps : List String) (ord : List String) :
    (pps.foldl spliceStep ord).Perm (ord ++ pps) := by
  induction pps generalizing ord with
  | nil => simpa using List.Perm.refl ord
  | cons p ps ih =>
    show (ps.foldl spliceStep (spliceStep ord p)).Perm _
    have h2 : (spliceStep ord p ++ ps).Perm (ord ++ p :: ps) := by
      have h3 := (spliceStep_perm ord p).append_right ps
      exact h3.trans List.perm_middle.symm
    exact (ih (spliceStep ord p)).trans h2

theorem spliceOrder_perm (keys : List String) : (spliceOrder keys).Perm keys := by
  unfold spliceOrder
  apply (foldl_spliceStep_perm _ _).trans
  rw [filter_not_contains_prePost]
  apply ((sortStrings_perm _).append_right _).trans
  have h := List.filter_append_perm (fun k => !(isPrePost k)) keys
  have heq : keys.filter (fun x => !(!(isPrePost x))) = keys.filter isPrePost := by
    apply List.filter_congr
    intro x _
    rw [Bool.not_not]
  rw [heq] at h
  exact h

theorem lookup_alphabetizeScripts (s : JSObj) (k : String) :
    List.lookup k (alphabetizeScripts s) = List.lookup k s := by
  unfold alphabetizeScripts
  rw [lookup_jsPick]
  by_cases hm : k ∈ keysOf s
  · rw [if_pos ((contains_iff_mem _ k).mpr (((spliceOrder_perm (keysOf s)).mem_iff).mpr hm))]
  · cases hc : (spliceOrder (keysOf s)).contains k with
    | true =>
      exact absurd (((spliceOrder_perm (keysOf s)).mem_iff).mp
        ((contains_iff_mem _ k).mp hc)) hm
    | false =>
      rw [if_neg (by simp [hc]), lookup_eq_none_of_not_mem s k hm]

theorem lookup_alphabetizeObject (s : JSObj) (k : String) :
    List.lookup k (alphabetizeObject s) = List.lookup k s := by
  unfold alphabetizeObject
  rw [lookup_jsPick]
  by_cases hm : k ∈ keysOf s
  · rw [if_pos ((contains_iff_mem _ k).mpr (((sortStrings_perm (keysOf s)).mem_iff).mpr hm))]
  · cases hc : (sortStrings (keysOf s)).contains k with
    | true =>
      exact absurd (((sortStrings_perm (keysOf s)).mem_iff).mp
        ((contains_iff_mem _ k).mp hc)) hm
    | false =>
      rw [if_neg (by simp [hc]), lookup_eq_none_of_not_mem s k hm]

theorem keysOf_alphabetizeScripts (s : JSObj) :
    keysOf (alphabetizeScripts s) = spliceOrder (keysOf s) := by
  unfold alphabetizeScripts
  rw [keysOf_jsPick]
  apply List.filter_eq_self.mpr
  intro a ha
  exact lookup_isSome_of_mem s a ((spliceOrder_perm (keysOf s)).subset ha)

theorem keysOf_alphabetizeObject (s : JSObj) :
    keysOf (alphabetizeObject s) = sortStrings (keysOf s) := by
  unfold alphabetizeObject
  rw [keysOf_jsPick]
  apply List.filter_eq_self.mpr
  intro a ha
  exact lookup_isSome_of_mem s a ((sortStrings_perm (keysOf s)).subset ha)

/-! ## Generated maps and overlay semantics -/

theorem orElse_assoc (a b c : Option α) :
    (a.orElse (fun _ => b)).orElse (fun _ => c) =
      a.orElse (fun _ => b.orElse (fun _ => c)) := by
  cases a <;> rfl

theorem lookup_jsAssign_isSome (a b : List (String × β)) (k : String)
    (h : (List.lookup k a).isSome = true) :
    (List.lookup k (jsAssign a b)).isSome = true := by
  induction b generalizing a with
  | nil => exact h
  | cons p rest ih =>
    obtain ⟨k0, v0⟩ := p
    show (List.lookup k (jsAssign (jsSet a k0 v0) rest)).isSome = true
    apply ih
    rw [lookup_jsSet]
    by_cases hk : k = k0
    · rw [if_pos hk]; rfl
    · rw [if_neg hk]; exact h

theorem lookup_jsAssign_isSome_upd (a b : List (String × β)) (k : String)
    (h : (List.lookup k b).isSome = true) :
    (List.lookup k (jsAssign a b)).isSome = true := by
  induction b generalizing a with
  | nil => cases h
  | cons p rest ih =>
    obtain ⟨k0, v0⟩ := p
    show (List.lookup k (jsAssign (jsSet a k0 v0) rest)).isSome = true
    by_cases hk : k = k0
    · subst hk
      apply lookup_jsAssign_isSome
      rw [lookup_jsSet, if_pos rfl]
      rfl
    · rw [lookup_cons_ne k k0 hk] at h
      exact ih _ h

theorem gGV_keys_nodup (pkg : GeneratorPkg) (l : List String)
    (res : List (String × String)) (hok : getGeneratorVersions pkg l = .ok res) :
    (keysOf res).Nodup := by
  unfold getGeneratorVersions at hok
  suffices haux : ∀ (l2 : List String) (acc : List (String × String)),
      (keysOf acc).Nodup →
      (List.foldlM (fun acc pkgName =>
        let version := getGeneratorVersion pkg pkgName
        if strFalsy version then Except.error (unresolvedMsg pkgName)
        else Except.ok (jsSet acc pkgName (version.getD ""))) acc l2) = .ok res →
      (keysOf res).Nodup by
    exact haux l [] (by decide) hok
  intro l2
  induction l2 with
  | nil =>
    intro acc hacc hfold
    cases hfold
    exact hacc
  | cons x xs ih =>
    intro acc hacc hfold
    rw [List.foldlM_cons] at hfold
    by_cases hfal : strFalsy (getGeneratorVersion pkg x)
    · rw [if_pos hfal] at hfold
      cases hfold
    · rw [if_neg hfal] at hfold
      exact ih _ (nodup_keys_jsSet acc x _ hacc) hfold

theorem featureVersions_keys_nodup (pkg : GeneratorPkg) (b : Bool)
    (names : List String) (res : List (String × String))
    (hok : featureVersions pkg b names = .ok res) : (keysOf res).Nodup := by
  unfold featureVersions at hok
  cases b with
  | true =>
    rw [if_pos rfl] at hok
    exact gGV_keys_nodup pkg names res hok
  | false =>
    rw [if_neg (by simp)] at hok
    cases hok
    decide

theorem nodup_keys_strPairs (l : List (String × String)) (h : (keysOf l).Nodup) :
    (keysOf (strPairs l)).Nodup := by
  rw [keysOf_strPairs]
  exact h

theorem lookup_docsScripts_none (k : String) (h1 : ¬(k = "docs"))
    (h2 : ¬(k = "docs:api")) (h3 : ¬(k = "docs:toc")) :
    List.lookup k docsScripts = none := by
  unfold docsScripts
  rw [lookup_cons_ne k _ h1, lookup_cons_ne k _ h2, lookup_cons_ne k _ h3]
  rfl

/-- The scripts the Baseline Composer and Conditional Merger produce for a
context (defaults overlaid with the feature scripts). -/
def generatedScripts (context : Context) : JSObj :=
  let g1 := if context.docs then jsAssign defaultScripts docsScripts else defaultScripts
  let g2 := if context.css then jsAssign g1 (cssScripts context) else g1
  if context.lang then jsSet g2 "build:lang" (.str "vjslang --dir dist/lang") else g2

/-- The devDependency entries the Baseline Composer and Conditional Merger
produce for a context, given the resolved version maps. -/
def generatedDevDependencies (context : Context)
    (devD docsD cssD langD : List (String × String)) : JSObj :=
  let g1 := if context.docs then jsAssign (strPairs devD) (strPairs docsD) else strPairs devD
  let g2 := if context.css then jsAssign g1 (strPairs cssD) else g1
  if context.lang then jsAssign g2 (strPairs langD) else g2

theorem orElse_ite (c : Prop) [Decidable c] (v : α) (X : Option α)
    (f : Unit → Option α) :
    (if c then some v else X).orElse f = if c then some v else X.orElse f := by
  split <;> rfl

theorem lookup_mergedScripts_orElse (cur : JSObj) (ctx : Context) (k : String)
    (hnp1 : ¬(k = "precommit" ∧ ctx.precommit = false))
    (hnp2 : ¬(k = "prepush" ∧ ctx.prepush = false)) :
    List.lookup k (mergedScripts cur ctx) =
      (List.lookup k (generatedScripts ctx)).orElse
        (fun _ => List.lookup k (objGetObj cur "scripts")) := by
  have hnc : (keysOf (cssScripts ctx)).Nodup := by
    have hkeys : keysOf (cssScripts ctx) = ["build:css", "watch:css"] := rfl
    rw [hkeys]
    decide
  have lA0 : ∀ o : JSObj, List.lookup k (jsAssign o defaultScripts) =
      (List.lookup k defaultScripts).orElse (fun _ => List.lookup k o) :=
    fun o => lookup_jsAssign o defaultScripts (by decide) k
  have lAd : ∀ o : JSObj, List.lookup k (jsAssign o docsScripts) =
      (List.lookup k docsScripts).orElse (fun _ => List.lookup k o) :=
    fun o => lookup_jsAssign o docsScripts (by decide) k
  have lAc : ∀ o : JSObj, List.lookup k (jsAssign o (cssScripts ctx)) =
      (List.lookup k (cssScripts ctx)).orElse (fun _ => List.lookup k o) :=
    fun o => lookup_jsAssign o (cssScripts ctx) hnc k
  unfold mergedScripts generatedScripts
  cases hpc : ctx.precommit <;> cases hpp : ctx.prepush <;>
  cases hdo : ctx.docs <;> cases hcs : ctx.css <;> cases hl : ctx.lang <;>
  all_goals
    first
      | (have hk1 : ¬(k = "precommit") := fun hh => hnp1 ⟨hh, hpc⟩
         first
           | (have hk2 : ¬(k = "prepush") := fun hh => hnp2 ⟨hh, hpp⟩
              simp [hpc, hpp, hdo, hcs, hl, lA0, lAd, lAc, lookup_jsSet,
                lookup_jsDelete, hk1, hk2, orElse_assoc, orElse_ite])
           | simp [hpc, hpp, hdo, hcs, hl, lA0, lAd, lAc, lookup_jsSet,
               lookup_jsDelete, hk1, orElse_assoc, orElse_ite])
      | (have hk2 : ¬(k = "prepush") := fun hh => hnp2 ⟨hh, hpp⟩
         simp [hpc, hpp, hdo, hcs, hl, lA0, lAd, lAc, lookup_jsSet,
           lookup_jsDelete, hk2, orElse_assoc, orElse_ite])
      | simp [hpc, hpp, hdo, hcs, hl, lA0, lAd, lAc, lookup_jsSet,
          lookup_jsDelete, orElse_assoc, orElse_ite]

theorem lookup_mergedDevDeps_orElse (cur : JSObj) (ctx : Context)
    (devD docsD cssD langD : List (String × String)) (k : String)
    (hndDev : (keysOf (strPairs devD)).Nodup)
    (hndDoc : (keysOf (strPairs docsD)).Nodup)
    (hndCss : (keysOf (strPairs cssD)).Nodup)
    (hndLang : (keysOf (strPairs langD)).Nodup)
    (hnh : ¬(k = "husky" ∧ (!ctx.prepush && !ctx.precommit) = true))
    (hnl : ¬(k = "lint-staged" ∧ (!ctx.prepush && !ctx.precommit) = true)) :
    List.lookup k (mergedDevDependencies cur ctx devD docsD cssD langD) =
      (List.lookup k (generatedDevDependencies ctx devD docsD cssD langD)).orElse
        (fun _ => List.lookup k (objGetObj cur "devDependencies")) := by
  have lA0 : ∀ o : JSObj, List.lookup k (jsAssign o (strPairs devD)) =
      (List.lookup k (strPairs devD)).orElse (fun _ => List.lookup k o) :=
    fun o => lookup_jsAssign o (strPairs devD) hndDev k
  have lAd : ∀ o : JSObj, List.lookup k (jsAssign o (strPairs docsD)) =
      (List.lookup k (strPairs docsD)).orElse (fun _ => List.lookup k o) :=
    fun o => lookup_jsAssign o (strPairs docsD) hndDoc k
  have lAc : ∀ o : JSObj, List.lookup k (jsAssign o (strPairs cssD)) =
      (List.lookup k (strPairs cssD)).orElse (fun _ => List.lookup k o) :=
    fun o => lookup_jsAssign o (strPairs cssD) hndCss k
  have lAl : ∀ o : JSObj, List.lookup k (jsAssign o (strPairs langD)) =
      (List.lookup k (strPairs langD)).orElse (fun _ => List.lookup k o) :=
    fun o => lookup_jsAssign o (strPairs langD) hndLang k
  unfold mergedDevDependencies generatedDevDependencies
  cases hflag : (!ctx.prepush && !ctx.precommit) <;>
  cases hdo : ctx.docs <;> cases hcs : ctx.css <;> cases hl : ctx.lang <;>
  all_goals
    first
      | (have hk1 : ¬(k = "husky") := fun hh => hnh ⟨hh, hflag⟩
         have hk2 : ¬(k = "lint-staged") := fun hh => hnl ⟨hh, hflag⟩
         simp [hflag, hdo, hcs, hl, lA0, lAd, lAc, lAl, lookup_jsDelete,
           hk1, hk2, orElse_assoc])
      | simp [hflag, hdo, hcs, hl, lA0, lAd, lAc, lAl, lookup_jsDelete,
          orElse_assoc]

theorem objGetObj_eq_of_lookup (o : JSObj) (k : String) (x : JSObj)
    (h : List.lookup k o = some (.obj x)) : objGetObj o k = x := by
  unfold objGetObj
  rw [h]
  rfl

/-- C6 (amended): for `dependencies`, `scripts` and `devDependencies` the
output lookup of every key is the generated value when the Baseline
Composer or Conditional Merger produces that key, and the current document
value otherwise — with the exception of the keys the hook cleanup deletes:
the `precommit`/`prepush` scripts when the corresponding flag is off and
the `husky`/`lint-staged` devDependencies when both are off. -/
theorem C6_amended_overlay_semantics (pkg : GeneratorPkg) (gv : String)
    (cur : JSObj) (ctx : Context) (out : JSObj)
    (hok : packageJSON pkg gv cur ctx = .ok out) :
    (∀ depD, getGeneratorVersions pkg baselineDependencyNames = .ok depD →
      ∀ k, List.lookup k (objGetObj out "dependencies") =
        (List.lookup k (strPairs depD)).orElse
          (fun _ => List.lookup k (objGetObj cur "dependencies"))) ∧
    (∀ k, ¬(k = "precommit" ∧ ctx.precommit = false) →
          ¬(k = "prepush" ∧ ctx.prepush = false) →
      List.lookup k (objGetObj out "scripts") =
        (List.lookup k (generatedScripts ctx)).orElse
          (fun _ => List.lookup k (objGetObj cur "scripts"))) ∧
    (∀ devD docsD cssD langD,
      getGeneratorVersions pkg baselineDevDependencyNames = .ok devD →
      featureVersions pkg ctx.docs ["doctoc", "jsdoc"] = .ok docsD →
      featureVersions pkg ctx.css ["postcss-cli", "videojs-generate-postcss-config"] = .ok cssD →
      featureVersions pkg ctx.lang ["videojs-languages"] = .ok langD →
      ∀ k, ¬(k = "husky" ∧ (!ctx.prepush && !ctx.precommit) = true) →
           ¬(k = "lint-staged" ∧ (!ctx.prepush && !ctx.precommit) = true) →
      List.lookup k (objGetObj out "devDependencies") =
        (List.lookup k (generatedDevDependencies ctx devD docsD cssD langD)).orElse
          (fun _ => List.lookup k (objGetObj cur "devDependencies"))) := by
  have hscripts := scripts_of_ok pkg gv cur ctx out hok
  obtain ⟨depD0, devD0, docsD0, cssD0, langD0, hr1, hr2, hr3, hr4, hr5, rfl⟩ :=
    packageJSON_ok_shape pkg gv cur ctx out hok
  refine ⟨?_, ?_, ?_⟩
  · intro depD hdep k
    have hEq : depD = depD0 := Except.ok.inj (hdep.symm.trans hr1)
    subst hEq
    rw [objGetObj_eq_of_lookup _ _ _
      (lookup_dependencies_purePipeline depD devD0 docsD0 cssD0 langD0 gv cur ctx)]
    rw [lookup_alphabetizeObject,
      lookup_jsAssign _ _ (nodup_keys_strPairs depD (gGV_keys_nodup pkg _ depD hdep)) k]
  · intro k h1 h2
    rw [hscripts, lookup_alphabetizeScripts]
    exact lookup_mergedScripts_orElse cur ctx k h1 h2
  · intro devD docsD cssD langD hdev hdocs hcss hlang k h1 h2
    have e1 : devD = devD0 := Except.ok.inj (hdev.symm.trans hr2)
    have e2 : docsD = docsD0 := Except.ok.inj (hdocs.symm.trans hr3)
    have e3 : cssD = cssD0 := Except.ok.inj (hcss.symm.trans hr4)
    have e4 : langD = langD0 := Except.ok.inj (hlang.symm.trans hr5)
    subst e1 e2 e3 e4
    rw [objGetObj_eq_of_lookup _ _ _
      (lookup_devDependencies_purePipeline depD0 devD docsD cssD langD gv cur ctx)]
    rw [lookup_alphabetizeObject]
    exact lookup_mergedDevDeps_orElse cur ctx devD docsD cssD langD k
      (nodup_keys_strPairs devD (gGV_keys_nodup pkg _ devD hdev))
      (nodup_keys_strPairs docsD (featureVersions_keys_nodup pkg ctx.docs _ docsD hdocs))
      (nodup_keys_strPairs cssD (featureVersions_keys_nodup pkg ctx.css _ cssD hcss))
      (nodup_keys_strPairs langD (featureVersions_keys_nodup pkg ctx.lang _ langD hlang))
      h1 h2

/-- Closed instance of `C6_amended_overlay_semantics` on a concrete run. -/
theorem C6_amended_witness :
    List.lookup "build" (objGetObj outBase "scripts") =
      (List.lookup "build" (generatedScripts ctxAllOff)).orElse
        (fun _ => List.lookup "build" (objGetObj ([] : JSObj) "scripts")) := by
  exact (C6_amended_overlay_semantics sampleRegistry "7.2.0" [] ctxAllOff outBase
    (by decide)).2.1 "build" (by simp) (by simp)

/-! ## The documentation feature, relative to the same run without it -/

theorem gGV_lookup_isSome (pkg : GeneratorPkg) (l : List String)
    (res : List (String × String)) (k : String)
    (hok : getGeneratorVersions pkg l = .ok res) (hk : k ∈ l) :
    (List.lookup k res).isSome = true := by
  unfold getGeneratorVersions at hok
  suffices haux : ∀ (l2 : List String) (acc : List (String × String)),
      (k ∈ l2 ∨ (List.lookup k acc).isSome = true) →
      (List.foldlM (fun acc pkgName =>
        let version := getGeneratorVersion pkg pkgName
        if strFalsy version then Except.error (unresolvedMsg pkgName)
        else Except.ok (jsSet acc pkgName (version.getD ""))) acc l2) = .ok res →
      (List.lookup k res).isSome = true by
    exact haux l [] (Or.inl hk) hok
  intro l2
  induction l2 with
  | nil =>
    intro acc hor hfold
    cases hfold
    rcases hor with hmem | hsome
    · cases hmem
    · exact hsome
  | cons x xs ih =>
    intro acc hor hfold
    rw [List.foldlM_cons] at hfold
    by_cases hfal : strFalsy (getGeneratorVersion pkg x)
    · rw [if_pos hfal] at hfold
      cases hfold
    · rw [if_neg hfal] at hfold
      apply ih _ ?_ hfold
      rcases hor with hmem | hsome
      · rcases List.mem_cons.mp hmem with rfl | hxs
        · right
          rw [lookup_jsSet, if_pos rfl]
          rfl
        · exact Or.inl hxs
      · right
        rw [lookup_jsSet]
        by_cases hkx : k = x
        · rw [if_pos hkx]; rfl
        · rw [if_neg hkx]; exact hsome

theorem lookup_strPairs_isSome (l : List (String × String)) (k : String)
    (h : (List.lookup k l).isSome = true) :
    (List.lookup k (strPairs l)).isSome = true := by
  obtain ⟨w, hw⟩ := Option.isSome_iff_exists.mp h
  apply lookup_isSome_of_mem
  rw [keysOf_strPairs]
  exact mem_keys_of_lookup l k w hw

theorem lookup_generatedScripts_docs (ctx : Context) (hd : ctx.docs = true)
    (k : String) (v : JSVal) (hv : List.lookup k docsScripts = some v)
    (hc1 : ¬(k = "build:css")) (hc2 : ¬(k = "watch:css")) (hbl : ¬(k = "build:lang")) :
    List.lookup k (generatedScripts ctx) = some v := by
  have hnc : (keysOf (cssScripts ctx)).Nodup := by
    have hkeys : keysOf (cssScripts ctx) = ["build:css", "watch:css"] := rfl
    rw [hkeys]
    decide
  have lAd : ∀ o : JSObj, List.lookup k (jsAssign o docsScripts) =
      (List.lookup k docsScripts).orElse (fun _ => List.lookup k o) :=
    fun o => lookup_jsAssign o docsScripts (by decide) k
  have lAc : ∀ o : JSObj, List.lookup k (jsAssign o (cssScripts ctx)) = List.lookup k o :=
    fun o => lookup_jsAssign_none_upd o _ k (lookup_cssScripts_none ctx k hc1 hc2)
  unfold generatedScripts
  cases hcs : ctx.css <;> cases hl : ctx.lang <;>
    simp [hd, hcs, hl, lAd, lAc, lookup_jsSet, hbl, hv, Option.orElse]

theorem lookup_mergedScripts_nodocs_key (cur : JSObj) (ctx : Context) (k : String)
    (hdo : ctx.docs = false)
    (hdef : List.lookup k defaultScripts = none)
    (hc1 : ¬(k = "build:css")) (hc2 : ¬(k = "watch:css")) (hbl : ¬(k = "build:lang"))
    (hp1 : ¬(k = "precommit")) (hp2 : ¬(k = "prepush")) :
    List.lookup k (mergedScripts cur ctx) = List.lookup k (objGetObj cur "scripts") := by
  have hassign : List.lookup k (jsAssign (objGetObj cur "scripts") defaultScripts) =
      List.lookup k (objGetObj cur "scripts") := by
    rw [lookup_jsAssign _ _ (by decide), hdef]
    rfl
  have lAc : ∀ o : JSObj, List.lookup k (jsAssign o (cssScripts ctx)) = List.lookup k o :=
    fun o => lookup_jsAssign_none_upd o _ k (lookup_cssScripts_none ctx k hc1 hc2)
  unfold mergedScripts
  cases hpc : ctx.precommit <;> cases hpp : ctx.prepush <;>
  cases hcs : ctx.css <;> cases hl : ctx.lang <;>
    simp [hdo, hpc, hpp, hcs, hl, lAc, lookup_jsSet, lookup_jsDelete, hbl, hp1, hp2,
      hassign]

theorem lookup_jsAssign_congr (X Y b : List (String × β)) (k : String)
    (h : List.lookup k X = List.lookup k Y) :
    List.lookup k (jsAssign X b) = List.lookup k (jsAssign Y b) := by
  induction b generalizing X Y with
  | nil => exact h
  | cons p rest ih =>
    show List.lookup k (jsAssign (jsSet X p.1 p.2) rest) = _
    apply ih
    rw [lookup_jsSet, lookup_jsSet, h]

theorem lookup_jsSet_congr (X Y : List (String × β)) (k0 : String) (v : β)
    (k : String) (h : List.lookup k X = List.lookup k Y) :
    List.lookup k (jsSet X k0 v) = List.lookup k (jsSet Y k0 v) := by
  rw [lookup_jsSet, lookup_jsSet, h]

theorem lookup_mergedScripts_docs_off_eq (cur : JSObj) (ctx : Context) (k : String)
    (hnone : List.lookup k docsScripts = none) :
    List.lookup k (mergedScripts cur { ctx with docs := false }) =
      List.lookup k (mergedScripts cur ctx) := by
  have epc : ({ ctx with docs := false } : Context).precommit = ctx.precommit := rfl
  have epp : ({ ctx with docs := false } : Context).prepush = ctx.prepush := rfl
  have ecs : ({ ctx with docs := false } : Context).css = ctx.css := rfl
  have el : ({ ctx with docs := false } : Context).lang = ctx.lang := rfl
  have ed : ({ ctx with docs := false } : Context).docs = false := rfl
  have ecss : cssScripts { ctx with docs := false } = cssScripts ctx := rfl
  have lAd : ∀ o : JSObj, List.lookup k (jsAssign o docsScripts) = List.lookup k o :=
    fun o => lookup_jsAssign_none_upd o _ k hnone
  unfold mergedScripts
  rw [epc, epp, ecs, el, ed, ecss]
  cases hdo : ctx.docs
  · rfl
  · cases hcs : ctx.css <;> cases hl : ctx.lang <;>
      simp only [hdo, hcs, hl, Bool.false_eq_true, Bool.true_eq_false,
        if_true, if_false, ite_true, ite_false] <;>
      first
        | exact (lAd _).symm
        | (apply lookup_jsSet_congr
           first
             | exact (lAd _).symm
             | (apply lookup_jsAssign_congr
                exact (lAd _).symm))
        | (apply lookup_jsAssign_congr
           exact (lAd _).symm)

theorem lookup_jsDelete_none (o : List (String × β)) (k0 k : String)
    (h : List.lookup k o = none) : List.lookup k (jsDelete o k0) = none := by
  rw [lookup_jsDelete]
  by_cases hk : k = k0
  · rw [if_pos hk]
  · rw [if_neg hk, h]

theorem lookup_mergedDevDeps_none (cur : JSObj) (ctx : Context)
    (devD docsD cssD langD : List (String × String)) (k : String)
    (hdo : ctx.docs = false)
    (hdev : List.lookup k (strPairs devD) = none)
    (hcss : List.lookup k (strPairs cssD) = none)
    (hlang : List.lookup k (strPairs langD) = none)
    (hcur : List.lookup k (objGetObj cur "devDependencies") = none) :
    List.lookup k (mergedDevDependencies cur ctx devD docsD cssD langD) = none := by
  have h0 : List.lookup k (jsAssign (objGetObj cur "devDependencies") (strPairs devD)) =
      none := by
    rw [lookup_jsAssign_none_upd _ _ k hdev, hcur]
  have lAc : ∀ o : JSObj, List.lookup k (jsAssign o (strPairs cssD)) = List.lookup k o :=
    fun o => lookup_jsAssign_none_upd o _ k hcss
  have lAl : ∀ o : JSObj, List.lookup k (jsAssign o (strPairs langD)) = List.lookup k o :=
    fun o => lookup_jsAssign_none_upd o _ k hlang
  unfold mergedDevDependencies
  cases hflag : (!ctx.prepush && !ctx.precommit) <;>
  cases hcs : ctx.css <;> cases hl : ctx.lang <;>
    simp [hdo, hflag, hcs, hl, lAc, lAl, h0, lookup_jsDelete_none _ _ _
      (lookup_jsDelete_none _ _ _ h0)]

theorem lookup_mergedDevDeps_docs_off_eq (cur : JSObj) (ctx : Context)
    (devD docsD cssD langD : List (String × String)) (k : String)
    (hnone : List.lookup k (strPairs docsD) = none) :
    List.lookup k (mergedDevDependencies cur { ctx with docs := false } devD [] cssD langD) =
      List.lookup k (mergedDevDependencies cur ctx devD docsD cssD langD) := by
  have epc : ({ ctx with docs := false } : Context).precommit = ctx.precommit := rfl
  have epp : ({ ctx with docs := false } : Context).prepush = ctx.prepush := rfl
  have ecs : ({ ctx with docs := false } : Context).css = ctx.css := rfl
  have el : ({ ctx with docs := false } : Context).lang = ctx.lang := rfl
  have ed : ({ ctx with docs := false } : Context).docs = false := rfl
  have lAd : ∀ o : JSObj, List.lookup k (jsAssign o (strPairs docsD)) = List.lookup k o :=
    fun o => lookup_jsAssign_none_upd o _ k hnone
  unfold mergedDevDependencies
  rw [epc, epp, ecs, el, ed]
  cases hdo : ctx.docs
  · rfl
  · cases hcs : ctx.css <;> cases hl : ctx.lang <;>
      simp only [hdo, hcs, hl, Bool.false_eq_true, Bool.true_eq_false,
        if_true, if_false, ite_true, ite_false] <;>
      first
        | exact (lAd _).symm
        | (apply lookup_jsAssign_congr
           first
             | exact (lAd _).symm
             | (apply lookup_jsAssign_congr
                exact (lAd _).symm))

theorem lookup_mergedDevDeps_docs_isSome (cur : JSObj) (ctx : Context)
    (devD docsD cssD langD : List (String × String)) (k : String)
    (hd : ctx.docs = true)
    (hsome : (List.lookup k (strPairs docsD)).isSome = true) :
    (List.lookup k (mergedDevDependencies cur ctx devD docsD cssD langD)).isSome
      = true := by
  unfold mergedDevDependencies
  cases hflag : (!ctx.prepush && !ctx.precommit) <;>
  cases hcs : ctx.css <;> cases hl : ctx.lang <;>
    simp only [hd, hflag, hcs, hl, if_true, if_false, Bool.false_eq_true,
      Bool.true_eq_false, ite_true, ite_false] <;>
    first
      | exact lookup_jsAssign_isSome_upd _ _ _ hsome
      | (apply lookup_jsAssign_isSome
         first
           | exact lookup_jsAssign_isSome_upd _ _ _ hsome
           | (apply lookup_jsAssign_isSome
              exact lookup_jsAssign_isSome_upd _ _ _ hsome))

/-- C7 (amended): relative to the same inputs with `docs=false`, enabling
the documentation feature adds exactly three scripts — `docs`, `docs:api`
and `docs:toc`, with their generated commands — and exactly two
devDependency entries, `doctoc` and `jsdoc`, resolved through the Version
Registry: the named keys are present with `docs=true`, absent with
`docs=false` whenever the current document did not supply them, and every
other key of both maps is looked up identically in the two outputs. -/
theorem C7_amended_docs_feature (pkg : GeneratorPkg) (gv : String) (cur : JSObj)
    (ctx : Context) (out outOff : JSObj) (hd : ctx.docs = true)
    (hok : packageJSON pkg gv cur ctx = .ok out)
    (hokOff : packageJSON pkg gv cur { ctx with docs := false } = .ok outOff) :
    (List.lookup "docs" (objGetObj out "scripts") = some (.str "npm-run-all docs:*") ∧
     List.lookup "docs:api" (objGetObj out "scripts") =
       some (.str "jsdoc src -g plugins/markdown -r -d docs/api") ∧
     List.lookup "docs:toc" (objGetObj out "scripts") = some (.str "doctoc README.md")) ∧
    ((List.lookup "doctoc" (objGetObj out "devDependencies")).isSome = true ∧
     (List.lookup "jsdoc" (objGetObj out "devDependencies")).isSome = true) ∧
    (∀ k2, (k2 = "docs" ∨ k2 = "docs:api" ∨ k2 = "docs:toc") →
      List.lookup k2 (objGetObj cur "scripts") = none →
      List.lookup k2 (objGetObj outOff "scripts") = none) ∧
    (∀ k2, (k2 = "doctoc" ∨ k2 = "jsdoc") →
      List.lookup k2 (objGetObj cur "devDependencies") = none →
      List.lookup k2 (objGetObj outOff "devDependencies") = none) ∧
    (∀ k, ¬(k = "docs") → ¬(k = "docs:api") → ¬(k = "docs:toc") →
      List.lookup k (objGetObj out "scripts") =
        List.lookup k (objGetObj outOff "scripts")) ∧
    (∀ k, ¬(k = "doctoc") → ¬(k = "jsdoc") →
      List.lookup k (objGetObj out "devDependencies") =
        List.lookup k (objGetObj outOff "devDependencies")) := by
  have hscripts := scripts_of_ok pkg gv cur ctx out hok
  have hscriptsOff := scripts_of_ok pkg gv cur { ctx with docs := false } outOff hokOff
  obtain ⟨depD, devD, docsD, cssD, langD, hr1, hr2, hr3, hr4, hr5, rfl⟩ :=
    packageJSON_ok_shape pkg gv cur ctx out hok
  obtain ⟨depD2, devD2, docsD2, cssD2, langD2, hq1, hq2, hq3, hq4, hq5, rfl⟩ :=
    packageJSON_ok_shape pkg gv cur { ctx with docs := false } outOff hokOff
  have e1 : depD = depD2 := Except.ok.inj (hr1.symm.trans hq1)
  have e2 : devD = devD2 := Except.ok.inj (hr2.symm.trans hq2)
  have e4 : cssD = cssD2 := Except.ok.inj (hr4.symm.trans hq4)
  have e5 : langD = langD2 := Except.ok.inj (hr5.symm.trans hq5)
  have e3 : docsD2 = [] := by
    have hfv : featureVersions pkg false ["doctoc", "jsdoc"] = .ok docsD2 := hq3
    unfold featureVersions at hfv
    rw [if_neg (by simp)] at hfv
    exact (Except.ok.inj hfv).symm
  subst e1 e2 e4 e5
  subst e3
  have hgv : getGeneratorVersions pkg ["doctoc", "jsdoc"] = .ok docsD := by
    have hfv := hr3
    unfold featureVersions at hfv
    rw [hd, if_pos rfl] at hfv
    exact hfv
  have hdocsome : ∀ k2, k2 ∈ (["doctoc", "jsdoc"] : List String) →
      (List.lookup k2 (strPairs docsD)).isSome = true := fun k2 hk2 =>
    lookup_strPairs_isSome docsD k2 (gGV_lookup_isSome pkg _ docsD k2 hgv hk2)
  refine ⟨⟨?_, ?_, ?_⟩, ⟨?_, ?_⟩, ?_, ?_, ?_, ?_⟩
  · rw [hscripts, lookup_alphabetizeScripts,
      lookup_mergedScripts_orElse cur ctx _ (by simp) (by simp),
      lookup_generatedScripts_docs ctx hd "docs" (.str "npm-run-all docs:*")
        (by decide) (by decide) (by decide) (by decide)]
    rfl
  · rw [hscripts, lookup_alphabetizeScripts,
      lookup_mergedScripts_orElse cur ctx _ (by simp) (by simp),
      lookup_generatedScripts_docs ctx hd "docs:api"
        (.str "jsdoc src -g plugins/markdown -r -d docs/api")
        (by decide) (by decide) (by decide) (by decide)]
    rfl
  · rw [hscripts, lookup_alphabetizeScripts,
      lookup_mergedScripts_orElse cur ctx _ (by simp) (by simp),
      lookup_generatedScripts_docs ctx hd "docs:toc" (.str "doctoc README.md")
        (by decide) (by decide) (by decide) (by decide)]
    rfl
  · rw [objGetObj_eq_of_lookup _ _ _
      (lookup_devDependencies_purePipeline depD devD docsD cssD langD gv cur ctx),
      lookup_alphabetizeObject]
    exact lookup_mergedDevDeps_docs_isSome cur ctx devD docsD cssD langD "doctoc" hd
      (hdocsome "doctoc" (by decide))
  · rw [objGetObj_eq_of_lookup _ _ _
      (lookup_devDependencies_purePipeline depD devD docsD cssD langD gv cur ctx),
      lookup_alphabetizeObject]
    exact lookup_mergedDevDeps_docs_isSome cur ctx devD docsD cssD langD "jsdoc" hd
      (hdocsome "jsdoc" (by decide))
  · intro k2 hk2 hcur
    rw [hscriptsOff, lookup_alphabetizeScripts,
      lookup_mergedScripts_nodocs_key cur _ k2 rfl
        (by rcases hk2 with rfl | rfl | rfl <;> decide)
        (by rcases hk2 with rfl | rfl | rfl <;> decide)
        (by rcases hk2 with rfl | rfl | rfl <;> decide)
        (by rcases hk2 with rfl | rfl | rfl <;> decide)
        (by rcases hk2 with rfl | rfl | rfl <;> decide)
        (by rcases hk2 with rfl | rfl | rfl <;> decide), hcur]
  · intro k2 hk2 hcur
    have hna : ¬(k2 ∈ baselineDevDependencyNames) := by
      rcases hk2 with rfl | rfl <;> decide
    have hnb : ¬(k2 ∈ (["postcss-cli", "videojs-generate-postcss-config"] : List String)) := by
      rcases hk2 with rfl | rfl <;> decide
    have hnc : ¬(k2 ∈ (["videojs-languages"] : List String)) := by
      rcases hk2 with rfl | rfl <;> decide
    rw [objGetObj_eq_of_lookup _ _ _
      (lookup_devDependencies_purePipeline depD devD [] cssD langD gv cur _),
      lookup_alphabetizeObject]
    exact lookup_mergedDevDeps_none cur _ devD [] cssD langD k2 rfl
      (lookup_strPairs_none _ _ (gGV_lookup_none pkg _ devD k2 hq2 hna))
      (lookup_strPairs_none _ _ (featureVersions_lookup_none pkg _ _ cssD k2 hq4 hnb))
      (lookup_strPairs_none _ _ (featureVersions_lookup_none pkg _ _ langD k2 hq5 hnc))
      hcur
  · intro k hk1 hk2 hk3
    rw [hscripts, hscriptsOff, lookup_alphabetizeScripts, lookup_alphabetizeScripts,
      lookup_mergedScripts_docs_off_eq cur ctx k
        (lookup_docsScripts_none k hk1 hk2 hk3)]
  · intro k hk1 hk2
    have hnd : ¬(k ∈ (["doctoc", "jsdoc"] : List String)) := by
      intro hmem
      rcases List.mem_cons.mp hmem with rfl | hmem2
      · exact hk1 rfl
      · rcases List.mem_cons.mp hmem2 with rfl | hmem3
        · exact hk2 rfl
        · cases hmem3
    rw [objGetObj_eq_of_lookup _ _ _
      (lookup_devDependencies_purePipeline depD devD docsD cssD langD gv cur ctx),
      objGetObj_eq_of_lookup _ _ _
      (lookup_devDependencies_purePipeline depD devD [] cssD langD gv cur _),
      lookup_alphabetizeObject, lookup_alphabetizeObject,
      lookup_mergedDevDeps_docs_off_eq cur ctx devD docsD cssD langD k
        (lookup_strPairs_none _ _ (featureVersions_lookup_none pkg _ _ docsD k hr3 hnd))]

/-- Closed instance of `C7_amended_docs_feature` on a concrete run. -/
theorem C7_amended_witness :
    List.lookup "docs" (objGetObj outDocsOn "scripts") =
      some (.str "npm-run-all docs:*") ∧
    (List.lookup "doctoc" (objGetObj outDocsOn "devDependencies")).isSome = true ∧
    List.lookup "docs" (objGetObj outBase "scripts") = none := by
  have h := C7_amended_docs_feature sampleRegistry "7.2.0" [] ctxDocsOn outDocsOn
    outBase rfl (by decide) (by decide)
  exact ⟨h.1.1, h.2.1.1, h.2.2.1 "docs" (Or.inl rfl) rfl⟩

/-! ## The single error kind -/

/-- The package names the pipeline requests from the Version Registry for a
given context: the two baseline dependency names, the fixed baseline
devDependency names, and the names of every enabled feature. -/
def requestedNames (context : Context) : List String :=
  baselineDependencyNames ++ baselineDevDependencyNames ++
    (if context.docs then ["doctoc", "jsdoc"] else []) ++
    (if context.css then ["postcss-cli", "videojs-generate-postcss-config"] else []) ++
    (if context.lang then ["videojs-languages"] else [])

theorem gGV_error_shape (pkg : GeneratorPkg) (l : List String) (e : String)
    (herr : getGeneratorVersions pkg l = .error e) :
    ∃ m ∈ l, e = unresolvedMsg m ∧ strFalsy (getGeneratorVersion pkg m) = true := by
  unfold getGeneratorVersions at herr
  suffices haux : ∀ (l2 : List String) (acc : List (String × String)),
      (List.foldlM (fun acc pkgName =>
        let version := getGeneratorVersion pkg pkgName
        if strFalsy version then Except.error (unresolvedMsg pkgName)
        else Except.ok (jsSet acc pkgName (version.getD ""))) acc l2) = .error e →
      ∃ m ∈ l2, e = unresolvedMsg m ∧ strFalsy (getGeneratorVersion pkg m) = true by
    exact haux l [] herr
  intro l2
  induction l2 with
  | nil =>
    intro acc hfold
    cases hfold
  | cons x xs ih =>
    intro acc hfold
    rw [List.foldlM_cons] at hfold
    by_cases hfal : strFalsy (getGeneratorVersion pkg x)
    · rw [if_pos hfal] at hfold
      cases hfold
      exact ⟨x, List.mem_cons_self x xs, rfl, hfal⟩
    · rw [if_neg hfal] at hfold
      obtain ⟨m, hm, he, hf⟩ := ih _ hfold
      exact ⟨m, List.mem_cons_of_mem x hm, he, hf⟩

theorem gGV_ok_resolved (pkg : GeneratorPkg) (l : List String)
    (res : List (String × String)) (hok : getGeneratorVersions pkg l = .ok res) :
    ∀ n ∈ l, strFalsy (getGeneratorVersion pkg n) = false := by
  unfold getGeneratorVersions at hok
  suffices haux : ∀ (l2 : List String) (acc : List (String × String)),
      (List.foldlM (fun acc pkgName =>
        let version := getGeneratorVersion pkg pkgName
        if strFalsy version then Except.error (unresolvedMsg pkgName)
        else Except.ok (jsSet acc pkgName (version.getD ""))) acc l2) = .ok res →
      ∀ n ∈ l2, strFalsy (getGeneratorVersion pkg n) = false by
    exact haux l [] hok
  intro l2
  induction l2 with
  | nil =>
    intro acc _ n hn
    cases hn
  | cons x xs ih =>
    intro acc hfold n hn
    rw [List.foldlM_cons] at hfold
    by_cases hfal : strFalsy (getGeneratorVersion pkg x)
    · rw [if_pos hfal] at hfold
      cases hfold
    · rw [if_neg hfal] at hfold
      rcases List.mem_cons.mp hn with rfl | hxs
      · exact (Bool.not_eq_true _) ▸ hfal
      · exact ih _ hfold n hxs

theorem featureVersions_error_shape (pkg : GeneratorPkg) (b : Bool)
    (names : List String) (e : String)
    (herr : featureVersions pkg b names = .error e) :
    ∃ m ∈ names, e = unresolvedMsg m ∧ strFalsy (getGeneratorVersion pkg m) = true := by
  unfold featureVersions at herr
  cases b with
  | false => cases herr
  | true => exact gGV_error_shape pkg names e herr

theorem featureVersions_ok_resolved (pkg : GeneratorPkg) (b : Bool)
    (names : List String) (res : List (String × String))
    (hok : featureVersions pkg b names = .ok res) (n : String)
    (hn : n ∈ (if b then names else [])) :
    strFalsy (getGeneratorVersion pkg n) = false := by
  cases b with
  | false => cases hn
  | true => exact gGV_ok_resolved pkg names res hok n hn

theorem packageJSON_error_shape (pkg : GeneratorPkg) (gv : String) (cur : JSObj)
    (ctx : Context) (e : String)
    (herr : packageJSON pkg gv cur ctx = .error e) :
    ∃ m, e = unresolvedMsg m ∧ strFalsy (getGeneratorVersion pkg m) = true := by
  rw [packageJSON_eq] at herr
  cases h1 : getGeneratorVersions pkg baselineDependencyNames with
  | error e1 =>
    rw [h1] at herr
    cases herr
    obtain ⟨m, _, he, hf⟩ := gGV_error_shape pkg _ _ h1
    exact ⟨m, he, hf⟩
  | ok d1 =>
  rw [h1] at herr
  cases h2 : getGeneratorVersions pkg baselineDevDependencyNames with
  | error e2 =>
    rw [h2] at herr
    cases herr
    obtain ⟨m, _, he, hf⟩ := gGV_error_shape pkg _ _ h2
    exact ⟨m, he, hf⟩
  | ok d2 =>
  rw [h2] at herr
  cases h3 : featureVersions pkg ctx.docs ["doctoc", "jsdoc"] with
  | error e3 =>
    rw [h3] at herr
    cases herr
    obtain ⟨m, _, he, hf⟩ := featureVersions_error_shape pkg _ _ _ h3
    exact ⟨m, he, hf⟩
  | ok d3 =>
  rw [h3] at herr
  cases h4 : featureVersions pkg ctx.css ["postcss-cli", "videojs-generate-postcss-config"] with
  | error e4 =>
    rw [h4] at herr
    cases herr
    obtain ⟨m, _, he, hf⟩ := featureVersions_error_shape pkg _ _ _ h4
    exact ⟨m, he, hf⟩
  | ok d4 =>
  rw [h4] at herr
  cases h5 : featureVersions pkg ctx.lang ["videojs-languages"] with
  | error e5 =>
    rw [h5] at herr
    cases herr
    obtain ⟨m, _, he, hf⟩ := featureVersions_error_shape pkg _ _ _ h5
    exact ⟨m, he, hf⟩
  | ok d5 =>
  rw [h5] at herr
  cases herr

/-- **C8.** The merge has a single error kind: (i) every error the pipeline
returns carries the unresolved-dependency message for a package name whose
registry resolution is falsy, and (ii) whenever any name the Baseline
Composer or Conditional Merger requests for the given context fails to
resolve, the pipeline returns that fatal error and no output document. -/
theorem C8_single_error_kind (pkg : GeneratorPkg) (gv : String) (cur : JSObj)
    (ctx : Context) :
    (∀ e, packageJSON pkg gv cur ctx = .error e →
        ∃ m, e = unresolvedMsg m ∧ strFalsy (getGeneratorVersion pkg m) = true) ∧
    (∀ n ∈ requestedNames ctx, strFalsy (getGeneratorVersion pkg n) = true →
        ∃ m, packageJSON pkg gv cur ctx = .error (unresolvedMsg m) ∧
          strFalsy (getGeneratorVersion pkg m) = true) := by
  constructor
  · intro e herr
    exact packageJSON_error_shape pkg gv cur ctx e herr
  · intro n hn hfal
    cases hres : packageJSON pkg gv cur ctx with
    | error e =>
      obtain ⟨m, he, hf⟩ := packageJSON_error_shape pkg gv cur ctx e hres
      exact ⟨m, by rw [he], hf⟩
    | ok out =>
      exfalso
      rw [packageJSON_eq] at hres
      unfold requestedNames at hn
      cases h1 : getGeneratorVersions pkg baselineDependencyNames with
      | error e1 => rw [h1] at hres; cases hres
      | ok d1 =>
      rw [h1] at hres
      cases h2 : getGeneratorVersions pkg baselineDevDependencyNames with
      | error e2 => rw [h2] at hres; cases hres
      | ok d2 =>
      rw [h2] at hres
      cases h3 : featureVersions pkg ctx.docs ["doctoc", "jsdoc"] with
      | error e3 => rw [h3] at hres; cases hres
      | ok d3 =>
      rw [h3] at hres
      cases h4 : featureVersions pkg ctx.css
          ["postcss-cli", "videojs-generate-postcss-config"] with
      | error e4 => rw [h4] at hres; cases hres
      | ok d4 =>
      rw [h4] at hres
      cases h5 : featureVersions pkg ctx.lang ["videojs-languages"] with
      | error e5 => rw [h5] at hres; cases hres
      | ok d5 =>
      have hcontra : strFalsy (getGeneratorVersion pkg n) = false := by
        rcases List.mem_append.mp hn with h' | hlang
        · rcases List.mem_append.mp h' with h'' | hcss
          · rcases List.mem_append.mp h'' with h''' | hdocs
            · rcases List.mem_append.mp h''' with hdep | hdev
              · exact gGV_ok_resolved pkg _ d1 h1 n hdep
              · exact gGV_ok_resolved pkg _ d2 h2 n hdev
            · exact featureVersions_ok_resolved pkg ctx.docs _ d3 h3 n hdocs
          · exact featureVersions_ok_resolved pkg ctx.css _ d4 h4 n hcss
        · exact featureVersions_ok_resolved pkg ctx.lang _ d5 h5 n hlang
      rw [hfal] at hcontra
      cases hcontra

/-- The sample registry with the husky package stripped out of every
dependency map, so that a baseline devDependency name fails to resolve. -/
def badRegistry : GeneratorPkg :=
  { optionalDependencies := jsDelete sampleRegistry.optionalDependencies "husky"
    devDependencies := jsDelete sampleRegistry.devDependencies "husky"
    dependencies := jsDelete sampleRegistry.dependencies "husky" }

theorem C8_witness :
    (∃ m, packageJSON badRegistry "7.2.0" [] ctxAllOff = .error (unresolvedMsg m) ∧
        strFalsy (getGeneratorVersion badRegistry m) = true) ∧
    (∃ m, unresolvedMsg "husky" = unresolvedMsg m ∧
        strFalsy (getGeneratorVersion badRegistry m) = true) := by
  have h := C8_single_error_kind badRegistry "7.2.0" [] ctxAllOff
  refine ⟨h.2 "husky" (by decide) (by decide), h.1 (unresolvedMsg "husky") ?_⟩
  decide

/-! ## Order theory for JavaScript string comparison, and the canonical
form of the splice loop -/

theorem uLt_trans {a b c : UInt32} (h1 : a < b) (h2 : b < c) : a < c :=
  Nat.lt_trans h1 h2

theorem uLt_asymm {a b : UInt32} (h1 : a < b) (h2 : b < a) : False :=
  Nat.lt_asymm h1 h2

theorem uEq_of_not_lt {a b : UInt32} (h1 : ¬ a < b) (h2 : ¬ b < a) : a = b :=
  UInt32.ext (Nat.le_antisymm (Nat.not_lt.mp h2) (Nat.not_lt.mp h1))

theorem uLt_trichotomy (a b : UInt32) : a < b ∨ a = b ∨ b < a := by
  rcases Nat.lt_trichotomy a.toNat b.toNat with h | h | h
  · exact Or.inl h
  · exact Or.inr (Or.inl (UInt32.ext h))
  · exact Or.inr (Or.inr h)

theorem charListLe_cons (x y : Char) (xs ys : List Char) :
    charListLe (x :: xs) (y :: ys) =
      if x.val < y.val then true
      else if y.val < x.val then false
      else charListLe xs ys := rfl

theorem charListLe_cons_iff (x y : Char) (xs ys : List Char) :
    charListLe (x :: xs) (y :: ys) = true ↔
      x.val < y.val ∨ (x.val = y.val ∧ charListLe xs ys = true) := by
  rw [charListLe_cons]
  by_cases h1 : x.val < y.val
  · rw [if_pos h1]
    simp [h1]
  · rw [if_neg h1]
    by_cases h2 : y.val < x.val
    · rw [if_pos h2]
      have h3 : ¬(x.val = y.val) := by
        intro hh
        rw [hh] at h2
        exact absurd h2 (fun hc => Nat.lt_irrefl _ hc)
      simp [h1, h2, h3]
    · rw [if_neg h2]
      have h3 : x.val = y.val := uEq_of_not_lt h1 h2
      simp [h1, h3]

theorem charListLe_total (a b : List Char) :
    charListLe a b = true ∨ charListLe b a = true := by
  induction a generalizing b with
  | nil => left; rfl
  | cons x xs ih =>
    cases b with
    | nil => right; rfl
    | cons y ys =>
      rcases uLt_trichotomy x.val y.val with h | h | h
      · left; rw [charListLe_cons_iff]; exact Or.inl h
      · rcases ih ys with ht | ht
        · left; rw [charListLe_cons_iff]; exact Or.inr ⟨h, ht⟩
        · right; rw [charListLe_cons_iff]; exact Or.inr ⟨h.symm, ht⟩
      · right; rw [charListLe_cons_iff]; exact Or.inl h

theorem charListLe_trans (a b c : List Char) (hab : charListLe a b = true)
    (hbc : charListLe b c = true) : charListLe a c = true := by
  induction a generalizing b c with
  | nil => rfl
  | cons x xs ih =>
    cases b with
    | nil => cases hab
    | cons y ys =>
      cases c with
      | nil => cases hbc
      | cons z zs =>
        rw [charListLe_cons_iff] at hab hbc ⊢
        rcases hab with h1 | ⟨h1, h1t⟩
        · rcases hbc with h2 | ⟨h2, h2t⟩
          · exact Or.inl (uLt_trans h1 h2)
          · exact Or.inl (h2 ▸ h1)
        · rcases hbc with h2 | ⟨h2, h2t⟩
          · exact Or.inl (h1 ▸ h2)
          · exact Or.inr ⟨h1.trans h2, ih ys zs h1t h2t⟩

theorem charListLe_antisymm (a b : List Char) (hab : charListLe a b = true)
    (hba : charListLe b a = true) : a = b := by
  induction a generalizing b with
  | nil =>
    cases b with
    | nil => rfl
    | cons y ys => cases hba
  | cons x xs ih =>
    cases b with
    | nil => cases hab
    | cons y ys =>
      rw [charListLe_cons_iff] at hab hba
      rcases hab with h1 | ⟨h1, h1t⟩
      · rcases hba with h2 | ⟨h2, h2t⟩
        · exact absurd h2 (fun hc => uLt_asymm h1 hc)
        · rw [h2] at h1
          exact absurd h1 (fun hc => Nat.lt_irrefl _ hc)
      · rcases hba with h2 | ⟨h2, h2t⟩
        · rw [h1] at h2
          exact absurd h2 (fun hc => Nat.lt_irrefl _ hc)
        · have hx : x = y := Char.ext h1
          rw [hx, ih ys h1t h2t]

theorem strLeB_total (a b : String) : strLeB a b = true ∨ strLeB b a = true :=
  charListLe_total a.data b.data

theorem strLeB_trans (a b c : String) (hab : strLeB a b = true)
    (hbc : strLeB b c = true) : strLeB a c = true :=
  charListLe_trans a.data b.data c.data hab hbc

theorem strLeB_antisymm (a b : String) (hab : strLeB a b = true)
    (hba : strLeB b a = true) : a = b := by
  have h := charListLe_antisymm a.data b.data hab hba
  cases a
  cases b
  exact congrArg String.mk h

theorem insertSorted_sorted (le : α → α → Bool)
    (htot : ∀ a b, le a b = false → le b a = true)
    (htrans : ∀ a b c, le a b = true → le b c = true → le a c = true)
    (x : α) (l : List α) (hl : l.Pairwise (fun a b => le a b = true)) :
    (insertSorted le x l).Pairwise (fun a b => le a b = true) := by
  induction l with
  | nil => exact List.pairwise_singleton _ _
  | cons y ys ih =>
    unfold insertSorted
    rcases List.pairwise_cons.mp hl with ⟨hy, hys⟩
    by_cases h : le x y
    · rw [if_pos h]
      refine List.pairwise_cons.mpr ⟨?_, hl⟩
      intro z hz
      rcases List.mem_cons.mp hz with rfl | hzys
      · exact h
      · exact htrans x y z h (hy z hzys)
    · rw [if_neg h]
      refine List.pairwise_cons.mpr ⟨?_, ih hys⟩
      intro z hz
      have hz2 : z ∈ x :: ys := (insertSorted_perm le x ys).mem_iff.mp hz
      rcases List.mem_cons.mp hz2 with rfl | hzys
      · exact htot z y (Bool.not_eq_true _ ▸ h)
      · exact hy z hzys

theorem sortByJS_sorted (le : α → α → Bool)
    (htot : ∀ a b, le a b = false → le b a = true)
    (htrans : ∀ a b c, le a b = true → le b c = true → le a c = true)
    (l : List α) : (sortByJS le l).Pairwise (fun a b => le a b = true) := by
  induction l with
  | nil => exact List.Pairwise.nil
  | cons x xs ih => exact insertSorted_sorted le htot htrans x (sortByJS le xs) ih

theorem sortByJS_sorted_id (le : α → α → Bool) (l : List α)
    (hl : l.Pairwise (fun a b => le a b = true)) : sortByJS le l = l := by
  induction l with
  | nil => rfl
  | cons x xs ih =>
    rcases List.pairwise_cons.mp hl with ⟨hx, hxs⟩
    show insertSorted le x (sortByJS le xs) = x :: xs
    rw [ih hxs]
    cases xs with
    | nil => rfl
    | cons y ys =>
      unfold insertSorted
      rw [if_pos (hx y (List.mem_cons_self _ _))]

theorem sortStrings_sorted (l : List String) :
    (sortStrings l).Pairwise (fun a b => strLeB a b = true) :=
  sortByJS_sorted strLeB
    (fun a b h => (strLeB_total a b).resolve_left (by simp [h])) strLeB_trans l

theorem sortStrings_eq_of_perm_of_sorted (a b : List String) (hp : a.Perm b)
    (ha : a.Pairwise (fun a b => strLeB a b = true))
    (hb : b.Pairwise (fun a b => strLeB a b = true)) : a = b := by
  haveI : IsAntisymm String (fun a b => strLeB a b = true) :=
    ⟨fun a b h1 h2 => strLeB_antisymm a b h1 h2⟩
  exact List.eq_of_perm_of_sorted hp ha hb

theorem sortStrings_congr_perm (a b : List String) (hp : a.Perm b) :
    sortStrings a = sortStrings b :=
  sortStrings_eq_of_perm_of_sorted _ _
    (((sortStrings_perm a).trans hp).trans (sortStrings_perm b).symm)
    (sortStrings_sorted a) (sortStrings_sorted b)

theorem sortStrings_id_of_sorted (l : List String)
    (hl : l.Pairwise (fun a b => strLeB a b = true)) : sortStrings l = l :=
  sortByJS_sorted_id strLeB l hl

def goodScriptKeys (keys : List String) : Bool :=
  keys.all (fun p =>
    !(isPrePost p && isPrePost (strippedName p) && keys.contains (strippedName p)))

theorem goodScriptKeys_spec (keys : List String) (h : goodScriptKeys keys = true) :
    ∀ p ∈ keys, isPrePost p = true → isPrePost (strippedName p) = true →
      strippedName p ∉ keys := by
  intro p hp h1 h2 hmem
  have hall := List.all_eq_true.mp h p hp
  simp [h1, h2, (contains_iff_mem keys (strippedName p)).mpr hmem] at hall
  exact hall hmem

theorem startsWithPre_eq (p : String) (h : startsWithPre p = true) :
    p = "pre" ++ strippedName p := by
  unfold strippedName
  rw [if_pos h]
  cases p with
  | mk d =>
    have hd : List.take 3 d = ['p', 'r', 'e'] := eq_of_beq h
    exact congrArg String.mk (show d = ['p', 'r', 'e'] ++ List.drop 3 d by
      rw [← hd]
      exact (List.take_append_drop 3 d).symm)

theorem startsWithPost_eq (p : String) (hpre : startsWithPre p = false)
    (h : startsWithPost p = true) : p = "post" ++ strippedName p := by
  unfold strippedName
  rw [if_neg (by rw [hpre]; exact Bool.false_ne_true)]
  cases p with
  | mk d =>
    have hd : List.take 4 d = ['p', 'o', 's', 't'] := eq_of_beq h
    exact congrArg String.mk (show d = ['p', 'o', 's', 't'] ++ List.drop 4 d by
      rw [← hd]
      exact (List.take_append_drop 4 d).symm)

theorem startsWithPre_pre (c : String) : startsWithPre ("pre" ++ c) = true := by
  cases c with
  | mk d => rfl

theorem startsWithPre_post (c : String) : startsWithPre ("post" ++ c) = false := by
  cases c with
  | mk d => rfl

theorem startsWithPost_post (c : String) : startsWithPost ("post" ++ c) = true := by
  cases c with
  | mk d => rfl

theorem stripped_pre (c : String) : strippedName ("pre" ++ c) = c := by
  cases c with
  | mk d => rfl

theorem stripped_post (c : String) : strippedName ("post" ++ c) = c := by
  cases c with
  | mk d => rfl

theorem isPrePost_pre (c : String) : isPrePost ("pre" ++ c) = true := by
  cases c with
  | mk d => rfl

theorem isPrePost_post (c : String) : isPrePost ("post" ++ c) = true := by
  cases c with
  | mk d => rfl

theorem pre_append_inj (a b : String) (h : "pre" ++ a = "pre" ++ b) : a = b := by
  have := congrArg strippedName h
  rwa [stripped_pre, stripped_pre] at this

theorem post_append_inj (a b : String) (h : "post" ++ a = "post" ++ b) : a = b := by
  have := congrArg strippedName h
  rwa [stripped_post, stripped_post] at this

theorem pre_ne_post (a b : String) : "pre" ++ a ≠ "post" ++ b := by
  intro h
  have := congrArg startsWithPre h
  rw [startsWithPre_pre, startsWithPre_post] at this
  cases this

/-- The block a core name `c` contributes to the canonical order once the
`pre`/`post` names of `done` have been spliced in. -/
def slotFor (done : List String) (c : String) : List String :=
  (if done.contains ("pre" ++ c) then ["pre" ++ c] else []) ++ [c] ++
  (if done.contains ("post" ++ c) then ["post" ++ c] else [])

/-- The canonical shape of the splice loop's accumulator after the
`pre`/`post` names of `done` have been processed. -/
def canonOrder (done cores : List String) : List String :=
  cores.flatMap (slotFor done) ++
  done.filter (fun p => !(cores.contains (strippedName p)))

theorem mem_slotFor (done : List String) (c x : String) (h : x ∈ slotFor done c) :
    x = c ∨ x ∈ done := by
  unfold slotFor at h
  rcases List.mem_append.mp h with h1 | h1
  · rcases List.mem_append.mp h1 with h2 | h2
    · by_cases hc : done.contains ("pre" ++ c)
      · rw [if_pos hc] at h2
        rcases List.mem_singleton.mp h2 with rfl
        exact Or.inr ((contains_iff_mem _ _).mp hc)
      · rw [if_neg hc] at h2
        cases h2
    · exact Or.inl (List.mem_singleton.mp h2)
  · by_cases hc : done.contains ("post" ++ c)
    · rw [if_pos hc] at h1
      rcases List.mem_singleton.mp h1 with rfl
      exact Or.inr ((contains_iff_mem _ _).mp hc)
    · rw [if_neg hc] at h1
      cases h1

theorem mem_canonOrder (done cores : List String) (x : String)
    (h : x ∈ canonOrder done cores) : x ∈ cores ∨ x ∈ done := by
  unfold canonOrder at h
  rcases List.mem_append.mp h with h1 | h1
  · obtain ⟨c, hc, hx⟩ := List.mem_flatMap.mp h1
    rcases mem_slotFor done c x hx with rfl | hx2
    · exact Or.inl hc
    · exact Or.inr hx2
  · exact Or.inr (List.mem_of_mem_filter h1)

theorem indexOf_append_not_mem (A B : List String) (c : String) (h : c ∉ A) :
    List.indexOf c (A ++ c :: B) = A.length := by
  induction A with
  | nil => simp [List.indexOf_cons]
  | cons a A ih =>
    have ha : ¬(a = c) := fun hh => h (hh ▸ List.mem_cons_self a A)
    have hb : (a == c) = false := beq_eq_false_iff_ne.mpr ha
    rw [List.cons_append, List.indexOf_cons, hb]
    show List.indexOf c (A ++ c :: B) + 1 = A.length + 1
    rw [ih (fun hm => h (List.mem_cons_of_mem a hm))]

theorem insertIdx_at_length (A B : List String) (x : String) :
    List.insertIdx A.length x (A ++ B) = A ++ x :: B := by
  induction A with
  | nil => rfl
  | cons a A ih =>
    show a :: List.insertIdx A.length x (A ++ B) = a :: (A ++ x :: B)
    rw [ih]

theorem contains_eq_false_of_not_mem (l : List String) (k : String) (h : k ∉ l) :
    l.contains k = false := by
  cases hc : l.contains k
  · rfl
  · exact absurd ((contains_iff_mem l k).mp hc) h

theorem contains_append_self (l : List String) (p : String) :
    (l ++ [p]).contains p = true :=
  (contains_iff_mem _ _).mpr (List.mem_append_right l (List.mem_singleton_self p))

theorem contains_append_ne (l : List String) (p x : String) (h : ¬(x = p)) :
    (l ++ [p]).contains x = l.contains x := by
  cases hc : l.contains x
  · apply contains_eq_false_of_not_mem
    intro hm
    rcases List.mem_append.mp hm with hm1 | hm1
    · rw [(contains_iff_mem l x).mpr hm1] at hc
      cases hc
    · exact h (List.mem_singleton.mp hm1)
  · exact (contains_iff_mem _ _).mpr
      (List.mem_append_left _ ((contains_iff_mem _ _).mp hc))

theorem spliceStep_found_pre (A B : List String) (p : String)
    (hw : startsWithPre p = true) (hnA : strippedName p ∉ A) :
    spliceStep (A ++ strippedName p :: B) p = A ++ p :: strippedName p :: B := by
  simp only [spliceStep]
  rw [indexOf_append_not_mem A B (strippedName p) hnA]
  have hlen : A.length < (A ++ strippedName p :: B).length := by
    rw [List.length_append, List.length_cons]
    omega
  rw [if_pos hlen, if_pos hw]
  exact insertIdx_at_length A (strippedName p :: B) p

theorem spliceStep_found_post (A B : List String) (p : String)
    (hw : startsWithPre p = false) (hnA : strippedName p ∉ A) :
    spliceStep (A ++ strippedName p :: B) p = A ++ strippedName p :: p :: B := by
  simp only [spliceStep]
  rw [indexOf_append_not_mem A B (strippedName p) hnA]
  have hlen : A.length < (A ++ strippedName p :: B).length := by
    rw [List.length_append, List.length_cons]
    omega
  rw [if_pos hlen, if_neg (by rw [hw]; exact Bool.false_ne_true)]
  have h1 : A.length + 1 = (A ++ [strippedName p]).length := by
    rw [List.length_append, List.length_singleton]
  have h2 : A ++ strippedName p :: B = (A ++ [strippedName p]) ++ B := by
    rw [List.append_assoc, List.singleton_append]
  rw [h1, h2, insertIdx_at_length]
  rw [List.append_assoc, List.singleton_append]

theorem spliceStep_found_post2 (A1 A2 B : List String) (p : String)
    (hw : startsWithPre p = false)
    (h1 : strippedName p ∉ A1) (h2 : strippedName p ∉ A2) :
    spliceStep (A1 ++ (A2 ++ strippedName p :: B)) p =
      A1 ++ (A2 ++ strippedName p :: p :: B) := by
  have hstep := spliceStep_found_post (A1 ++ A2) B p hw (by
    intro hm
    rcases List.mem_append.mp hm with h | h
    · exact h1 h
    · exact h2 h)
  simp only [List.append_assoc] at hstep
  exact hstep

theorem spliceStep_orphan (ord : List String) (p : String)
    (h : strippedName p ∉ ord) : spliceStep ord p = ord ++ [p] := by
  simp only [spliceStep]
  rw [List.indexOf_eq_length.mpr h]
  rw [if_neg (Nat.lt_irrefl _)]

theorem slotFor_pre_self (done : List String) (p : String)
    (hw : startsWithPre p = true) (hpd : p ∉ done) :
    slotFor done (strippedName p) =
      strippedName p ::
        (if done.contains ("post" ++ strippedName p) then
          ["post" ++ strippedName p] else []) := by
  unfold slotFor
  rw [← startsWithPre_eq p hw, contains_eq_false_of_not_mem done p hpd]
  rfl

theorem slotFor_pre_self2 (done : List String) (p : String)
    (hw : startsWithPre p = true) :
    slotFor (done ++ [p]) (strippedName p) =
      p :: strippedName p ::
        (if done.contains ("post" ++ strippedName p) then
          ["post" ++ strippedName p] else []) := by
  unfold slotFor
  rw [← startsWithPre_eq p hw, contains_append_self,
      contains_append_ne done p _ (by
        intro hh
        rw [startsWithPre_eq p hw] at hh
        exact pre_ne_post _ _ hh.symm)]
  rfl

theorem slotFor_post_self (done : List String) (p : String)
    (hw : startsWithPre p = false) (hw2 : startsWithPost p = true)
    (hpd : p ∉ done) :
    slotFor done (strippedName p) =
      (if done.contains ("pre" ++ strippedName p) then
        ["pre" ++ strippedName p] else []) ++ [strippedName p] := by
  unfold slotFor
  rw [← startsWithPost_eq p hw hw2, contains_eq_false_of_not_mem done p hpd]
  simp

theorem slotFor_post_self2 (done : List String) (p : String)
    (hw : startsWithPre p = false) (hw2 : startsWithPost p = true) :
    slotFor (done ++ [p]) (strippedName p) =
      (if done.contains ("pre" ++ strippedName p) then
        ["pre" ++ strippedName p] else []) ++ [strippedName p, p] := by
  unfold slotFor
  rw [← startsWithPost_eq p hw hw2, contains_append_self,
      contains_append_ne done p _ (by
        intro hh
        rw [startsWithPost_eq p hw hw2] at hh
        exact pre_ne_post _ _ hh)]
  simp

theorem slotFor_append_ne (done : List String) (p c : String)
    (h1 : ¬("pre" ++ c = p)) (h2 : ¬("post" ++ c = p)) :
    slotFor (done ++ [p]) c = slotFor done c := by
  unfold slotFor
  rw [contains_append_ne done p _ h1, contains_append_ne done p _ h2]

theorem ne_pre_append (c : String) : ¬(c = "pre" ++ c) := by
  intro h
  have hlen := congrArg String.length h
  rw [String.length_append] at hlen
  have h3 : "pre".length = 3 := rfl
  rw [h3] at hlen
  omega

theorem ne_post_append (c : String) : ¬(c = "post" ++ c) := by
  intro h
  have hlen := congrArg String.length h
  rw [String.length_append] at hlen
  have h4 : "post".length = 4 := rfl
  rw [h4] at hlen
  omega

theorem spliceStep_canonOrder (cores done : List String) (p : String)
    (hcnd : cores.Nodup)
    (hp : isPrePost p = true)
    (hpd : p ∉ done)
    (hsd : strippedName p ∉ done) :
    spliceStep (canonOrder done cores) p = canonOrder (done ++ [p]) cores := by
  by_cases hin : strippedName p ∈ cores
  · obtain ⟨C1, C2, hC⟩ := List.append_of_mem hin
    subst hC
    have hmid := List.nodup_middle.mp hcnd
    rcases List.nodup_cons.mp hmid with ⟨hnmem, hnd12⟩
    have hnd1 : strippedName p ∉ C1 := fun hh => hnmem (List.mem_append_left _ hh)
    have hAnm : strippedName p ∉ C1.flatMap (slotFor done) := by
      intro hh
      obtain ⟨c, hc, hx⟩ := List.mem_flatMap.mp hh
      rcases mem_slotFor done c _ hx with heq | hmm
      · exact hnd1 (heq ▸ hc)
      · exact hsd hmm
    have hcongr : ∀ c, c ∈ C1 ++ C2 → slotFor (done ++ [p]) c = slotFor done c := by
      intro c hc
      apply slotFor_append_ne
      · intro hh
        have hwp : startsWithPre p = true := hh ▸ startsWithPre_pre c
        have hsp : strippedName p = c := by rw [← hh, stripped_pre]
        exact hnmem (hsp ▸ hc)
      · intro hh
        have hsp : strippedName p = c := by rw [← hh, stripped_post]
        exact hnmem (hsp ▸ hc)
    have hcongr1 : C1.flatMap (slotFor (done ++ [p])) = C1.flatMap (slotFor done) :=
      List.flatMap_congr (fun c hc => hcongr c (List.mem_append_left _ hc))
    have hcongr2 : C2.flatMap (slotFor (done ++ [p])) = C2.flatMap (slotFor done) :=
      List.flatMap_congr (fun c hc => hcongr c (List.mem_append_right _ hc))
    have hctn : (C1 ++ strippedName p :: C2).contains (strippedName p) = true :=
      (contains_iff_mem _ _).mpr hin
    have horph : (done ++ [p]).filter
          (fun q => !((C1 ++ strippedName p :: C2).contains (strippedName q)))
        = done.filter
          (fun q => !((C1 ++ strippedName p :: C2).contains (strippedName q))) := by
      rw [List.filter_append, List.filter_singleton, hctn]
      simp
    cases hw : startsWithPre p with
    | true =>
      unfold canonOrder
      rw [List.flatMap_append, List.flatMap_append, List.flatMap_cons, List.flatMap_cons,
          hcongr1, hcongr2, horph,
          slotFor_pre_self done p hw hpd, slotFor_pre_self2 done p hw]
      simp only [List.append_assoc, List.cons_append]
      exact spliceStep_found_pre _ _ p hw hAnm
    | false =>
      have hw2 : startsWithPost p = true := by
        unfold isPrePost at hp
        rw [hw] at hp
        simpa using hp
      have hprenm : strippedName p ∉
          (if done.contains ("pre" ++ strippedName p) then
            ["pre" ++ strippedName p] else []) := by
        by_cases hc : done.contains ("pre" ++ strippedName p)
        · rw [if_pos hc]
          intro hm
          exact ne_pre_append _ (List.mem_singleton.mp hm)
        · rw [if_neg hc]
          intro hm
          cases hm
      unfold canonOrder
      rw [List.flatMap_append, List.flatMap_append, List.flatMap_cons, List.flatMap_cons,
          hcongr1, hcongr2, horph,
          slotFor_post_self done p hw hw2 hpd, slotFor_post_self2 done p hw hw2]
      simp only [List.append_assoc, List.cons_append, List.singleton_append]
      exact spliceStep_found_post2 _ _ _ p hw hAnm hprenm
  · have hnm : strippedName p ∉ canonOrder done cores := fun hh =>
      (mem_canonOrder done cores _ hh).elim (fun h => hin h) (fun h => hsd h)
    rw [spliceStep_orphan _ p hnm]
    have hcongr : ∀ c, c ∈ cores → slotFor (done ++ [p]) c = slotFor done c := by
      intro c hc
      apply slotFor_append_ne
      · intro hh
        have hsp : strippedName p = c := by rw [← hh, stripped_pre]
        exact hin (hsp ▸ hc)
      · intro hh
        have hsp : strippedName p = c := by rw [← hh, stripped_post]
        exact hin (hsp ▸ hc)
    have hctn : cores.contains (strippedName p) = false :=
      contains_eq_false_of_not_mem cores _ hin
    unfold canonOrder
    rw [List.flatMap_congr hcongr, List.filter_append, List.filter_singleton, hctn]
    simp [List.append_assoc]

theorem canonOrder_nil (cores : List String) : canonOrder [] cores = cores := by
  unfold canonOrder
  rw [List.filter_nil, List.append_nil]
  have hs : ∀ c ∈ cores, slotFor [] c = (fun x => [x]) c := by
    intro c _
    rfl
  rw [List.flatMap_congr hs]
  simp

theorem foldl_spliceStep_canonOrder (cores : List String) (hcnd : cores.Nodup)
    (todo : List String) :
    ∀ done : List String,
      (done ++ todo).Nodup →
      (∀ q ∈ done ++ todo, isPrePost q = true) →
      (∀ q ∈ done ++ todo, strippedName q ∉ done ++ todo) →
      todo.foldl spliceStep (canonOrder done cores) =
        canonOrder (done ++ todo) cores := by
  induction todo with
  | nil =>
    intro done _ _ _
    rw [List.append_nil]
    rfl
  | cons p rest ih =>
    intro done hnd hPP hgood
    have hmem_p : p ∈ done ++ p :: rest :=
      List.mem_append_right _ (List.mem_cons_self _ _)
    have hpd : p ∉ done := by
      have hmid := List.nodup_middle.mp hnd
      rcases List.nodup_cons.mp hmid with ⟨hnm, _⟩
      exact fun hc => hnm (List.mem_append_left _ hc)
    have hstep := spliceStep_canonOrder cores done p hcnd
      (hPP p hmem_p) hpd
      (fun hc => hgood p hmem_p (List.mem_append_left _ hc))
    show List.foldl spliceStep (spliceStep (canonOrder done cores) p) rest = _
    rw [hstep]
    have hre : done ++ p :: rest = (done ++ [p]) ++ rest := by simp
    rw [hre] at hnd hPP hgood ⊢
    exact ih (done ++ [p]) hnd hPP hgood

theorem contains_filter_prePost (keys : List String) (x : String)
    (hx : isPrePost x = true) :
    (keys.filter isPrePost).contains x = keys.contains x := by
  cases hc : keys.contains x
  · apply contains_eq_false_of_not_mem
    intro hm
    rw [(contains_iff_mem _ _).mpr (List.mem_of_mem_filter hm)] at hc
    cases hc
  · exact (contains_iff_mem _ _).mpr
      (List.mem_filter.mpr ⟨(contains_iff_mem _ _).mp hc, hx⟩)

theorem spliceOrder_eq_spec (keys : List String) (hnd : keys.Nodup)
    (hgood : goodScriptKeys keys = true) :
    spliceOrder keys = specScriptsOrder keys := by
  have hPPnd : (keys.filter isPrePost).Nodup := hnd.filter _
  have hcoresnd :
      (sortStrings (keys.filter (fun k =>
        !((keys.filter isPrePost).contains k)))).Nodup :=
    (sortStrings_perm _).nodup_iff.mpr (hnd.filter _)
  have hPPmem : ∀ q ∈ keys.filter isPrePost, isPrePost q = true := by
    intro q hq
    exact (List.mem_filter.mp hq).2
  have hgood2 : ∀ q ∈ keys.filter isPrePost,
      strippedName q ∉ keys.filter isPrePost := by
    intro q hq hsq
    rcases List.mem_filter.mp hq with ⟨hq1, hq2⟩
    rcases List.mem_filter.mp hsq with ⟨hs1, hs2⟩
    exact goodScriptKeys_spec keys hgood q hq1 hq2 hs2 hs1
  have hfold := foldl_spliceStep_canonOrder _ hcoresnd (keys.filter isPrePost) []
    hPPnd hPPmem hgood2
  simp only [spliceOrder]
  rw [← canonOrder_nil (sortStrings (keys.filter (fun k =>
        !((keys.filter isPrePost).contains k))))]
  rw [show ((keys.filter isPrePost).foldl spliceStep
        (canonOrder [] (sortStrings (keys.filter (fun k =>
          !((keys.filter isPrePost).contains k)))))) =
      canonOrder (keys.filter isPrePost) (sortStrings (keys.filter (fun k =>
          !((keys.filter isPrePost).contains k)))) from hfold]
  simp only [specScriptsOrder]
  unfold canonOrder
  have hslot : ∀ c ∈ sortStrings (keys.filter (fun k =>
      !((keys.filter isPrePost).contains k))),
      slotFor (keys.filter isPrePost) c =
        (fun c =>
          (if keys.contains ("pre" ++ c) then ["pre" ++ c] else []) ++ [c] ++
          (if keys.contains ("post" ++ c) then ["post" ++ c] else [])) c := by
    intro c _
    unfold slotFor
    rw [contains_filter_prePost keys _ (isPrePost_pre c),
        contains_filter_prePost keys _ (isPrePost_post c)]
  rw [List.flatMap_congr hslot]

/-- C4 (amended theorem): the splice order coincides with the specified
ordering rule whenever the script names are duplicate-free and no
`pre`/`post` script name strips to a name that is itself a `pre`/`post`
script name of the map (the source's splicing is order-dependent exactly in
that case, as the counterexample shows). -/
theorem C4_amended_splice_canonical (source : JSObj)
    (hnd : (keysOf source).Nodup)
    (hgood : goodScriptKeys (keysOf source) = true) :
    alphabetizeScripts source = specAlphabetizeScripts source := by
  unfold alphabetizeScripts specAlphabetizeScripts
  rw [spliceOrder_eq_spec _ hnd hgood]

theorem C4_amended_witness :
    (keysOf ([("postinstall", .str "a"), ("build", .str "b"),
        ("prebuild", .str "c")] : JSObj)).Nodup ∧
    goodScriptKeys (keysOf ([("postinstall", .str "a"), ("build", .str "b"),
        ("prebuild", .str "c")] : JSObj)) = true ∧
    alphabetizeScripts [("postinstall", .str "a"), ("build", .str "b"),
        ("prebuild", .str "c")] =
      specAlphabetizeScripts [("postinstall", .str "a"), ("build", .str "b"),
        ("prebuild", .str "c")] :=
  ⟨by decide, by decide,
    C4_amended_splice_canonical
      [("postinstall", .str "a"), ("build", .str "b"), ("prebuild", .str "c")]
      (by decide) (by decide)⟩

theorem contains_congr_perm (l l' : List String) (hp : l.Perm l') (x : String) :
    l.contains x = l'.contains x := by
  simp [List.contains_iff_exists_mem_beq, hp.mem_iff]

theorem goodScriptKeys_perm (l l' : List String) (hp : l.Perm l')
    (h : goodScriptKeys l = true) : goodScriptKeys l' = true := by
  rw [goodScriptKeys, List.all_eq_true]
  intro p hpmem
  have h0 := List.all_eq_true.mp h p (hp.mem_iff.mpr hpmem)
  rw [← contains_congr_perm l l' hp]
  exact h0

theorem filter_flatMap_distrib (l : List String) (f : String → List String)
    (p : String → Bool) :
    (l.flatMap f).filter p = l.flatMap (fun a => (f a).filter p) := by
  induction l with
  | nil => rfl
  | cons a l ih => simp [List.flatMap_cons, List.filter_append, ih]

theorem filter_eq_nil_of_all_false (l : List String) (p : String → Bool)
    (h : ∀ x ∈ l, p x = false) : l.filter p = [] := by
  simp [List.filter_eq_nil_iff]
  intro a ha
  simp [h a ha]

theorem specScriptsOrder_shape (keys : List String) :
    specScriptsOrder keys =
      (sortStrings (keys.filter (fun k =>
        !((keys.filter isPrePost).contains k)))).flatMap (fun c =>
          (if keys.contains ("pre" ++ c) then ["pre" ++ c] else []) ++ [c] ++
          (if keys.contains ("post" ++ c) then ["post" ++ c] else [])) ++
      (keys.filter isPrePost).filter (fun p =>
        !((sortStrings (keys.filter (fun k =>
          !((keys.filter isPrePost).contains k)))).contains (strippedName p))) := rfl

theorem specScriptsOrder_idem (keys : List String) (hnd : keys.Nodup)
    (hgood : goodScriptKeys keys = true) :
    specScriptsOrder (specScriptsOrder keys) = specScriptsOrder keys := by
  have hKperm : (specScriptsOrder keys).Perm keys := by
    rw [← spliceOrder_eq_spec keys hnd hgood]
    exact spliceOrder_perm keys
  set PP := keys.filter isPrePost with hPPdef
  set cores := sortStrings (keys.filter (fun k => !(PP.contains k))) with hcoresdef
  set f : String → List String := fun c =>
    (if keys.contains ("pre" ++ c) then ["pre" ++ c] else []) ++ [c] ++
    (if keys.contains ("post" ++ c) then ["post" ++ c] else []) with hfdef
  set orphans := PP.filter (fun p => !(cores.contains (strippedName p))) with horphdef
  have hshape : specScriptsOrder keys = cores.flatMap f ++ orphans := rfl
  have hcores_mem : ∀ c ∈ cores, c ∈ keys ∧ isPrePost c = false := by
    intro c hc
    rw [hcoresdef] at hc
    have hc2 := (sortStrings_perm _).mem_iff.mp hc
    rw [filter_not_contains_prePost] at hc2
    rcases List.mem_filter.mp hc2 with ⟨h1, h2⟩
    refine ⟨h1, ?_⟩
    cases hpp : isPrePost c
    · rfl
    · rw [hpp] at h2
      cases h2
  have hsscores : sortStrings cores = cores := by
    rw [hcoresdef]
    exact sortStrings_id_of_sorted _ (sortStrings_sorted _)
  have hslotf : ∀ c ∈ cores, (f c).filter (fun k => !(isPrePost k)) = [c] := by
    intro c hc
    have hcpp := (hcores_mem c hc).2
    rw [hfdef]
    by_cases h1 : "pre" ++ c ∈ keys <;>
    by_cases h2 : "post" ++ c ∈ keys <;>
      simp [h1, h2, List.filter_append, List.filter_singleton,
        isPrePost_pre, isPrePost_post, hcpp]
  have hslotpp : ∀ c ∈ cores, (f c).filter isPrePost =
      (if keys.contains ("pre" ++ c) then ["pre" ++ c] else []) ++
      (if keys.contains ("post" ++ c) then ["post" ++ c] else []) := by
    intro c hc
    have hcpp := (hcores_mem c hc).2
    rw [hfdef]
    by_cases h1 : "pre" ++ c ∈ keys <;>
    by_cases h2 : "post" ++ c ∈ keys <;>
      simp [h1, h2, List.filter_append, List.filter_singleton,
        isPrePost_pre, isPrePost_post, hcpp]
  have horphPP : ∀ x ∈ orphans, isPrePost x = true := by
    intro x hx
    rw [horphdef] at hx
    have hx2 : x ∈ PP := List.mem_of_mem_filter hx
    rw [hPPdef] at hx2
    exact (List.mem_filter.mp hx2).2
  have hKfcores : (cores.flatMap f ++ orphans).filter (fun k => !(isPrePost k))
      = cores := by
    rw [List.filter_append, filter_flatMap_distrib, List.flatMap_congr hslotf]
    have horph0 : orphans.filter (fun k => !(isPrePost k)) = [] :=
      filter_eq_nil_of_all_false _ _ (by
        intro x hx
        rw [horphPP x hx]
        rfl)
    rw [horph0]
    simp
  have hKfpp : (cores.flatMap f ++ orphans).filter isPrePost =
      cores.flatMap (fun c =>
        (if keys.contains ("pre" ++ c) then ["pre" ++ c] else []) ++
        (if keys.contains ("post" ++ c) then ["post" ++ c] else [])) ++ orphans := by
    rw [List.filter_append, filter_flatMap_distrib, List.flatMap_congr hslotpp]
    rw [List.filter_eq_self.mpr horphPP]
  have hFMperm : (cores.flatMap f ++ orphans).Perm keys := hshape ▸ hKperm
  have hFMc : ∀ x, (cores.flatMap f ++ orphans).contains x = keys.contains x :=
    fun x => contains_congr_perm _ _ hFMperm x
  rw [hshape, specScriptsOrder_shape (cores.flatMap f ++ orphans),
      filter_not_contains_prePost, hKfcores, hsscores]
  have hf2 : ∀ c ∈ cores, ((if (cores.flatMap f ++ orphans).contains ("pre" ++ c)
        then ["pre" ++ c] else []) ++ [c] ++
      (if (cores.flatMap f ++ orphans).contains ("post" ++ c)
        then ["post" ++ c] else [])) = f c := by
    intro c _
    rw [hFMc, hFMc, hfdef]
  rw [List.flatMap_congr hf2, hKfpp, List.filter_append]
  have hgone : (cores.flatMap (fun c =>
      (if keys.contains ("pre" ++ c) then ["pre" ++ c] else []) ++
      (if keys.contains ("post" ++ c) then ["post" ++ c] else []))).filter
        (fun p => !(cores.contains (strippedName p))) = [] := by
    rw [filter_flatMap_distrib]
    have hz : ∀ c ∈ cores, ((if keys.contains ("pre" ++ c) then ["pre" ++ c] else []) ++
        (if keys.contains ("post" ++ c) then ["post" ++ c] else [])).filter
          (fun p => !(cores.contains (strippedName p))) = ([] : List String) := by
      intro c hc
      by_cases h1 : "pre" ++ c ∈ keys <;>
      by_cases h2 : "post" ++ c ∈ keys <;>
        simp [h1, h2, hc, List.filter_append, List.filter_singleton,
          stripped_pre, stripped_post]
    rw [List.flatMap_congr hz]
    simp
  have hkeep : orphans.filter (fun p => !(cores.contains (strippedName p))) = orphans :=
    List.filter_eq_self.mpr (by
      intro x hx
      rw [horphdef] at hx
      exact (List.mem_filter.mp hx).2)
  rw [hgone, hkeep]
  rfl

theorem spliceOrder_idem (keys : List String) (hnd : keys.Nodup)
    (hgood : goodScriptKeys keys = true) :
    spliceOrder (spliceOrder keys) = spliceOrder keys := by
  have hKperm : (spliceOrder keys).Perm keys := spliceOrder_perm keys
  have hnd2 : (spliceOrder keys).Nodup := hKperm.nodup_iff.mpr hnd
  have hgood2 : goodScriptKeys (spliceOrder keys) = true :=
    goodScriptKeys_perm keys _ hKperm.symm hgood
  rw [spliceOrder_eq_spec _ hnd2 hgood2, spliceOrder_eq_spec _ hnd hgood]
  exact specScriptsOrder_idem keys hnd hgood

/-- String-level mirror of the keyword deduplication. -/
def strDedupSeen (seen : List String) : List String → List String
  | [] => []
  | v :: rest =>
    if seen.contains v then strDedupSeen seen rest
    else v :: strDedupSeen (seen ++ [v]) rest

/-- String-level mirror of the keyword union. -/
def strUnion (a b : List String) : List String := strDedupSeen [] (a ++ b)

theorem mem_strDedupSeen (l : List String) :
    ∀ (seen : List String) (x : String),
      x ∈ strDedupSeen seen l ↔ x ∈ l ∧ x ∉ seen := by
  induction l with
  | nil =>
    intro seen x
    simp [strDedupSeen]
  | cons v rest ih =>
    intro seen x
    unfold strDedupSeen
    by_cases hc : seen.contains v
    · rw [if_pos hc]
      rw [ih seen x]
      constructor
      · rintro ⟨h1, h2⟩
        exact ⟨List.mem_cons_of_mem v h1, h2⟩
      · rintro ⟨h1, h2⟩
        rcases List.mem_cons.mp h1 with rfl | h1
        · exact absurd ((contains_iff_mem _ _).mp hc) h2
        · exact ⟨h1, h2⟩
    · rw [if_neg hc]
      by_cases hx : x = v
      · subst hx
        constructor
        · intro _
          refine ⟨List.mem_cons_self _ _, ?_⟩
          intro hs
          exact hc ((contains_iff_mem _ _).mpr hs)
        · intro _
          exact List.mem_cons_self _ _
      · constructor
        · intro h
          rcases List.mem_cons.mp h with rfl | h
          · exact absurd rfl hx
          · rcases (ih _ x).mp h with ⟨h1, h2⟩
            refine ⟨List.mem_cons_of_mem v h1, ?_⟩
            intro hs
            exact h2 (List.mem_append_left _ hs)
        · rintro ⟨h1, h2⟩
          rcases List.mem_cons.mp h1 with rfl | h1
          · exact absurd rfl hx
          · refine List.mem_cons_of_mem v ((ih _ x).mpr ⟨h1, ?_⟩)
            intro hs
            rcases List.mem_append.mp hs with hs | hs
            · exact h2 hs
            · exact hx (List.mem_singleton.mp hs)

theorem nodup_strDedupSeen (l : List String) :
    ∀ seen : List String, (strDedupSeen seen l).Nodup := by
  induction l with
  | nil =>
    intro seen
    exact List.nodup_nil
  | cons v rest ih =>
    intro seen
    unfold strDedupSeen
    by_cases hc : seen.contains v
    · rw [if_pos hc]
      exact ih seen
    · rw [if_neg hc]
      refine List.nodup_cons.mpr ⟨?_, ih _⟩
      intro hm
      have := ((mem_strDedupSeen rest _ v).mp hm).2
      exact this (List.mem_append_right _ (List.mem_singleton_self v))

theorem mem_strUnion (a b : List String) (x : String) :
    x ∈ strUnion a b ↔ x ∈ a ∨ x ∈ b := by
  unfold strUnion
  rw [mem_strDedupSeen]
  simp

theorem nodup_strUnion (a b : List String) : (strUnion a b).Nodup :=
  nodup_strDedupSeen _ _

theorem keywords_round (base K : List String) :
    sortStrings (strUnion base (sortStrings (strUnion base K))) =
      sortStrings (strUnion base K) := by
  have hperm : (strUnion base (sortStrings (strUnion base K))).Perm
      (sortStrings (strUnion base K)) := by
    apply (List.perm_ext_iff_of_nodup (nodup_strUnion _ _)
      ((sortStrings_perm _).nodup_iff.mpr (nodup_strUnion _ _))).mpr
    intro x
    rw [mem_strUnion]
    constructor
    · rintro (hx | hx)
      · exact (sortStrings_perm _).mem_iff.mpr ((mem_strUnion _ _ _).mpr (Or.inl hx))
      · exact hx
    · intro hx
      exact Or.inr hx
  rw [sortStrings_congr_perm _ _ hperm]
  exact sortStrings_id_of_sorted _ (sortStrings_sorted _)

/-! ## String-valued keyword lists: transport to the string level -/

theorem beq_str_str (a b : String) :
    ((JSVal.str a) == (JSVal.str b)) = (a == b) := by
  by_cases h : a = b
  · subst h
    simp
  · simp [h]

theorem contains_map_str (l : List String) (v : String) :
    (l.map JSVal.str).contains (.str v) = l.contains v := by
  induction l with
  | nil => rfl
  | cons a rest ih =>
    rw [List.map_cons, List.contains_cons, List.contains_cons, ih, beq_str_str]

theorem dedupSeen_map_str (l : List String) :
    ∀ seen : List String,
      dedupSeen (seen.map .str) (l.map .str) = (strDedupSeen seen l).map .str := by
  induction l with
  | nil =>
    intro seen
    rfl
  | cons v rest ih =>
    intro seen
    rw [List.map_cons]
    unfold dedupSeen strDedupSeen
    rw [contains_map_str]
    by_cases hc : seen.contains v
    · rw [if_pos hc, if_pos hc, ih]
    · rw [if_neg hc, if_neg hc]
      rw [show (List.map JSVal.str seen ++ [JSVal.str v]) =
            (seen ++ [v]).map JSVal.str by simp, ih]
      rfl

theorem jsUnion_map_str (a b : List String) :
    jsUnion (a.map .str) (b.map .str) = (strUnion a b).map .str := by
  unfold jsUnion strUnion
  rw [show (List.map JSVal.str a ++ List.map JSVal.str b) =
        (a ++ b).map JSVal.str from (List.map_append _ _ _).symm]
  rw [show ([] : List JSVal) = List.map JSVal.str [] from rfl]
  exact dedupSeen_map_str (a ++ b) []

theorem insertSorted_map_str (v : String) (l : List String) :
    insertSorted (fun a b : JSVal => strLeB a.toStr b.toStr) (.str v) (l.map .str) =
      (insertSorted strLeB v l).map .str := by
  induction l with
  | nil => rfl
  | cons y ys ih =>
    rw [List.map_cons]
    unfold insertSorted
    rw [show strLeB (JSVal.str v).toStr (JSVal.str y).toStr = strLeB v y from rfl]
    by_cases h : strLeB v y
    · rw [if_pos h, if_pos h]
      rfl
    · rw [if_neg h, if_neg h, ih]
      rfl

theorem jsSortVals_map_str (l : List String) :
    jsSortVals (l.map .str) = (sortStrings l).map .str := by
  induction l with
  | nil => rfl
  | cons v rest ih =>
    show insertSorted _ (.str v) (jsSortVals (rest.map .str)) = _
    rw [ih]
    exact insertSorted_map_str v (sortStrings rest)

theorem keywords_idem (K : List JSVal) (hK : ∀ v ∈ K, ∃ s, v = .str s) :
    jsSortVals (jsUnion [.str "videojs", .str "videojs-plugin"]
      (jsSortVals (jsUnion [.str "videojs", .str "videojs-plugin"] K))) =
    jsSortVals (jsUnion [.str "videojs", .str "videojs-plugin"] K) := by
  have hKmap : K = (K.map JSVal.toStr).map JSVal.str := by
    rw [List.map_map]
    have hcongr : ∀ v ∈ K, (JSVal.str ∘ JSVal.toStr) v = id v := by
      intro v hv
      obtain ⟨s, rfl⟩ := hK v hv
      rfl
    rw [List.map_congr_left hcongr, List.map_id]
  rw [hKmap,
      show ([JSVal.str "videojs", JSVal.str "videojs-plugin"] : List JSVal) =
        (["videojs", "videojs-plugin"]).map JSVal.str from rfl,
      jsUnion_map_str, jsSortVals_map_str, jsUnion_map_str, jsSortVals_map_str]
  exact congrArg (List.map JSVal.str) (keywords_round _ _)

/-! ## Idempotence of the canonical orderers -/

theorem jsPick_congr (o1 o2 : List (String × β)) (order : List String)
    (h : ∀ k ∈ order, List.lookup k o1 = List.lookup k o2) :
    jsPick o1 order = jsPick o2 order := by
  unfold jsPick
  apply List.filterMap_congr
  intro k hk
  rw [h k hk]

theorem jsPick_self (o : List (String × β)) (hnd : (keysOf o).Nodup) :
    jsPick o (keysOf o) = o := by
  apply alist_ext
  · rw [keysOf_jsPick]
    exact List.filter_eq_self.mpr (fun k hk => lookup_isSome_of_mem o k hk)
  · rw [keysOf_jsPick]
    exact hnd.filter _
  · intro k
    rw [lookup_jsPick]
    cases hc : (keysOf o).contains k
    · rw [if_neg Bool.false_ne_true]
      exact (lookup_eq_none_of_not_mem o k (fun hm => by
        rw [(contains_iff_mem _ _).mpr hm] at hc
        cases hc)).symm
    · rw [if_pos rfl]

theorem keysOf_alphabetizeObject_sorted (M : JSObj) :
    keysOf (alphabetizeObject M) = sortStrings (keysOf M) := by
  unfold alphabetizeObject
  rw [keysOf_jsPick]
  apply List.filter_eq_self.mpr
  intro k hk
  exact lookup_isSome_of_mem M k ((sortStrings_perm _).mem_iff.mp hk)

theorem keysOf_alphabetizeScripts_splice (M : JSObj) :
    keysOf (alphabetizeScripts M) = spliceOrder (keysOf M) := by
  unfold alphabetizeScripts
  rw [keysOf_jsPick]
  apply List.filter_eq_self.mpr
  intro k hk
  exact lookup_isSome_of_mem M k ((spliceOrder_perm _).mem_iff.mp hk)

theorem alphabetizeObject_idem (M : JSObj) (hnd : (keysOf M).Nodup) :
    alphabetizeObject (alphabetizeObject M) = alphabetizeObject M := by
  have h1 : alphabetizeObject (alphabetizeObject M) =
      jsPick (alphabetizeObject M) (sortStrings (keysOf (alphabetizeObject M))) := rfl
  rw [h1, keysOf_alphabetizeObject_sorted,
      sortStrings_id_of_sorted _ (sortStrings_sorted _),
      ← keysOf_alphabetizeObject_sorted]
  apply jsPick_self
  rw [keysOf_alphabetizeObject_sorted]
  exact (sortStrings_perm _).nodup_iff.mpr hnd

theorem alphabetizeScripts_idem (M : JSObj) (hnd : (keysOf M).Nodup)
    (hgood : goodScriptKeys (keysOf M) = true) :
    alphabetizeScripts (alphabetizeScripts M) = alphabetizeScripts M := by
  have h1 : alphabetizeScripts (alphabetizeScripts M) =
      jsPick (alphabetizeScripts M) (spliceOrder (keysOf (alphabetizeScripts M))) := rfl
  rw [h1, keysOf_alphabetizeScripts_splice, spliceOrder_idem _ hnd hgood,
      ← keysOf_alphabetizeScripts_splice]
  apply jsPick_self
  rw [keysOf_alphabetizeScripts_splice]
  exact (spliceOrder_perm _).nodup_iff.mpr hnd

theorem alphabetizeObject_congr (X Y : JSObj)
    (hX : (keysOf X).Nodup) (hY : (keysOf Y).Nodup)
    (hl : ∀ k, List.lookup k X = List.lookup k Y) :
    alphabetizeObject X = alphabetizeObject Y := by
  have hperm : (keysOf X).Perm (keysOf Y) := by
    apply (List.perm_ext_iff_of_nodup hX hY).mpr
    intro k
    constructor
    · intro hk
      have := lookup_isSome_of_mem X k hk
      rw [hl k] at this
      obtain ⟨w, hw⟩ := Option.isSome_iff_exists.mp this
      exact mem_keys_of_lookup Y k w hw
    · intro hk
      have := lookup_isSome_of_mem Y k hk
      rw [← hl k] at this
      obtain ⟨w, hw⟩ := Option.isSome_iff_exists.mp this
      exact mem_keys_of_lookup X k w hw
  unfold alphabetizeObject
  rw [sortStrings_congr_perm _ _ hperm]
  apply jsPick_congr
  intro k _
  exact hl k

theorem nodup_ite_delete (b : Bool) (X : JSObj) (k : String)
    (hX : (keysOf X).Nodup) : (keysOf (if b then X else jsDelete X k)).Nodup := by
  cases b
  · exact nodup_keys_jsDelete X k hX
  · exact hX

theorem nodup_ite_delete2 (b : Bool) (X : JSObj) (k1 k2 : String)
    (hX : (keysOf X).Nodup) :
    (keysOf (if b then jsDelete (jsDelete X k1) k2 else X)).Nodup := by
  cases b
  · exact hX
  · exact nodup_keys_jsDelete _ _ (nodup_keys_jsDelete _ _ hX)

theorem nodup_ite_assign (b : Bool) (X o : JSObj)
    (hX : (keysOf X).Nodup) (ho : (keysOf o).Nodup) :
    (keysOf (if b then jsAssign X o else X)).Nodup := by
  cases b
  · exact hX
  · exact nodup_keys_jsAssign X o hX ho

theorem nodup_ite_set (b : Bool) (X : JSObj) (k : String) (v : JSVal)
    (hX : (keysOf X).Nodup) : (keysOf (if b then jsSet X k v else X)).Nodup := by
  cases b
  · exact hX
  · exact nodup_keys_jsSet X k v hX

theorem nodup_keys_mergedScripts (cur : JSObj) (ctx : Context)
    (h : (keysOf (objGetObj cur "scripts")).Nodup) :
    (keysOf (mergedScripts cur ctx)).Nodup := by
  have hcss : (keysOf (cssScripts ctx)).Nodup := by
    have hkeys : keysOf (cssScripts ctx) = ["build:css", "watch:css"] := rfl
    rw [hkeys]
    decide
  have hdocs : (keysOf docsScripts).Nodup := by decide
  have h0 : (keysOf (jsAssign (objGetObj cur "scripts") defaultScripts)).Nodup :=
    nodup_keys_jsAssign _ _ h (by decide)
  unfold mergedScripts
  exact nodup_ite_set _ _ _ _
    (nodup_ite_assign _ _ _
      (nodup_ite_assign _ _ _
        (nodup_ite_delete _ _ _
          (nodup_ite_delete _ _ _ h0)) hdocs) hcss)

theorem nodup_keys_mergedDevDeps (cur : JSObj) (ctx : Context)
    (devD docsD cssD langD : List (String × String))
    (h : (keysOf (objGetObj cur "devDependencies")).Nodup)
    (hdev : (keysOf devD).Nodup) (hdocs : (keysOf docsD).Nodup)
    (hcss : (keysOf cssD).Nodup) (hlang : (keysOf langD).Nodup) :
    (keysOf (mergedDevDependencies cur ctx devD docsD cssD langD)).Nodup := by
  have h0 : (keysOf (jsAssign (objGetObj cur "devDependencies")
      (strPairs devD))).Nodup :=
    nodup_keys_jsAssign _ _ h (nodup_keys_strPairs _ hdev)
  unfold mergedDevDependencies
  exact nodup_ite_assign _ _ _
    (nodup_ite_assign _ _ _
      (nodup_ite_assign _ _ _
        (nodup_ite_delete2 _ _ _ _ h0)
        (nodup_keys_strPairs _ hdocs))
      (nodup_keys_strPairs _ hcss))
    (nodup_keys_strPairs _ hlang)

theorem lookup_keywords_purePipeline (depD devD docsD cssD langD : List (String × String))
    (gv : String) (cur : JSObj) (ctx : Context) :
    List.lookup "keywords" (purePipeline depD devD docsD cssD langD gv cur ctx) =
      some (.arr (jsSortVals (jsUnion [.str "videojs", .str "videojs-plugin"]
        (objGetArr cur "keywords")))) := by
  have h := lookup_untouched_purePipeline depD devD docsD cssD langD gv cur ctx
    "keywords" (by decide) (by decide) (by decide) (by decide) (by decide) (by decide)
  rw [h, lookup_jsAssign _ _ (by rw [keysOf_baselineOverlay]; exact overlayKeys_nodup)]
  rfl


/-! ## Full idempotence of the pipeline -/

theorem orElse_absorb (a : Option α) (f : Unit → Option α) :
    a.orElse (fun _ => a.orElse f) = a.orElse f := by
  cases a <;> rfl

theorem jsDelete_id (o : List (String × β)) (k : String)
    (h : List.lookup k o = none) : jsDelete o k = o := by
  induction o with
  | nil => rfl
  | cons p rest ih =>
    obtain ⟨a, b⟩ := p
    have ha : ¬(k = a) := by
      intro hh
      subst hh
      rw [lookup_cons_self] at h
      cases h
    have hb : (a != k) = true := by
      simp
      exact fun hh => ha hh.symm
    rw [lookup_cons_ne k a ha] at h
    show List.filter _ ((a, b) :: rest) = (a, b) :: rest
    rw [List.filter_cons, if_pos hb]
    have := ih h
    unfold jsDelete at this
    rw [this]

theorem lookup_self_of_nodup (o : List (String × β)) (hnd : (keysOf o).Nodup)
    (p : String × β) (hp : p ∈ o) : List.lookup p.1 o = some p.2 := by
  induction o with
  | nil => cases hp
  | cons q rest ih =>
    obtain ⟨a, b⟩ := q
    have h2 := List.nodup_cons.mp (show (a :: keysOf rest).Nodup from hnd)
    rcases List.mem_cons.mp hp with rfl | hp2
    · exact lookup_cons_self a b rest
    · have hne : ¬(p.1 = a) := by
        intro hh
        exact h2.1 (hh ▸ List.mem_map_of_mem Prod.fst hp2)
      rw [lookup_cons_ne p.1 a hne]
      exact ih h2.2 hp2

theorem objGetArr_eq_of_lookup (o : JSObj) (k : String) (x : List JSVal)
    (h : List.lookup k o = some (.arr x)) : objGetArr o k = x := by
  unfold objGetArr
  rw [h]
  rfl

theorem lookup_generatedScripts_default (ctx : Context) (k : String) (v : JSVal)
    (hv : List.lookup k defaultScripts = some v)
    (hd : List.lookup k docsScripts = none)
    (hc1 : ¬(k = "build:css")) (hc2 : ¬(k = "watch:css"))
    (hbl : ¬(k = "build:lang")) :
    List.lookup k (generatedScripts ctx) = some v := by
  have lAd : ∀ o : JSObj, List.lookup k (jsAssign o docsScripts) = List.lookup k o :=
    fun o => lookup_jsAssign_none_upd o _ k hd
  have lAc : ∀ o : JSObj, List.lookup k (jsAssign o (cssScripts ctx)) = List.lookup k o :=
    fun o => lookup_jsAssign_none_upd o _ k (lookup_cssScripts_none ctx k hc1 hc2)
  unfold generatedScripts
  cases hdo : ctx.docs <;> cases hcs : ctx.css <;> cases hl : ctx.lang <;>
    simp [hdo, hcs, hl, lAd, lAc, lookup_jsSet, hbl, hv]

theorem lookup_generatedScripts_css (ctx : Context) (hc : ctx.css = true)
    (k : String) (v : JSVal) (hv : List.lookup k (cssScripts ctx) = some v)
    (hbl : ¬(k = "build:lang")) :
    List.lookup k (generatedScripts ctx) = some v := by
  have hnc : (keysOf (cssScripts ctx)).Nodup := by
    have hkeys : keysOf (cssScripts ctx) = ["build:css", "watch:css"] := rfl
    rw [hkeys]
    decide
  have lAc : ∀ o : JSObj, List.lookup k (jsAssign o (cssScripts ctx)) =
      (List.lookup k (cssScripts ctx)).orElse (fun _ => List.lookup k o) :=
    fun o => lookup_jsAssign o _ hnc k
  unfold generatedScripts
  cases hdo : ctx.docs <;> cases hl : ctx.lang <;>
    simp [hdo, hc, hl, lAc, lookup_jsSet, hbl, hv, Option.orElse]

theorem lookup_generatedScripts_lang (ctx : Context) (hl : ctx.lang = true) :
    List.lookup "build:lang" (generatedScripts ctx) =
      some (.str "vjslang --dir dist/lang") := by
  unfold generatedScripts
  rw [hl]
  simp [lookup_jsSet]

theorem lookup_mergedScripts_default (cur : JSObj) (ctx : Context)
    (p : String × JSVal) (hp : p ∈ defaultScripts) :
    List.lookup p.1 (mergedScripts cur ctx) = some p.2 := by
  have h1 : ¬(p.1 = "precommit") :=
    (by decide : ∀ q ∈ defaultScripts, ¬(q.1 = "precommit")) p hp
  have h2 : ¬(p.1 = "prepush") :=
    (by decide : ∀ q ∈ defaultScripts, ¬(q.1 = "prepush")) p hp
  have h3 : List.lookup p.1 docsScripts = none :=
    (by decide : ∀ q ∈ defaultScripts, List.lookup q.1 docsScripts = none) p hp
  have h4 : ¬(p.1 = "build:css") :=
    (by decide : ∀ q ∈ defaultScripts, ¬(q.1 = "build:css")) p hp
  have h5 : ¬(p.1 = "watch:css") :=
    (by decide : ∀ q ∈ defaultScripts, ¬(q.1 = "watch:css")) p hp
  have h6 : ¬(p.1 = "build:lang") :=
    (by decide : ∀ q ∈ defaultScripts, ¬(q.1 = "build:lang")) p hp
  have hv : List.lookup p.1 defaultScripts = some p.2 :=
    (by decide : ∀ q ∈ defaultScripts, List.lookup q.1 defaultScripts = some q.2) p hp
  rw [lookup_mergedScripts_orElse cur ctx _ (fun hh => h1 hh.1) (fun hh => h2 hh.1),
      lookup_generatedScripts_default ctx _ _ hv h3 h4 h5 h6]
  rfl

theorem lookup_mergedScripts_docs_pair (cur : JSObj) (ctx : Context)
    (hd : ctx.docs = true) (p : String × JSVal) (hp : p ∈ docsScripts) :
    List.lookup p.1 (mergedScripts cur ctx) = some p.2 := by
  have h1 : ¬(p.1 = "precommit") :=
    (by decide : ∀ q ∈ docsScripts, ¬(q.1 = "precommit")) p hp
  have h2 : ¬(p.1 = "prepush") :=
    (by decide : ∀ q ∈ docsScripts, ¬(q.1 = "prepush")) p hp
  have h4 : ¬(p.1 = "build:css") :=
    (by decide : ∀ q ∈ docsScripts, ¬(q.1 = "build:css")) p hp
  have h5 : ¬(p.1 = "watch:css") :=
    (by decide : ∀ q ∈ docsScripts, ¬(q.1 = "watch:css")) p hp
  have h6 : ¬(p.1 = "build:lang") :=
    (by decide : ∀ q ∈ docsScripts, ¬(q.1 = "build:lang")) p hp
  have hv : List.lookup p.1 docsScripts = some p.2 :=
    (by decide : ∀ q ∈ docsScripts, List.lookup q.1 docsScripts = some q.2) p hp
  rw [lookup_mergedScripts_orElse cur ctx _ (fun hh => h1 hh.1) (fun hh => h2 hh.1),
      lookup_generatedScripts_docs ctx hd _ _ hv h4 h5 h6]
  rfl

theorem lookup_mergedScripts_css_pair (cur : JSObj) (ctx : Context)
    (hc : ctx.css = true) (p : String × JSVal) (hp : p ∈ cssScripts ctx) :
    List.lookup p.1 (mergedScripts cur ctx) = some p.2 := by
  have hnc : (keysOf (cssScripts ctx)).Nodup := by
    have hkeys : keysOf (cssScripts ctx) = ["build:css", "watch:css"] := rfl
    rw [hkeys]
    decide
  have hv : List.lookup p.1 (cssScripts ctx) = some p.2 :=
    lookup_self_of_nodup _ hnc p hp
  have hkmem : p.1 ∈ keysOf (cssScripts ctx) := List.mem_map_of_mem Prod.fst hp
  have hkeys : keysOf (cssScripts ctx) = ["build:css", "watch:css"] := rfl
  rw [hkeys] at hkmem
  have hcases : p.1 = "build:css" ∨ p.1 = "watch:css" := by
    rcases List.mem_cons.mp hkmem with h | h
    · exact Or.inl h
    · exact Or.inr (List.mem_singleton.mp h)
  have h1 : ¬(p.1 = "precommit") := by
    rcases hcases with h | h <;> rw [h] <;> decide
  have h2 : ¬(p.1 = "prepush") := by
    rcases hcases with h | h <;> rw [h] <;> decide
  have h6 : ¬(p.1 = "build:lang") := by
    rcases hcases with h | h <;> rw [h] <;> decide
  rw [lookup_mergedScripts_orElse cur ctx _ (fun hh => h1 hh.1) (fun hh => h2 hh.1),
      lookup_generatedScripts_css ctx hc _ _ hv h6]
  rfl

theorem lookup_mergedScripts_lang_key (cur : JSObj) (ctx : Context)
    (hl : ctx.lang = true) :
    List.lookup "build:lang" (mergedScripts cur ctx) =
      some (.str "vjslang --dir dist/lang") := by
  rw [lookup_mergedScripts_orElse cur ctx _ (fun hh => absurd hh.1 (by decide))
        (fun hh => absurd hh.1 (by decide)),
      lookup_generatedScripts_lang ctx hl]
  rfl

theorem lookup_mergedScripts_precommit_none (cur : JSObj) (ctx : Context)
    (hpc : ctx.precommit = false) :
    List.lookup "precommit" (mergedScripts cur ctx) = none := by
  rw [lookup_mergedScripts_cases cur ctx "precommit" (by decide) (by decide)
      (by decide) (by decide) (by decide)]
  rw [if_pos (Or.inl ⟨rfl, hpc⟩)]

theorem lookup_mergedScripts_prepush_none (cur : JSObj) (ctx : Context)
    (hpp : ctx.prepush = false) :
    List.lookup "prepush" (mergedScripts cur ctx) = none := by
  rw [lookup_mergedScripts_cases cur ctx "prepush" (by decide) (by decide)
      (by decide) (by decide) (by decide)]
  rw [if_pos (Or.inr ⟨rfl, hpp⟩)]

theorem mergedScripts_eq_self (doc : JSObj) (ctx : Context)
    (hnd : (keysOf (objGetObj doc "scripts")).Nodup)
    (hdef : ∀ p ∈ defaultScripts,
      List.lookup p.1 (objGetObj doc "scripts") = some p.2)
    (hdocs : ctx.docs = true → ∀ p ∈ docsScripts,
      List.lookup p.1 (objGetObj doc "scripts") = some p.2)
    (hcss : ctx.css = true → ∀ p ∈ cssScripts ctx,
      List.lookup p.1 (objGetObj doc "scripts") = some p.2)
    (hlang : ctx.lang = true → List.lookup "build:lang" (objGetObj doc "scripts") =
      some (.str "vjslang --dir dist/lang"))
    (hpc : ctx.precommit = false →
      List.lookup "precommit" (objGetObj doc "scripts") = none)
    (hpp : ctx.prepush = false →
      List.lookup "prepush" (objGetObj doc "scripts") = none) :
    mergedScripts doc ctx = objGetObj doc "scripts" := by
  have h0 : jsAssign (objGetObj doc "scripts") defaultScripts =
      objGetObj doc "scripts" := jsAssign_id _ _ hnd hdef
  have h1 : (if ctx.precommit then objGetObj doc "scripts"
      else jsDelete (objGetObj doc "scripts") "precommit") =
      objGetObj doc "scripts" := by
    cases hb : ctx.precommit
    · rw [if_neg Bool.false_ne_true]
      exact jsDelete_id _ _ (hpc hb)
    · rw [if_pos rfl]
  have h2 : (if ctx.prepush then objGetObj doc "scripts"
      else jsDelete (objGetObj doc "scripts") "prepush") =
      objGetObj doc "scripts" := by
    cases hb : ctx.prepush
    · rw [if_neg Bool.false_ne_true]
      exact jsDelete_id _ _ (hpp hb)
    · rw [if_pos rfl]
  have h3 : (if ctx.docs then jsAssign (objGetObj doc "scripts") docsScripts
      else objGetObj doc "scripts") = objGetObj doc "scripts" := by
    cases hb : ctx.docs
    · rw [if_neg Bool.false_ne_true]
    · rw [if_pos rfl]
      exact jsAssign_id _ _ hnd (hdocs hb)
  have h4 : (if ctx.css then jsAssign (objGetObj doc "scripts") (cssScripts ctx)
      else objGetObj doc "scripts") = objGetObj doc "scripts" := by
    cases hb : ctx.css
    · rw [if_neg Bool.false_ne_true]
    · rw [if_pos rfl]
      exact jsAssign_id _ _ hnd (hcss hb)
  have h5 : (if ctx.lang then jsSet (objGetObj doc "scripts") "build:lang"
      (.str "vjslang --dir dist/lang") else objGetObj doc "scripts") =
      objGetObj doc "scripts" := by
    cases hb : ctx.lang
    · rw [if_neg Bool.false_ne_true]
    · rw [if_pos rfl]
      exact jsSet_id _ _ _ hnd (hlang hb)
  show (let s0 := jsAssign (objGetObj doc "scripts") defaultScripts
        let s1 := if ctx.precommit then s0 else jsDelete s0 "precommit"
        let s2 := if ctx.prepush then s1 else jsDelete s1 "prepush"
        let s3 := if ctx.docs then jsAssign s2 docsScripts else s2
        let s4 := if ctx.css then jsAssign s3 (cssScripts ctx) else s3
        if ctx.lang then jsSet s4 "build:lang" (.str "vjslang --dir dist/lang")
        else s4) = objGetObj doc "scripts"
  simp only [h0, h1, h2, h3, h4, h5]

theorem keysOf_purePipeline (depD devD docsD cssD langD : List (String × String))
    (gv : String) (cur : JSObj) (ctx : Context) :
    keysOf (purePipeline depD devD docsD cssD langD gv cur ctx) =
      if ctx.precommit then
        keysOf (jsAssign cur (baselineOverlay ctx gv cur depD devD))
      else (keysOf (jsAssign cur (baselineOverlay ctx gv cur depD devD))).filter
        (fun k => k != "lint-staged") := by
  unfold purePipeline
  by_cases hpc : ctx.precommit <;> by_cases hpp : ctx.prepush <;>
  by_cases hd : ctx.docs <;> by_cases hc : ctx.css <;> by_cases hl : ctx.lang <;>
    simp [hpc, hpp, hd, hc, hl, keysOf_modifyField, keysOf_jsDelete]

theorem nodup_keys_purePipeline (depD devD docsD cssD langD : List (String × String))
    (gv : String) (cur : JSObj) (ctx : Context) (h : (keysOf cur).Nodup) :
    (keysOf (purePipeline depD devD docsD cssD langD gv cur ctx)).Nodup := by
  have hov : (keysOf (baselineOverlay ctx gv cur depD devD)).Nodup := by
    rw [keysOf_baselineOverlay]
    exact overlayKeys_nodup
  have hbase : (keysOf (jsAssign cur (baselineOverlay ctx gv cur depD devD))).Nodup := by
    rw [keysOf_jsAssign _ _ hov]
    apply List.Nodup.append h (hov.filter _)
    intro a ha hfa
    have h2 := (List.mem_filter.mp hfa).2
    have hs := lookup_isSome_of_mem cur a ha
    simp [hs] at h2
  rw [keysOf_purePipeline]
  by_cases hpc : ctx.precommit
  · rw [if_pos hpc]
    exact hbase
  · rw [if_neg hpc]
    exact hbase.filter _

theorem overlay_filter_purePipeline (depD devD docsD cssD langD : List (String × String))
    (gv : String) (cur : JSObj) (ctx : Context) :
    overlayKeys.filter (fun k =>
      !(List.lookup k (purePipeline depD devD docsD cssD langD gv cur ctx)).isSome) =
      if ctx.precommit then [] else ["lint-staged"] := by
  have hov : (keysOf (baselineOverlay ctx gv cur depD devD)).Nodup := by
    rw [keysOf_baselineOverlay]
    exact overlayKeys_nodup
  have h_name : (List.lookup "name"
      (purePipeline depD devD docsD cssD langD gv cur ctx)).isNone = false := by
    rw [lookup_untouched_purePipeline depD devD docsD cssD langD gv cur ctx "name"
        (by decide) (by decide) (by decide) (by decide) (by decide) (by decide),
      lookup_jsAssign _ _ hov]
    rfl
  have h_version : (List.lookup "version"
      (purePipeline depD devD docsD cssD langD gv cur ctx)).isNone = false := by
    rw [lookup_untouched_purePipeline depD devD docsD cssD langD gv cur ctx "version"
        (by decide) (by decide) (by decide) (by decide) (by decide) (by decide),
      lookup_jsAssign _ _ hov]
    rfl
  have h_description : (List.lookup "description"
      (purePipeline depD devD docsD cssD langD gv cur ctx)).isNone = false := by
    rw [lookup_untouched_purePipeline depD devD docsD cssD langD gv cur ctx "description"
        (by decide) (by decide) (by decide) (by decide) (by decide) (by decide),
      lookup_jsAssign _ _ hov]
    rfl
  have h_main : (List.lookup "main"
      (purePipeline depD devD docsD cssD langD gv cur ctx)).isNone = false := by
    rw [lookup_untouched_purePipeline depD devD docsD cssD langD gv cur ctx "main"
        (by decide) (by decide) (by decide) (by decide) (by decide) (by decide),
      lookup_jsAssign _ _ hov]
    rfl
  have h_module : (List.lookup "module"
      (purePipeline depD devD docsD cssD langD gv cur ctx)).isNone = false := by
    rw [lookup_untouched_purePipeline depD devD docsD cssD langD gv cur ctx "module"
        (by decide) (by decide) (by decide) (by decide) (by decide) (by decide),
      lookup_jsAssign _ _ hov]
    rfl
  have h_generator_videojs_plugin : (List.lookup "generator-videojs-plugin"
      (purePipeline depD devD docsD cssD langD gv cur ctx)).isNone = false := by
    rw [lookup_untouched_purePipeline depD devD docsD cssD langD gv cur ctx "generator-videojs-plugin"
        (by decide) (by decide) (by decide) (by decide) (by decide) (by decide),
      lookup_jsAssign _ _ hov]
    rfl
  have h_browserslist : (List.lookup "browserslist"
      (purePipeline depD devD docsD cssD langD gv cur ctx)).isNone = false := by
    rw [lookup_untouched_purePipeline depD devD docsD cssD langD gv cur ctx "browserslist"
        (by decide) (by decide) (by decide) (by decide) (by decide) (by decide),
      lookup_jsAssign _ _ hov]
    rfl
  have h_engines : (List.lookup "engines"
      (purePipeline depD devD docsD cssD langD gv cur ctx)).isNone = false := by
    rw [lookup_untouched_purePipeline depD devD docsD cssD langD gv cur ctx "engines"
        (by decide) (by decide) (by decide) (by decide) (by decide) (by decide),
      lookup_jsAssign _ _ hov]
    rfl
  have h_keywords : (List.lookup "keywords"
      (purePipeline depD devD docsD cssD langD gv cur ctx)).isNone = false := by
    rw [lookup_untouched_purePipeline depD devD docsD cssD langD gv cur ctx "keywords"
        (by decide) (by decide) (by decide) (by decide) (by decide) (by decide),
      lookup_jsAssign _ _ hov]
    rfl
  have h_author : (List.lookup "author"
      (purePipeline depD devD docsD cssD langD gv cur ctx)).isNone = false := by
    rw [lookup_untouched_purePipeline depD devD docsD cssD langD gv cur ctx "author"
        (by decide) (by decide) (by decide) (by decide) (by decide) (by decide),
      lookup_jsAssign _ _ hov]
    rfl
  have h_license : (List.lookup "license"
      (purePipeline depD devD docsD cssD langD gv cur ctx)).isNone = false := by
    rw [lookup_untouched_purePipeline depD devD docsD cssD langD gv cur ctx "license"
        (by decide) (by decide) (by decide) (by decide) (by decide) (by decide),
      lookup_jsAssign _ _ hov]
    rfl
  have h_vjsstandard : (List.lookup "vjsstandard"
      (purePipeline depD devD docsD cssD langD gv cur ctx)).isNone = false := by
    rw [lookup_untouched_purePipeline depD devD docsD cssD langD gv cur ctx "vjsstandard"
        (by decide) (by decide) (by decide) (by decide) (by decide) (by decide),
      lookup_jsAssign _ _ hov]
    rfl
  have h_scripts : (List.lookup "scripts"
      (purePipeline depD devD docsD cssD langD gv cur ctx)).isNone = false := by
    rw [lookup_scripts_purePipeline]
    rfl
  have h_dependencies : (List.lookup "dependencies"
      (purePipeline depD devD docsD cssD langD gv cur ctx)).isNone = false := by
    rw [lookup_dependencies_purePipeline]
    rfl
  have h_devDependencies : (List.lookup "devDependencies"
      (purePipeline depD devD docsD cssD langD gv cur ctx)).isNone = false := by
    rw [lookup_devDependencies_purePipeline]
    rfl
  have h_husky : (List.lookup "husky"
      (purePipeline depD devD docsD cssD langD gv cur ctx)).isNone = false := by
    rw [lookup_husky_purePipeline]
    rfl
  have h_files : (List.lookup "files"
      (purePipeline depD devD docsD cssD langD gv cur ctx)).isNone = false := by
    rw [lookup_files_purePipeline]
    rfl
  have hls := lookup_lintstaged_purePipeline depD devD docsD cssD langD gv cur ctx
  cases hpc : ctx.precommit
  · rw [hpc, if_neg Bool.false_ne_true] at hls
    rw [if_neg Bool.false_ne_true]
    simp [overlayKeys, List.filter_cons, List.filter_nil,
      h_name, h_version, h_description, h_main, h_module, h_generator_videojs_plugin, h_browserslist, h_engines, h_keywords, h_author, h_license, h_vjsstandard, h_scripts, h_dependencies, h_devDependencies, h_husky,
      h_files, hls]
  · rw [hpc, if_pos rfl] at hls
    rw [if_pos rfl]
    simp [overlayKeys, List.filter_cons, List.filter_nil,
      h_name, h_version, h_description, h_main, h_module, h_generator_videojs_plugin, h_browserslist, h_engines, h_keywords, h_author, h_license, h_vjsstandard, h_scripts, h_dependencies, h_devDependencies, h_husky,
      h_files, hls]

theorem keysOf_purePipeline_self (depD devD docsD cssD langD : List (String × String))
    (gv : String) (cur : JSObj) (ctx : Context) :
    keysOf (purePipeline depD devD docsD cssD langD gv
      (purePipeline depD devD docsD cssD langD gv cur ctx) ctx) =
    keysOf (purePipeline depD devD docsD cssD langD gv cur ctx) := by
  have hov2 : (keysOf (baselineOverlay ctx gv
      (purePipeline depD devD docsD cssD langD gv cur ctx) depD devD)).Nodup := by
    rw [keysOf_baselineOverlay]
    exact overlayKeys_nodup
  have hfilt := overlay_filter_purePipeline depD devD docsD cssD langD gv cur ctx
  rw [keysOf_purePipeline, keysOf_jsAssign _ _ hov2, keysOf_baselineOverlay, hfilt]
  by_cases hpc : ctx.precommit
  · rw [if_pos hpc, if_pos hpc, List.append_nil]
  · rw [if_neg hpc, if_neg hpc, List.filter_append]
    have hlsnone : List.lookup "lint-staged"
        (purePipeline depD devD docsD cssD langD gv cur ctx) = none := by
      rw [lookup_lintstaged_purePipeline, if_neg hpc]
    have h1 : (keysOf (purePipeline depD devD docsD cssD langD gv cur ctx)).filter
        (fun k => k != "lint-staged") =
        keysOf (purePipeline depD devD docsD cssD langD gv cur ctx) := by
      apply List.filter_eq_self.mpr
      intro k hk
      have hne : ¬(k = "lint-staged") := by
        intro hh
        subst hh
        have hs := lookup_isSome_of_mem _ _ hk
        rw [hlsnone] at hs
        cases hs
      exact bne_iff_ne.mpr hne
    have h2 : (["lint-staged"] : List String).filter
        (fun k => k != "lint-staged") = [] := rfl
    rw [h1, h2, List.append_nil]

/-- C1 (amended theorem): the pipeline is not idempotent for every current
document (see the counterexample), but it is idempotent on every run whose
inputs satisfy the manifest's key-uniqueness invariant together with the
splice side condition and string keywords: if the merge succeeds, feeding
the output back through the pipeline succeeds and returns the byte-identical
document — same fields, same values, same key order. -/
theorem C1_amended_packageJSON_idempotent (pkg : GeneratorPkg) (gv : String)
    (cur : JSObj) (ctx : Context) (out : JSObj)
    (hok : packageJSON pkg gv cur ctx = .ok out)
    (hndTop : (keysOf cur).Nodup)
    (hndS : (keysOf (objGetObj cur "scripts")).Nodup)
    (hndD : (keysOf (objGetObj cur "dependencies")).Nodup)
    (hndDD : (keysOf (objGetObj cur "devDependencies")).Nodup)
    (hgood : goodScriptKeys (keysOf (mergedScripts cur ctx)) = true)
    (hkw : ∀ v ∈ objGetArr cur "keywords", ∃ s, v = .str s) :
    packageJSON pkg gv out ctx = .ok out := by
  obtain ⟨depD, devD, docsD, cssD, langD, e1, e2, e3, e4, e5, rfl⟩ :=
    packageJSON_ok_shape pkg gv cur ctx out hok
  set P := purePipeline depD devD docsD cssD langD gv cur ctx with hPdef
  have hov1 : (keysOf (baselineOverlay ctx gv cur depD devD)).Nodup := by
    rw [keysOf_baselineOverlay]
    exact overlayKeys_nodup
  have hov2 : (keysOf (baselineOverlay ctx gv P depD devD)).Nodup := by
    rw [keysOf_baselineOverlay]
    exact overlayKeys_nodup
  have hndDev : (keysOf (strPairs devD)).Nodup :=
    nodup_keys_strPairs _ (gGV_keys_nodup pkg _ _ e2)
  have hndDoc : (keysOf (strPairs docsD)).Nodup :=
    nodup_keys_strPairs _ (featureVersions_keys_nodup pkg _ _ _ e3)
  have hndCss : (keysOf (strPairs cssD)).Nodup :=
    nodup_keys_strPairs _ (featureVersions_keys_nodup pkg _ _ _ e4)
  have hndLang : (keysOf (strPairs langD)).Nodup :=
    nodup_keys_strPairs _ (featureVersions_keys_nodup pkg _ _ _ e5)
  have hndP : (keysOf (strPairs depD)).Nodup :=
    nodup_keys_strPairs _ (gGV_keys_nodup pkg _ _ e1)
  have hM : (keysOf (mergedScripts cur ctx)).Nodup :=
    nodup_keys_mergedScripts cur ctx hndS
  have hSc : objGetObj P "scripts" = alphabetizeScripts (mergedScripts cur ctx) :=
    objGetObj_eq_of_lookup _ _ _
      (lookup_scripts_purePipeline depD devD docsD cssD langD gv cur ctx)
  have hndS1 : (keysOf (alphabetizeScripts (mergedScripts cur ctx))).Nodup := by
    rw [keysOf_alphabetizeScripts_splice]
    exact (spliceOrder_perm _).nodup_iff.mpr hM
  have hmergeSelf : mergedScripts P ctx = objGetObj P "scripts" := by
    apply mergedScripts_eq_self
    · rw [hSc]
      exact hndS1
    · intro p hp
      rw [hSc, lookup_alphabetizeScripts]
      exact lookup_mergedScripts_default cur ctx p hp
    · intro hb p hp
      rw [hSc, lookup_alphabetizeScripts]
      exact lookup_mergedScripts_docs_pair cur ctx hb p hp
    · intro hb p hp
      rw [hSc, lookup_alphabetizeScripts]
      exact lookup_mergedScripts_css_pair cur ctx hb p hp
    · intro hb
      rw [hSc, lookup_alphabetizeScripts]
      exact lookup_mergedScripts_lang_key cur ctx hb
    · intro hb
      rw [hSc, lookup_alphabetizeScripts]
      exact lookup_mergedScripts_precommit_none cur ctx hb
    · intro hb
      rw [hSc, lookup_alphabetizeScripts]
      exact lookup_mergedScripts_prepush_none cur ctx hb
  have hscrEq : List.lookup "scripts"
      (purePipeline depD devD docsD cssD langD gv P ctx) =
      List.lookup "scripts" P := by
    rw [lookup_scripts_purePipeline depD devD docsD cssD langD gv P ctx,
        hmergeSelf, hSc, alphabetizeScripts_idem _ hM hgood]
    exact (lookup_scripts_purePipeline depD devD docsD cssD langD gv cur ctx).symm
  have hD1 : objGetObj P "dependencies" =
      alphabetizeObject (jsAssign (objGetObj cur "dependencies") (strPairs depD)) :=
    objGetObj_eq_of_lookup _ _ _
      (lookup_dependencies_purePipeline depD devD docsD cssD langD gv cur ctx)
  have hndX : (keysOf (jsAssign (objGetObj cur "dependencies")
      (strPairs depD))).Nodup := nodup_keys_jsAssign _ _ hndD hndP
  have hndA : (keysOf (alphabetizeObject (jsAssign (objGetObj cur "dependencies")
      (strPairs depD)))).Nodup := by
    rw [keysOf_alphabetizeObject_sorted]
    exact (sortStrings_perm _).nodup_iff.mpr hndX
  have hdepCongr : alphabetizeObject (jsAssign (objGetObj P "dependencies")
      (strPairs depD)) = alphabetizeObject (jsAssign (objGetObj cur "dependencies")
      (strPairs depD)) := by
    rw [hD1]
    exact alphabetizeObject_congr _ _ (nodup_keys_jsAssign _ _ hndA hndP) hndX
      (fun k => by
        rw [lookup_jsAssign _ _ hndP, lookup_alphabetizeObject,
            lookup_jsAssign _ _ hndP]
        exact orElse_absorb _ _)
  have hdepEq : List.lookup "dependencies"
      (purePipeline depD devD docsD cssD langD gv P ctx) =
      List.lookup "dependencies" P := by
    rw [lookup_dependencies_purePipeline depD devD docsD cssD langD gv P ctx,
        hdepCongr]
    exact (lookup_dependencies_purePipeline depD devD docsD cssD langD gv cur ctx).symm
  have hDD1 : objGetObj P "devDependencies" =
      alphabetizeObject (mergedDevDependencies cur ctx devD docsD cssD langD) :=
    objGetObj_eq_of_lookup _ _ _
      (lookup_devDependencies_purePipeline depD devD docsD cssD langD gv cur ctx)
  have hndM1 : (keysOf (mergedDevDependencies cur ctx devD docsD cssD langD)).Nodup :=
    nodup_keys_mergedDevDeps cur ctx devD docsD cssD langD hndDD
      (gGV_keys_nodup pkg _ _ e2) (featureVersions_keys_nodup pkg _ _ _ e3)
      (featureVersions_keys_nodup pkg _ _ _ e4)
      (featureVersions_keys_nodup pkg _ _ _ e5)
  have hndPdd : (keysOf (objGetObj P "devDependencies")).Nodup := by
    rw [hDD1, keysOf_alphabetizeObject_sorted]
    exact (sortStrings_perm _).nodup_iff.mpr hndM1
  have hlookdd : ∀ k, List.lookup k
      (mergedDevDependencies P ctx devD docsD cssD langD) =
      List.lookup k (mergedDevDependencies cur ctx devD docsD cssD langD) := by
    intro k
    by_cases hex : ((!ctx.prepush && !ctx.precommit) = true) ∧
        (k = "husky" ∨ k = "lint-staged")
    · obtain ⟨hcond, hk2⟩ := hex
      have hdocsN : List.lookup k (strPairs docsD) = none := by
        apply lookup_strPairs_none
        apply featureVersions_lookup_none pkg _ _ _ _ e3
        rcases hk2 with rfl | rfl <;> decide
      have hcssN : List.lookup k (strPairs cssD) = none := by
        apply lookup_strPairs_none
        apply featureVersions_lookup_none pkg _ _ _ _ e4
        rcases hk2 with rfl | rfl <;> decide
      have hlangN : List.lookup k (strPairs langD) = none := by
        apply lookup_strPairs_none
        apply featureVersions_lookup_none pkg _ _ _ _ e5
        rcases hk2 with rfl | rfl <;> decide
      rw [lookup_mergedDevDeps_removed P ctx devD docsD cssD langD k hcond
            hdocsN hcssN hlangN hk2,
          lookup_mergedDevDeps_removed cur ctx devD docsD cssD langD k hcond
            hdocsN hcssN hlangN hk2]
    · have hnh : ¬(k = "husky" ∧ (!ctx.prepush && !ctx.precommit) = true) :=
        fun hh => hex ⟨hh.2, Or.inl hh.1⟩
      have hnl : ¬(k = "lint-staged" ∧ (!ctx.prepush && !ctx.precommit) = true) :=
        fun hh => hex ⟨hh.2, Or.inr hh.1⟩
      rw [lookup_mergedDevDeps_orElse P ctx devD docsD cssD langD k
            hndDev hndDoc hndCss hndLang hnh hnl,
          lookup_mergedDevDeps_orElse cur ctx devD docsD cssD langD k
            hndDev hndDoc hndCss hndLang hnh hnl,
          hDD1, lookup_alphabetizeObject,
          lookup_mergedDevDeps_orElse cur ctx devD docsD cssD langD k
            hndDev hndDoc hndCss hndLang hnh hnl]
      exact orElse_absorb _ _
  have hddCongr : alphabetizeObject
      (mergedDevDependencies P ctx devD docsD cssD langD) =
      alphabetizeObject (mergedDevDependencies cur ctx devD docsD cssD langD) :=
    alphabetizeObject_congr _ _
      (nodup_keys_mergedDevDeps P ctx devD docsD cssD langD hndPdd
        (gGV_keys_nodup pkg _ _ e2) (featureVersions_keys_nodup pkg _ _ _ e3)
        (featureVersions_keys_nodup pkg _ _ _ e4)
        (featureVersions_keys_nodup pkg _ _ _ e5))
      hndM1 hlookdd
  have hddEq : List.lookup "devDependencies"
      (purePipeline depD devD docsD cssD langD gv P ctx) =
      List.lookup "devDependencies" P := by
    rw [lookup_devDependencies_purePipeline depD devD docsD cssD langD gv P ctx,
        hddCongr]
    exact (lookup_devDependencies_purePipeline depD devD docsD cssD langD
      gv cur ctx).symm
  have hkw1 : objGetArr P "keywords" = jsSortVals
      (jsUnion [.str "videojs", .str "videojs-plugin"] (objGetArr cur "keywords")) :=
    objGetArr_eq_of_lookup _ _ _
      (lookup_keywords_purePipeline depD devD docsD cssD langD gv cur ctx)
  have hkwEq : List.lookup "keywords"
      (purePipeline depD devD docsD cssD langD gv P ctx) =
      List.lookup "keywords" P := by
    rw [lookup_keywords_purePipeline depD devD docsD cssD langD gv P ctx,
        hkw1, keywords_idem _ hkw]
    exact (lookup_keywords_purePipeline depD devD docsD cssD langD gv cur ctx).symm
  have hlookAll : ∀ k, List.lookup k
      (purePipeline depD devD docsD cssD langD gv P ctx) = List.lookup k P := by
    intro k
    by_cases h1 : k = "scripts"
    · subst h1
      exact hscrEq
    by_cases h2 : k = "dependencies"
    · subst h2
      exact hdepEq
    by_cases h3 : k = "devDependencies"
    · subst h3
      exact hddEq
    by_cases h4 : k = "keywords"
    · subst h4
      exact hkwEq
    by_cases h5 : k = "husky"
    · subst h5
      rw [lookup_husky_purePipeline depD devD docsD cssD langD gv P ctx,
          lookup_husky_purePipeline depD devD docsD cssD langD gv cur ctx]
    by_cases h6 : k = "lint-staged"
    · subst h6
      rw [lookup_lintstaged_purePipeline depD devD docsD cssD langD gv P ctx,
          lookup_lintstaged_purePipeline depD devD docsD cssD langD gv cur ctx]
    by_cases h7 : k = "files"
    · subst h7
      rw [lookup_files_purePipeline depD devD docsD cssD langD gv P ctx,
          lookup_files_purePipeline depD devD docsD cssD langD gv cur ctx]
    by_cases h8 : k = "name"
    · subst h8
      rw [lookup_untouched_purePipeline depD devD docsD cssD langD gv P ctx _
            (by decide) (by decide) (by decide) (by decide) (by decide) (by decide),
          lookup_untouched_purePipeline depD devD docsD cssD langD gv cur ctx _
            (by decide) (by decide) (by decide) (by decide) (by decide) (by decide),
          lookup_jsAssign _ _ hov2, lookup_jsAssign _ _ hov1,
          show List.lookup "name" (baselineOverlay ctx gv P depD devD) =
            some (.str ctx.packageName) from rfl,
          show List.lookup "name" (baselineOverlay ctx gv cur depD devD) =
            some (.str ctx.packageName) from rfl]
      rfl
    by_cases h9 : k = "version"
    · subst h9
      rw [lookup_untouched_purePipeline depD devD docsD cssD langD gv P ctx _
            (by decide) (by decide) (by decide) (by decide) (by decide) (by decide),
          lookup_untouched_purePipeline depD devD docsD cssD langD gv cur ctx _
            (by decide) (by decide) (by decide) (by decide) (by decide) (by decide),
          lookup_jsAssign _ _ hov2, lookup_jsAssign _ _ hov1,
          show List.lookup "version" (baselineOverlay ctx gv P depD devD) =
            some (.str ctx.version) from rfl,
          show List.lookup "version" (baselineOverlay ctx gv cur depD devD) =
            some (.str ctx.version) from rfl]
      rfl
    by_cases h10 : k = "description"
    · subst h10
      rw [lookup_untouched_purePipeline depD devD docsD cssD langD gv P ctx _
            (by decide) (by decide) (by decide) (by decide) (by decide) (by decide),
          lookup_untouched_purePipeline depD devD docsD cssD langD gv cur ctx _
            (by decide) (by decide) (by decide) (by decide) (by decide) (by decide),
          lookup_jsAssign _ _ hov2, lookup_jsAssign _ _ hov1,
          show List.lookup "description" (baselineOverlay ctx gv P depD devD) =
            some (.str ctx.description) from rfl,
          show List.lookup "description" (baselineOverlay ctx gv cur depD devD) =
            some (.str ctx.description) from rfl]
      rfl
    by_cases h11 : k = "main"
    · subst h11
      rw [lookup_untouched_purePipeline depD devD docsD cssD langD gv P ctx _
            (by decide) (by decide) (by decide) (by decide) (by decide) (by decide),
          lookup_untouched_purePipeline depD devD docsD cssD langD gv cur ctx _
            (by decide) (by decide) (by decide) (by decide) (by decide) (by decide),
          lookup_jsAssign _ _ hov2, lookup_jsAssign _ _ hov1,
          show List.lookup "main" (baselineOverlay ctx gv P depD devD) =
            some (.str (scriptify ctx "dist/%s.cjs.js")) from rfl,
          show List.lookup "main" (baselineOverlay ctx gv cur depD devD) =
            some (.str (scriptify ctx "dist/%s.cjs.js")) from rfl]
      rfl
    by_cases h12 : k = "module"
    · subst h12
      rw [lookup_untouched_purePipeline depD devD docsD cssD langD gv P ctx _
            (by decide) (by decide) (by decide) (by decide) (by decide) (by decide),
          lookup_untouched_purePipeline depD devD docsD cssD langD gv cur ctx _
            (by decide) (by decide) (by decide) (by decide) (by decide) (by decide),
          lookup_jsAssign _ _ hov2, lookup_jsAssign _ _ hov1,
          show List.lookup "module" (baselineOverlay ctx gv P depD devD) =
            some (.str (scriptify ctx "dist/%s.es.js")) from rfl,
          show List.lookup "module" (baselineOverlay ctx gv cur depD devD) =
            some (.str (scriptify ctx "dist/%s.es.js")) from rfl]
      rfl
    by_cases h13 : k = "generator-videojs-plugin"
    · subst h13
      rw [lookup_untouched_purePipeline depD devD docsD cssD langD gv P ctx _
            (by decide) (by decide) (by decide) (by decide) (by decide) (by decide),
          lookup_untouched_purePipeline depD devD docsD cssD langD gv cur ctx _
            (by decide) (by decide) (by decide) (by decide) (by decide) (by decide),
          lookup_jsAssign _ _ hov2, lookup_jsAssign _ _ hov1,
          show List.lookup "generator-videojs-plugin" (baselineOverlay ctx gv P depD devD) =
            some (.obj [("version", .str gv)]) from rfl,
          show List.lookup "generator-videojs-plugin" (baselineOverlay ctx gv cur depD devD) =
            some (.obj [("version", .str gv)]) from rfl]
      rfl
    by_cases h14 : k = "browserslist"
    · subst h14
      rw [lookup_untouched_purePipeline depD devD docsD cssD langD gv P ctx _
            (by decide) (by decide) (by decide) (by decide) (by decide) (by decide),
          lookup_untouched_purePipeline depD devD docsD cssD langD gv cur ctx _
            (by decide) (by decide) (by decide) (by decide) (by decide) (by decide),
          lookup_jsAssign _ _ hov2, lookup_jsAssign _ _ hov1,
          show List.lookup "browserslist" (baselineOverlay ctx gv P depD devD) =
            some (.arr [.str "defaults", .str "ie 11"]) from rfl,
          show List.lookup "browserslist" (baselineOverlay ctx gv cur depD devD) =
            some (.arr [.str "defaults", .str "ie 11"]) from rfl]
      rfl
    by_cases h15 : k = "engines"
    · subst h15
      rw [lookup_untouched_purePipeline depD devD docsD cssD langD gv P ctx _
            (by decide) (by decide) (by decide) (by decide) (by decide) (by decide),
          lookup_untouched_purePipeline depD devD docsD cssD langD gv cur ctx _
            (by decide) (by decide) (by decide) (by decide) (by decide) (by decide),
          lookup_jsAssign _ _ hov2, lookup_jsAssign _ _ hov1,
          show List.lookup "engines" (baselineOverlay ctx gv P depD devD) =
            some (.obj [("node", .str ">=8"), ("npm", .str ">=5")]) from rfl,
          show List.lookup "engines" (baselineOverlay ctx gv cur depD devD) =
            some (.obj [("node", .str ">=8"), ("npm", .str ">=5")]) from rfl]
      rfl
    by_cases h16 : k = "author"
    · subst h16
      rw [lookup_untouched_purePipeline depD devD docsD cssD langD gv P ctx _
            (by decide) (by decide) (by decide) (by decide) (by decide) (by decide),
          lookup_untouched_purePipeline depD devD docsD cssD langD gv cur ctx _
            (by decide) (by decide) (by decide) (by decide) (by decide) (by decide),
          lookup_jsAssign _ _ hov2, lookup_jsAssign _ _ hov1,
          show List.lookup "author" (baselineOverlay ctx gv P depD devD) =
            some ctx.author from rfl,
          show List.lookup "author" (baselineOverlay ctx gv cur depD devD) =
            some ctx.author from rfl]
      rfl
    by_cases h17 : k = "license"
    · subst h17
      rw [lookup_untouched_purePipeline depD devD docsD cssD langD gv P ctx _
            (by decide) (by decide) (by decide) (by decide) (by decide) (by decide),
          lookup_untouched_purePipeline depD devD docsD cssD langD gv cur ctx _
            (by decide) (by decide) (by decide) (by decide) (by decide) (by decide),
          lookup_jsAssign _ _ hov2, lookup_jsAssign _ _ hov1,
          show List.lookup "license" (baselineOverlay ctx gv P depD devD) =
            some ctx.licenseName from rfl,
          show List.lookup "license" (baselineOverlay ctx gv cur depD devD) =
            some ctx.licenseName from rfl]
      rfl
    by_cases h18 : k = "vjsstandard"
    · subst h18
      rw [lookup_untouched_purePipeline depD devD docsD cssD langD gv P ctx _
            (by decide) (by decide) (by decide) (by decide) (by decide) (by decide),
          lookup_untouched_purePipeline depD devD docsD cssD langD gv cur ctx _
            (by decide) (by decide) (by decide) (by decide) (by decide) (by decide),
          lookup_jsAssign _ _ hov2, lookup_jsAssign _ _ hov1,
          show List.lookup "vjsstandard" (baselineOverlay ctx gv P depD devD) =
            some (.obj [("ignore", .arr [.str "dist", .str "docs", .str "test/dist"])]) from rfl,
          show List.lookup "vjsstandard" (baselineOverlay ctx gv cur depD devD) =
            some (.obj [("ignore", .arr [.str "dist", .str "docs", .str "test/dist"])]) from rfl]
      rfl
    have hnone1 : List.lookup k (baselineOverlay ctx gv P depD devD) = none := by
      apply lookup_eq_none_of_not_mem
      rw [keysOf_baselineOverlay]
      intro hm
      simp only [overlayKeys, List.mem_cons, List.not_mem_nil, or_false] at hm
      rcases hm with rfl|rfl|rfl|rfl|rfl|rfl|rfl|rfl|rfl|rfl|rfl|rfl|rfl|rfl|rfl|rfl|rfl|rfl <;>
        first | exact absurd rfl h1 | exact absurd rfl h2 | exact absurd rfl h3 | exact absurd rfl h4 | exact absurd rfl h5 | exact absurd rfl h6 | exact absurd rfl h7 | exact absurd rfl h8 | exact absurd rfl h9 | exact absurd rfl h10 | exact absurd rfl h11 | exact absurd rfl h12 | exact absurd rfl h13 | exact absurd rfl h14 | exact absurd rfl h15 | exact absurd rfl h16 | exact absurd rfl h17 | exact absurd rfl h18
    rw [lookup_untouched_purePipeline depD devD docsD cssD langD gv P ctx k
          h1 h2 h3 h7 h5 h6]
    exact lookup_jsAssign_none_upd _ _ _ hnone1
  have hmain : purePipeline depD devD docsD cssD langD gv P ctx = P := by
    apply alist_ext _ _ (keysOf_purePipeline_self depD devD docsD cssD langD gv cur ctx)
    · rw [keysOf_purePipeline_self depD devD docsD cssD langD gv cur ctx]
      exact nodup_keys_purePipeline depD devD docsD cssD langD gv cur ctx hndTop
    · exact hlookAll
  rw [packageJSON_eq, e1, e2, e3, e4, e5]
  show Except.ok (purePipeline depD devD docsD cssD langD gv P ctx) = Except.ok P
  rw [hmain]

theorem C1_idempotent_witness :
    packageJSON sampleRegistry "7.2.0" outBase ctxAllOff = .ok outBase :=
  C1_amended_packageJSON_idempotent sampleRegistry "7.2.0" [] ctxAllOff outBase
    rfl (by decide) (by decide) (by decide) (by decide) (by decide)
    (by intro v hv; cases hv)
